import Mathlib

/-!
# Pilotage: hierarchical execution and status propagation

Shallow embedding of `pilotage/module` (`module.go`, `action.go`, `stage.go`,
`flow.go`).  Go methods with pointer receivers become functions that take the
receiver and return its updated value.  Everything outside the package (the
clock, the console, the persistent store, job dispatch, the notifier registry)
is a field of `Env`, threaded through an abstract world state `W`.
-/

namespace Pilotage

/-! ## Constants (`module.go`) -/

def CliRun : String := "CliRun"

def DaemonRun : String := "DaemonRun"

def DaemonStart : String := "DaemonStart"

def StartStage : String := "start"

def EndStage : String := "end"

def NormalStage : String := "normal"

def PauseStage : String := "pause"

def Sequencing : String := "sequence"

def Parallel : String := "parallel"

def Cancel : String := "cancel"

def Pending : String := "pending"

def Running : String := "running"

def Failure : String := "failure"

def Success : String := "success"

/-! ## Data model -/

/-- Resource request of a job (`module.go`, `Resource`). -/
structure Resource where
  CPU : String
  Memory : String
deriving DecidableEq, Repr

/-- Leaf unit of work (`module.go`, `Job`); a Go `map[string]string` is kept as
an association list. -/
structure Job where
  T : String
  Kubectl : String
  Endpoint : String
  Timeout : String
  Resources : Resource
  Environments : List (List (String × String))
  Output : List String
  Log : List String
  Status : String
deriving DecidableEq, Repr

/-- Action as declared in `action.go`. -/
structure Action where
  Name : String
  Title : String
  Status : String
  Jobs : List Job
  Logs : List String
deriving DecidableEq, Repr

/-- Stage as declared in `stage.go`. -/
structure Stage where
  T : String
  Name : String
  Title : String
  Sequencing : String
  Status : String
  Logs : List String
  Actions : List Action
deriving DecidableEq, Repr

/-- Receiver of the flow execution result (`flow.go`); `Typ` is the Go field
`Type`. -/
structure Receiver where
  Typ : String
  Address : String
deriving DecidableEq, Repr

/-- Flow as declared in `flow.go`; `int64` fields are integers. -/
structure Flow where
  ID : Int
  Model : String
  URI : String
  Number : Int
  Title : String
  Version : Int
  Tag : String
  Timeout : Int
  Status : String
  Logs : List String
  Stages : List Stage
  Receivers : List Receiver
deriving DecidableEq, Repr

/-! ## External collaborators -/

/-- Outcome of `job.Run(name, verbose, timestamp, f)`: the returned pair
`(status, err)`, the job as the call left it, the lines the call appended to
the flow log, and the world afterwards. -/
structure JobResult (W : Type) where
  status : String
  err : Option String
  job : Job
  flowLogs : List String
  world : W

/-- Outcome of `stage.ParallelRun(verbose, timestamp, f, i)`, whose body is not
part of the package sources: the returned pair, the stage as the call left it,
the lines appended to the flow log, and the world afterwards. -/
structure ParallelResult (W : Type) where
  status : String
  err : Option String
  stage : Stage
  flowLogs : List String
  world : W

/-- Everything the package calls but does not define.  `notify ty f addrs w`
is `Notifiers[ty].Notify(f, addrs)`: `none` when the registry holds no notifier
for `ty` (the call on the nil entry aborts the program), otherwise the returned
error and the world afterwards. -/
structure Env (W : Type) where
  now : W → String × W
  println : String → W → W
  logCreate : Int → String → W → W
  jobRun : String → Bool → Bool → Job → W → JobResult W
  parallelRun : Bool → Bool → Stage → Nat → W → ParallelResult W
  marshal : Flow → String
  flowPut : String → String → String → String → String → String → Int → Int → W →
    (Int × Option String) × W
  getNumbers : Int → W → (Int × Option String) × W
  dataPut : Int → Int → String → String → String → W → Option String × W
  notify : String → Flow → List String → W → Option (Option String × W)

/-! ## Formatting helpers -/

/-- Go `unicode.IsSpace`. -/
def unicodeIsSpace (c : Char) : Bool :=
  let n := c.toNat
  (9 ≤ n && n ≤ 13) || n == 32 || n == 0x85 || n == 0xA0 || n == 0x1680 ||
  (0x2000 ≤ n && n ≤ 0x200A) || n == 0x2028 || n == 0x2029 || n == 0x202F ||
  n == 0x205F || n == 0x3000

/-- Go `strings.TrimSpace`. -/
def TrimSpace (s : String) : String :=
  String.mk ((s.data.dropWhile unicodeIsSpace).reverse.dropWhile unicodeIsSpace).reverse

/-- Rendering of aurora `Cyan(s)`: the text between the cyan and reset escapes. -/
def Cyan (s : String) : String := "\x1b[36m" ++ s ++ "\x1b[0m"

/-- The line `fmt.Sprintf("[%s] %s", t, log)`. -/
def stamped (t log : String) : String := "[" ++ t ++ "] " ++ log

/-- The `if verbose == true` block shared by the three `Log` methods. -/
def mirror {W : Type} (env : Env W) (log : String) (verbose timestamp : Bool) (w : W) : W :=
  if verbose = true then
    if timestamp = true then
      let t := env.now w
      env.println (Cyan (stamped t.1 (TrimSpace log))) t.2
    else
      env.println (Cyan log) w
  else w

/-! ## Log recorder -/

/-- `(a *Action) Log` (`action.go`). -/
def Action.Log {W : Type} (env : Env W) (a : Action) (log : String)
    (verbose timestamp : Bool) (w : W) : Action × W :=
  let t := env.now w
  ({ a with Logs := a.Logs ++ [stamped t.1 log] }, mirror env log verbose timestamp t.2)

/-- `(s *Stage) Log` (`stage.go`). -/
def Stage.Log {W : Type} (env : Env W) (s : Stage) (log : String)
    (verbose timestamp : Bool) (w : W) : Stage × W :=
  let t := env.now w
  ({ s with Logs := s.Logs ++ [stamped t.1 log] }, mirror env log verbose timestamp t.2)

/-- `(f *Flow) Log` (`flow.go`): append, forward to the log store, mirror. -/
def Flow.Log {W : Type} (env : Env W) (f : Flow) (log : String)
    (verbose timestamp : Bool) (w : W) : Flow × W :=
  let t := env.now w
  let w1 := env.logCreate f.ID log t.2
  ({ f with Logs := f.Logs ++ [stamped t.1 log] }, mirror env log verbose timestamp w1)

/-! ## Execution traces

The runners below return, next to the values the Go code returns or mutates, a
record of the calls they made.  The record is written and never read. -/

/-- One call of `job.Run`: the index of the job and what the call returned. -/
structure JobEvent where
  index : Nat
  status : String
  err : Option String
deriving DecidableEq, Repr

/-- One call of `action.Run`: the index of the action, the status the call
returned, and the job dispatches made inside it. -/
structure ActionEvent where
  index : Nat
  status : String
  jobs : List JobEvent
deriving DecidableEq, Repr

/-- One iteration of the stage loop of `LocalRun`: the index of the stage, the
flow status when the iteration reaches the `break` test, and the `action.Run`
calls made by `SequencingRun` inside it. -/
structure StageEvent where
  index : Nat
  status : String
  actions : List ActionEvent
deriving DecidableEq, Repr

/-! ## Action runner (`action.go`) -/

/-- Variables live in the loop of `Action.Run`. -/
structure ActionState (W : Type) where
  a : Action
  f : Flow
  w : W
  trace : List JobEvent

/-- What `Action.Run` returns and leaves behind. -/
structure ActionResult (W : Type) where
  status : String
  err : Option String
  action : Action
  flow : Flow
  world : W
  trace : List JobEvent

/-- Body of the loop of `Action.Run` for index `i` (lines 62-75), before the
`break` test; `job` is `a.Jobs[i]`. -/
def Action.RunBody {W : Type} (env : Env W) (verbose timestamp : Bool) (i : Nat) (job : Job)
    (st : ActionState W) : ActionState W :=
  let msg := "The Number [" ++ toString i ++ "] job is running: " ++ st.a.Title
  let l1 := st.a.Log env msg false timestamp st.w
  let l2 := st.f.Log env msg verbose timestamp l1.2
  let r := env.jobRun l1.1.Name verbose timestamp job l2.2
  let a1 : Action := { l1.1 with Jobs := l1.1.Jobs.set i r.job }
  let f1 : Flow := { l2.1 with Logs := l2.1.Logs ++ r.flowLogs }
  let tr := st.trace ++ [{ index := i, status := r.status, err := r.err }]
  match r.err with
  | some e =>
    let a2 : Action := { a1 with Status := Failure }
    let emsg := "Job [" ++ toString i ++ "] run error: " ++ e
    let l3 := a2.Log env emsg false timestamp r.world
    let l4 := f1.Log env emsg verbose timestamp l3.2
    { a := l3.1, f := l4.1, w := l4.2, trace := tr }
  | none =>
    { a := { a1 with Status := r.status }, f := f1, w := r.world, trace := tr }

/-- The `for i, _ := range a.Jobs` loop of `Action.Run`: `n` iterations remain,
the next index is `i`. -/
def Action.RunLoop {W : Type} (env : Env W) (verbose timestamp : Bool) :
    Nat → Nat → ActionState W → ActionState W
  | 0, _, st => st
  | n + 1, i, st =>
    match st.a.Jobs[i]? with
    | none => st
    | some job =>
      let st1 := Action.RunBody env verbose timestamp i job st
      if st1.a.Status = Failure ∨ st1.a.Status = Cancel then st1
      else Action.RunLoop env verbose timestamp n (i + 1) st1

/-- Lines 56-59 of `Action.Run`: the status change and its two log lines. -/
def Action.RunInit {W : Type} (env : Env W) (a : Action) (verbose timestamp : Bool) (f : Flow)
    (w : W) : ActionState W :=
  let a0 : Action := { a with Status := Running }
  let msg := "Action [" ++ a0.Name ++ "] status change to " ++ a0.Status
  let l1 := a0.Log env msg false timestamp w
  let l2 := f.Log env msg verbose timestamp l1.2
  { a := l1.1, f := l2.1, w := l2.2, trace := [] }

/-- `(a *Action) Run` (`action.go`). -/
def Action.Run {W : Type} (env : Env W) (a : Action) (verbose timestamp : Bool) (f : Flow)
    (w : W) : ActionResult W :=
  let st0 := Action.RunInit env a verbose timestamp f w
  let st := Action.RunLoop env verbose timestamp st0.a.Jobs.length 0 st0
  { status := st.a.Status, err := none, action := st.a, flow := st.f, world := st.w,
    trace := st.trace }

/-! ## Stage executor (`stage.go`) -/

/-- Variables live in the loop of `Stage.SequencingRun`. -/
structure StageState (W : Type) where
  s : Stage
  f : Flow
  w : W
  trace : List ActionEvent

/-- What `Stage.SequencingRun` returns and leaves behind. -/
structure StageResult (W : Type) where
  status : String
  err : Option String
  stage : Stage
  flow : Flow
  world : W
  trace : List ActionEvent

/-- Body of the loop of `Stage.SequencingRun` for index `i` (lines 66-79),
before the `break` test; `action` is `s.Actions[i]`. -/
def Stage.SequencingBody {W : Type} (env : Env W) (verbose timestamp : Bool) (i : Nat)
    (action : Action) (st : StageState W) : StageState W :=
  let msg := "The Number [" ++ toString i ++ "] action is running: " ++ st.s.Title
  let l1 := st.s.Log env msg false timestamp st.w
  let l2 := st.f.Log env msg verbose timestamp l1.2
  let r := Action.Run env action verbose timestamp l2.1 l2.2
  let s1 : Stage := { l1.1 with Actions := l1.1.Actions.set i r.action }
  let tr := st.trace ++ [{ index := i, status := r.status, jobs := r.trace }]
  match r.err with
  | some e =>
    let s2 : Stage := { s1 with Status := Failure }
    let emsg := "Action [" ++ r.action.Name ++ "] run error: " ++ e
    let l3 := s2.Log env emsg false timestamp r.world
    let l4 := r.flow.Log env emsg verbose timestamp l3.2
    { s := l3.1, f := l4.1, w := l4.2, trace := tr }
  | none =>
    { s := { s1 with Status := r.status }, f := r.flow, w := r.world, trace := tr }

/-- The `for i, _ := range s.Actions` loop of `Stage.SequencingRun`. -/
def Stage.SequencingLoop {W : Type} (env : Env W) (verbose timestamp : Bool) :
    Nat → Nat → StageState W → StageState W
  | 0, _, st => st
  | n + 1, i, st =>
    match st.s.Actions[i]? with
    | none => st
    | some action =>
      let st1 := Stage.SequencingBody env verbose timestamp i action st
      if st1.s.Status = Failure ∨ st1.s.Status = Cancel then st1
      else Stage.SequencingLoop env verbose timestamp n (i + 1) st1

/-- Lines 60-63 of `Stage.SequencingRun`: the status change and its two log
lines. -/
def Stage.SequencingInit {W : Type} (env : Env W) (s : Stage) (verbose timestamp : Bool)
    (f : Flow) (w : W) : StageState W :=
  let s0 : Stage := { s with Status := Running }
  let msg := "Stage [" ++ s0.Name ++ "] status change to " ++ s0.Status
  let l1 := s0.Log env msg false timestamp w
  let l2 := f.Log env msg verbose timestamp l1.2
  { s := l1.1, f := l2.1, w := l2.2, trace := [] }

/-- `(s *Stage) SequencingRun` (`stage.go`). -/
def Stage.SequencingRun {W : Type} (env : Env W) (s : Stage) (verbose timestamp : Bool)
    (f : Flow) (w : W) : StageResult W :=
  let st0 := Stage.SequencingInit env s verbose timestamp f w
  let st := Stage.SequencingLoop env verbose timestamp st0.s.Actions.length 0 st0
  { status := st.s.Status, err := none, stage := st.s, flow := st.f, world := st.w,
    trace := st.trace }

/-! ## Flow orchestrator (`flow.go`) -/

/-- Pieces of a character list between occurrences of `sep`. -/
def splitChars (sep : Char) : List Char → List (List Char)
  | [] => [[]]
  | c :: cs =>
    if c = sep then [] :: splitChars sep cs
    else
      match splitChars sep cs with
      | [] => [[c]]
      | h :: t => (c :: h) :: t

/-- Go `strings.Split(s, sep)` for a separator of one character, which is how
`URIs` calls it. -/
def Split (s : String) (sep : Char) : List String :=
  (splitChars sep s.data).map String.mk

/-- `(f *Flow) URIs` (`flow.go`): the three results and the error. -/
def Flow.URIs (f : Flow) : (String × String × String) × Option String :=
  let array := Split f.URI '/'
  match array with
  | [namespace_, repository, name] => ((namespace_, repository, name), none)
  | _ => (("", "", ""), some ("Invalid flow URI: " ++ f.URI))

/-- Two's-complement wrap of an `int64` result. -/
def wrapInt64 (x : Int) : Int := (x + 2 ^ 63) % 2 ^ 64 - 2 ^ 63

/-- Variables live in the stage loop of `LocalRun`. -/
structure FlowState (W : Type) where
  f : Flow
  w : W
  trace : List StageEvent

/-- What `LocalRun` leaves behind.  `panicked` tells that the call was aborted
by a notifier lookup that found nothing; otherwise `LocalRun` returned `err`. -/
structure FlowResult (W : Type) where
  err : Option String
  panicked : Bool
  flow : Flow
  world : W
  trace : List StageEvent
  notified : List Receiver

/-- The `case NormalStage:` arm of `LocalRun` (lines 147-165) for the stage
`stage = f.Stages[i]`.  The call `stage.SequencingRun(verbose, timestamp, f, i)`
passes an index that the method in `stage.go` does not take. -/
def Flow.NormalArm {W : Type} (env : Env W) (verbose timestamp : Bool) (i : Nat) (stage : Stage)
    (f : Flow) (w : W) : Flow × W × List ActionEvent :=
  if stage.Sequencing = Parallel then
    let r := env.parallelRun verbose timestamp stage i w
    let f1 : Flow := { f with Stages := f.Stages.set i r.stage, Logs := f.Logs ++ r.flowLogs }
    match r.err with
    | some e =>
      let l := ({ f1 with Status := Failure } : Flow).Log env
        ("Stage [" ++ r.stage.Name ++ "] run error: " ++ e) verbose timestamp r.world
      (l.1, l.2, [])
    | none => ({ f1 with Status := r.status }, r.world, [])
  else if stage.Sequencing = Sequencing then
    let r := stage.SequencingRun env verbose timestamp f w
    let f1 : Flow := { r.flow with Stages := r.flow.Stages.set i r.stage }
    match r.err with
    | some e =>
      let l := ({ f1 with Status := Failure } : Flow).Log env
        ("Stage [" ++ r.stage.Name ++ "] run error: " ++ e) verbose timestamp r.world
      (l.1, l.2, r.trace)
    | none => ({ f1 with Status := r.status }, r.world, r.trace)
  else
    let l := ({ f with Status := Failure } : Flow).Log env
      ("Stage [" ++ stage.Name ++ "] has unknown sequencing type: " ++ stage.T)
      verbose timestamp w
    (l.1, l.2, [])

/-- Body of the stage loop of `LocalRun` for index `i` (lines 139-170), before
the `break` test; `stage` is `f.Stages[i]`. -/
def Flow.LocalRunBody {W : Type} (env : Env W) (verbose timestamp : Bool) (i : Nat)
    (stage : Stage) (st : FlowState W) : FlowState W :=
  let l1 := st.f.Log env ("The Number [" ++ toString i ++ "] stage is running: " ++ stage.Title)
    verbose timestamp st.w
  if stage.T = StartStage then
    let l2 := l1.1.Log env "Start stage don't need any trigger in cli or daemon run mode."
      verbose timestamp l1.2
    { f := l2.1, w := l2.2,
      trace := st.trace ++ [{ index := i, status := l2.1.Status, actions := [] }] }
  else if stage.T = NormalStage then
    let r := Flow.NormalArm env verbose timestamp i stage l1.1 l1.2
    { f := r.1, w := r.2.1,
      trace := st.trace ++ [{ index := i, status := r.1.Status, actions := r.2.2 }] }
  else if stage.T = PauseStage then
    { f := l1.1, w := l1.2,
      trace := st.trace ++ [{ index := i, status := l1.1.Status, actions := [] }] }
  else if stage.T = EndStage then
    let l2 := l1.1.Log env "End stage don't trigger any other flow." verbose timestamp l1.2
    { f := l2.1, w := l2.2,
      trace := st.trace ++ [{ index := i, status := l2.1.Status, actions := [] }] }
  else
    { f := l1.1, w := l1.2,
      trace := st.trace ++ [{ index := i, status := l1.1.Status, actions := [] }] }

/-- The `for i, _ := range f.Stages` loop of `LocalRun`. -/
def Flow.LocalRunLoop {W : Type} (env : Env W) (verbose timestamp : Bool) :
    Nat → Nat → FlowState W → FlowState W
  | 0, _, st => st
  | n + 1, i, st =>
    match st.f.Stages[i]? with
    | none => st
    | some stage =>
      let st1 := Flow.LocalRunBody env verbose timestamp i stage st
      if st1.f.Status = Failure ∨ st1.f.Status = Cancel then st1
      else Flow.LocalRunLoop env verbose timestamp n (i + 1) st1

/-- Lines 117-136 of `LocalRun`: status change, flow record, start time.  The
result carries the flow, the `flowID` variable, `startTime` and the world. -/
def Flow.LocalRunInit {W : Type} (env : Env W) (f : Flow) (verbose timestamp : Bool) (w : W) :
    Flow × Int × String × W :=
  let f0 : Flow := { f with Status := Running }
  let l1 := f0.Log env ("Flow [" ++ f0.URI ++ "] status change to " ++ f0.Status)
    verbose timestamp w
  let u := l1.1.URIs
  let l2 : Flow × W :=
    match u.2 with
    | some e => l1.1.Log env ("Parse Flow [" ++ l1.1.URI ++ "] error: " ++ e)
        verbose timestamp l1.2
    | none => l1
  let content := env.marshal l2.1
  let p := env.flowPut u.1.1 u.1.2.1 u.1.2.2 l2.1.Tag l2.1.Title content l2.1.Version
    l2.1.Timeout l2.2
  let l3 : Flow × W :=
    match p.1.2 with
    | some e => l2.1.Log env ("Save Flow [" ++ l2.1.URI ++ "] error: " ++ e)
        verbose timestamp p.2
    | none => (l2.1, p.2)
  let f1 : Flow := { l3.1 with ID := p.1.1 }
  let t := env.now l3.2
  (f1, p.1.1, t.1, t.2)

/-- Lines 178-184 of `LocalRun`: the run record. -/
def Flow.LocalRunRecord {W : Type} (env : Env W) (f : Flow) (flowID : Int) (startTime : String)
    (verbose timestamp : Bool) (w : W) : Flow × W :=
  let g := env.getNumbers flowID w
  let l1 : Flow × W :=
    match g.1.2 with
    | some e => f.Log env ("Get Flow Data [" ++ f.URI ++ "] Numbers error: " ++ e)
        verbose timestamp g.2
    | none => (f, g.2)
  let t := env.now l1.2
  let d := env.dataPut l1.1.ID (wrapInt64 (g.1.1 + 1)) l1.1.Status startTime t.1 t.2
  match d.1 with
  | some e => l1.1.Log env ("Save Flow Data [" ++ l1.1.URI ++ "] error: " ++ e)
      verbose timestamp d.2
  | none => (l1.1, d.2)

/-- The `for _, receiver := range f.Receivers` loop of `LocalRun` (lines
188-195).  The result is the flow, the world, the receivers whose notifier was
invoked, and whether a lookup that found nothing aborted the loop. -/
def Flow.NotifyLoop {W : Type} (env : Env W) (verbose timestamp : Bool) :
    List Receiver → Flow → W → List Receiver → Flow × W × List Receiver × Bool
  | [], f, w, done => (f, w, done, false)
  | receiver :: rest, f, w, done =>
    match env.notify receiver.Typ f [receiver.Address] w with
    | none => (f, w, done, true)
    | some (some e, w1) =>
      let l := f.Log env ("Notify User Error: " ++ e) verbose timestamp w1
      Flow.NotifyLoop env verbose timestamp rest l.1 l.2 (done ++ [receiver])
    | some (none, w1) =>
      let l := f.Log env ("Notify User " ++ receiver.Address ++ " Success")
        verbose timestamp w1
      Flow.NotifyLoop env verbose timestamp rest l.1 l.2 (done ++ [receiver])

/-- `(f *Flow) LocalRun` (`flow.go`). -/
def Flow.LocalRun {W : Type} (env : Env W) (f : Flow) (verbose timestamp : Bool) (w : W) :
    FlowResult W :=
  let i0 := Flow.LocalRunInit env f verbose timestamp w
  let st := Flow.LocalRunLoop env verbose timestamp i0.1.Stages.length 0
    { f := i0.1, w := i0.2.2.2, trace := [] }
  let rec_ := Flow.LocalRunRecord env st.f i0.2.1 i0.2.2.1 verbose timestamp st.w
  let n : Flow × W × List Receiver × Bool :=
    if rec_.1.Receivers.length > 0 then
      Flow.NotifyLoop env verbose timestamp rec_.1.Receivers rec_.1 rec_.2 []
    else (rec_.1, rec_.2, [], false)
  { err := none, panicked := n.2.2.2, flow := n.1, world := n.2.1, trace := st.trace,
    notified := n.2.2.1 }

/-! ## Test fixtures -/

/-- A job whose `Kubectl` field names the status its dispatch is to return. -/
def mkJob (result : String) : Job :=
  { T := "kubectl", Kubectl := result, Endpoint := "", Timeout := "",
    Resources := { CPU := "", Memory := "" }, Environments := [], Output := [], Log := [],
    Status := "" }

/-- An action with the given jobs and declared status. -/
def mkAction (name status : String) (jobs : List Job) : Action :=
  { Name := name, Title := name, Status := status, Jobs := jobs, Logs := [] }

/-- A stage of the given kind and sequencing. -/
def mkStage (kind sequencing status : String) (actions : List Action) : Stage :=
  { T := kind, Name := kind, Title := kind, Sequencing := sequencing, Status := status,
    Logs := [], Actions := actions }

/-- A flow with the given declared status, stages and receivers. -/
def mkFlow (status : String) (stages : List Stage) (receivers : List Receiver) : Flow :=
  { ID := 0, Model := CliRun, URI := "ns/repo/flow", Number := 1, Title := "", Version := 1,
    Tag := "", Timeout := 0, Status := status, Logs := [], Stages := stages,
    Receivers := receivers }

/-- A world-free environment: dispatch of a job returns an error when the
job's `Kubectl` field is `"error"`, else the status `Failure` or `Cancel` when
the field names it, else `Success`; the store and the notifier registered
under `"mail"` succeed. -/
def testEnv : Env Unit where
  now := fun w => ("t", w)
  println := fun _ w => w
  logCreate := fun _ _ w => w
  jobRun := fun _ _ _ job w =>
    if job.Kubectl = "error" then
      { status := Failure, err := some "dispatch failed", job := job, flowLogs := [], world := w }
    else if job.Kubectl = Failure then
      { status := Failure, err := none, job := { job with Status := Failure },
        flowLogs := [], world := w }
    else if job.Kubectl = Cancel then
      { status := Cancel, err := none, job := { job with Status := Cancel },
        flowLogs := [], world := w }
    else
      { status := Success, err := none, job := { job with Status := Success },
        flowLogs := [], world := w }
  parallelRun := fun _ _ stage _ w =>
    { status := Success, err := none, stage := stage, flowLogs := [], world := w }
  marshal := fun _ => ""
  flowPut := fun _ _ _ _ _ _ _ _ w => ((1, none), w)
  getNumbers := fun _ w => ((0, none), w)
  dataPut := fun _ _ _ _ _ w => (none, w)
  notify := fun ty _ _ w => if ty = "mail" then some (none, w) else none

/-! ## Vocabulary of the statements -/

/-- The three terminal values of a status. -/
def Terminal (s : String) : Prop := s = Success ∨ s = Failure ∨ s = Cancel

instance (s : String) : Decidable (Terminal s) := by unfold Terminal; infer_instance

/-- The test `Status == Failure || Status == Cancel` that ends each loop. -/
def Halts (s : String) : Prop := s = Failure ∨ s = Cancel

instance (s : String) : Decidable (Halts s) := by unfold Halts; infer_instance

/-- The status an iteration of `Action.Run` stores for a dispatch that returned
`(status, err)`. -/
def JobEvent.outcome (e : JobEvent) : String :=
  match e.err with
  | some _ => Failure
  | none => e.status

/-- Event `e` holds the pair returned by some call of the job dispatch of
`env`. -/
def JobEvent.From {W : Type} (env : Env W) (verbose timestamp : Bool) (e : JobEvent) : Prop :=
  ∃ name job w, e.status = (env.jobRun name verbose timestamp job w).status ∧
    e.err = (env.jobRun name verbose timestamp job w).err

/-- Shape of the events `evs` recorded by a loop that starts at index `i` with
`n` iterations left: indices ascend from `i`, only the last recorded iteration
may have ended in a halting status, and the loop stopped short of `n` only
after such an iteration. -/
def LoopTrace {ε : Type} (outcome : ε → String) (index : ε → Nat) (n i : Nat)
    (evs : List ε) : Prop :=
  evs.length ≤ n ∧
  (∀ p e, evs[p]? = some e → index e = i + p) ∧
  (∀ p e, evs[p]? = some e → p + 1 < evs.length → ¬ Halts (outcome e)) ∧
  (evs.length < n → ∃ e, evs.getLast? = some e ∧ Halts (outcome e))

/-- The status a loop ends with: the outcome of the last recorded iteration, or
the status it started with. -/
def lastOutcome {ε : Type} (outcome : ε → String) (init : String) (evs : List ε) : String :=
  match evs.getLast? with
  | some e => outcome e
  | none => init

/-! ## Frame conditions and run records -/

/-- Flow `g` is flow `f` with log lines added and nothing else changed. -/
def Flow.LogsExtend (f g : Flow) : Prop :=
  g = { f with Logs := g.Logs } ∧ f.Logs <+: g.Logs

/-- Action `b` is action `a` after some run: same name and title, as many
jobs, log lines added. -/
def Action.Kept (a b : Action) : Prop :=
  b.Name = a.Name ∧ b.Title = a.Title ∧ b.Jobs.length = a.Jobs.length ∧ a.Logs <+: b.Logs

/-- Stage `t` is stage `s` after some run: same kind, name, title and
sequencing, as many actions, log lines added. -/
def Stage.Kept (s t : Stage) : Prop :=
  t.T = s.T ∧ t.Name = s.Name ∧ t.Title = s.Title ∧ t.Sequencing = s.Sequencing ∧
  t.Actions.length = s.Actions.length ∧ s.Logs <+: t.Logs

/-- Event `e` records a call of `Action.Run` that took action `a` to action
`b`: the status returned is the status stored in `b`, the dispatches form a
loop trace over the jobs of `a`, and jobs not dispatched are untouched. -/
def ActionEvent.Records {W : Type} (env : Env W) (verbose timestamp : Bool) (e : ActionEvent)
    (a b : Action) : Prop :=
  b.Status = e.status ∧
  LoopTrace JobEvent.outcome JobEvent.index a.Jobs.length 0 e.jobs ∧
  (∀ x ∈ e.jobs, x.From env verbose timestamp) ∧
  e.status = lastOutcome JobEvent.outcome Running e.jobs ∧
  (∀ q, e.jobs.length ≤ q → b.Jobs[q]? = a.Jobs[q]?) ∧
  Action.Kept a b

/-- The stage of the scenario: sequential, actions `A1` (success), `A2`
(failure), `A3` (success), one job each. -/
def scenarioStage : Stage :=
  mkStage NormalStage Sequencing ""
    [mkAction "A1" "" [mkJob Success], mkAction "A2" "" [mkJob Failure],
     mkAction "A3" "" [mkJob Success]]

/-- The flow of the scenario: a start stage, then `scenarioStage`. -/
def scenarioFlow : Flow :=
  mkFlow Pending [mkStage StartStage "" "" [], scenarioStage] []

/-- The status `LocalRun` adopts from a `ParallelRun` result. -/
def ParallelResult.outcome {W : Type} (r : ParallelResult W) : String :=
  match r.err with
  | some _ => Failure
  | none => r.status

/-- Flow `g` is flow `f` after some part of `LocalRun`: only status, logs and
stages may differ, log lines are added and the number of stages is the same. -/
def Flow.Kept (f g : Flow) : Prop :=
  g = { f with Status := g.Status, Logs := g.Logs, Stages := g.Stages } ∧
  f.Logs <+: g.Logs ∧ g.Stages.length = f.Stages.length

/-- Event `e` records the iteration of the stage loop that took stage `s` to
stage `t` when the flow status was `prev`: a stage that is not normal is left
as it is and so is the flow status; a sequential stage is run by
`SequencingRun`, whose returned and stored status the flow adopts; a parallel
stage is handed to `ParallelRun`; any other sequencing gives `Failure` and
leaves the stage as it is. -/
def StageEvent.Records {W : Type} (env : Env W) (verbose timestamp : Bool) (e : StageEvent)
    (prev : String) (s t : Stage) : Prop :=
  if s.T = NormalStage then
    if s.Sequencing = Parallel then
      e.actions = [] ∧
      ∃ w, t = (env.parallelRun verbose timestamp s e.index w).stage ∧
        e.status = (env.parallelRun verbose timestamp s e.index w).outcome
    else if s.Sequencing = Sequencing then
      t.Status = e.status ∧
      LoopTrace ActionEvent.status ActionEvent.index s.Actions.length 0 e.actions ∧
      e.status = lastOutcome ActionEvent.status Running e.actions ∧
      (∀ q, e.actions.length ≤ q → t.Actions[q]? = s.Actions[q]?) ∧
      (∀ (p : Nat) (x : ActionEvent), e.actions[p]? = some x →
        ∃ a b, s.Actions[p]? = some a ∧ t.Actions[p]? = some b ∧ x.Records env verbose timestamp a b) ∧
      Stage.Kept s t
    else
      e.status = Failure ∧ t = s ∧ e.actions = []
  else
    e.status = prev ∧ t = s ∧ e.actions = []

/-! ## Status aggregation and progression -/

/-- Dominance combination as the specification words it: `Failure` if any
status is `Failure`, else `Cancel` if any is `Cancel`, else `Success`. -/
def dominance (l : List String) : String :=
  if Failure ∈ l then Failure else if Cancel ∈ l then Cancel else Success

/-- The stages `LocalRun` processed, as the run left them. -/
def executedStages {W : Type} (r : FlowResult W) : List Stage :=
  r.flow.Stages.take r.trace.length

/-- A history of the values a status field took, oldest first, never goes from
a terminal value to `Pending` or `Running`. -/
def NoReentry (h : List String) : Prop :=
  ∀ (i j : Nat) (a b : String), i < j → h[i]? = some a → h[j]? = some b → Terminal a →
    b ≠ Pending ∧ b ≠ Running

/-- Every dispatch of `env` returns an error or a terminal status. -/
def TerminalDispatch {W : Type} (env : Env W) : Prop :=
  ∀ name verbose timestamp job w,
    (env.jobRun name verbose timestamp job w).err ≠ none ∨
    Terminal (env.jobRun name verbose timestamp job w).status

/-- Every `ParallelRun` of `env` returns an error or a terminal status. -/
def TerminalParallel {W : Type} (env : Env W) : Prop :=
  ∀ verbose timestamp stage i w,
    (env.parallelRun verbose timestamp stage i w).err ≠ none ∨
    Terminal (env.parallelRun verbose timestamp stage i w).status

/-- Every sequential normal stage of the flow has an action and every action of
such a stage has a job. -/
def Flow.NoEmptyWork (f : Flow) : Prop :=
  ∀ s ∈ f.Stages, s.T = NormalStage → s.Sequencing = Sequencing →
    s.Actions ≠ [] ∧ ∀ a ∈ s.Actions, a.Jobs ≠ []

/-- The flow status before the iteration at position `p` of the stage loop:
the status at the last `break` test before it, or `Running`. -/
def statusBefore {W : Type} (r : FlowResult W) (p : Nat) : String :=
  lastOutcome StageEvent.status Running (r.trace.take p)

/-! ## Status histories -/

/-- The values `a.Status` takes during the call of `Action.Run` that `x`
records: `Running` on entry, then the outcome of each dispatch. -/
def ActionEvent.history (x : ActionEvent) : List String :=
  Running :: x.jobs.map JobEvent.outcome

/-- The values `s.Status` takes during the call of `Stage.SequencingRun` that
`e` records: `Running` on entry, then the status returned by each call of
`Action.Run`. -/
def StageEvent.history (e : StageEvent) : List String :=
  Running :: e.actions.map ActionEvent.status

/-- The values `f.Status` takes during `LocalRun`: `Running` on entry, then
the flow status at each `break` test of the stage loop. -/
def FlowResult.history {W : Type} (r : FlowResult W) : List String :=
  Running :: r.trace.map StageEvent.status

/-! ## Log growth -/

/-- Stage `t` holds the log of stage `s` with lines added, and so does each of
its actions with respect to the action of the same index in `s`. -/
def Stage.LogsGrow (s t : Stage) : Prop :=
  s.Logs <+: t.Logs ∧ t.Actions.length = s.Actions.length ∧
  ∀ (q : Nat) (a b : Action), s.Actions[q]? = some a → t.Actions[q]? = some b →
    a.Logs <+: b.Logs

/-- Flow `g` holds the log of flow `f` with lines added, and so does each of
its stages with respect to the stage of the same index in `f`. -/
def Flow.LogsGrow (f g : Flow) : Prop :=
  f.Logs <+: g.Logs ∧ g.Stages.length = f.Stages.length ∧
  ∀ (p : Nat) (s t : Stage), f.Stages[p]? = some s → g.Stages[p]? = some t →
    Stage.LogsGrow s t

/-- The `ParallelRun` of `env`, whose body is not part of the package sources,
only adds lines to the logs of the stage and of its actions. -/
def ParallelKeepsLogs {W : Type} (env : Env W) : Prop :=
  ∀ verbose timestamp stage i w,
    Stage.LogsGrow stage (env.parallelRun verbose timestamp stage i w).stage

/-! ## Independence of the outcome from bookkeeping -/

/-- The action without its log. -/
def Action.erase (a : Action) : Action := { a with Logs := [] }

/-- The stage without its log and without the logs of its actions. -/
def Stage.erase (s : Stage) : Stage :=
  { s with Logs := [], Actions := s.Actions.map Action.erase }

/-- Two executions, one under `env1` and one under `env2`, have the same
job-dispatch behaviour: worlds related by `R` make `job.Run` and `ParallelRun`
return the same results and stay related, and neither the clock, the console,
the log store nor the flow store, whatever they return, takes a world out of
the relation. -/
structure SameDispatch {W1 W2 : Type} (env1 : Env W1) (env2 : Env W2)
    (R : W1 → W2 → Prop) : Prop where
  nowL : ∀ w1 w2, R w1 w2 → R (env1.now w1).2 w2
  nowR : ∀ w1 w2, R w1 w2 → R w1 (env2.now w2).2
  printL : ∀ s w1 w2, R w1 w2 → R (env1.println s w1) w2
  printR : ∀ s w1 w2, R w1 w2 → R w1 (env2.println s w2)
  storeL : ∀ i s w1 w2, R w1 w2 → R (env1.logCreate i s w1) w2
  storeR : ∀ i s w1 w2, R w1 w2 → R w1 (env2.logCreate i s w2)
  putL : ∀ a b c d e g h i w1 w2, R w1 w2 → R (env1.flowPut a b c d e g h i w1).2 w2
  putR : ∀ a b c d e g h i w1 w2, R w1 w2 → R w1 (env2.flowPut a b c d e g h i w2).2
  job : ∀ name verbose timestamp job w1 w2, R w1 w2 →
    (env1.jobRun name verbose timestamp job w1).status =
      (env2.jobRun name verbose timestamp job w2).status ∧
    (env1.jobRun name verbose timestamp job w1).err =
      (env2.jobRun name verbose timestamp job w2).err ∧
    (env1.jobRun name verbose timestamp job w1).job =
      (env2.jobRun name verbose timestamp job w2).job ∧
    R (env1.jobRun name verbose timestamp job w1).world
      (env2.jobRun name verbose timestamp job w2).world
  par : ∀ verbose timestamp stage i w1 w2, R w1 w2 →
    (env1.parallelRun verbose timestamp stage i w1).status =
      (env2.parallelRun verbose timestamp stage i w2).status ∧
    (env1.parallelRun verbose timestamp stage i w1).err =
      (env2.parallelRun verbose timestamp stage i w2).err ∧
    (env1.parallelRun verbose timestamp stage i w1).stage.erase =
      (env2.parallelRun verbose timestamp stage i w2).stage.erase ∧
    R (env1.parallelRun verbose timestamp stage i w1).world
      (env2.parallelRun verbose timestamp stage i w2).world

/-- Event `e` holds the pair returned by a call of the job dispatch of `env`
on job `job` for the action named `name`, and `stored` is the job that call
left behind. -/
def JobEvent.Dispatches {W : Type} (env : Env W) (verbose timestamp : Bool) (e : JobEvent)
    (name : String) (job stored : Job) : Prop :=
  ∃ w, e.status = (env.jobRun name verbose timestamp job w).status ∧
    e.err = (env.jobRun name verbose timestamp job w).err ∧
    stored = (env.jobRun name verbose timestamp job w).job

/-! ## Observation of notifier calls -/

/-- None of the collaborators of `env` other than the notifiers changes what
`obs` reads off the world. -/
structure Env.Silent {W α : Type} (env : Env W) (obs : W → α) : Prop where
  now : ∀ w, obs (env.now w).2 = obs w
  println : ∀ s w, obs (env.println s w) = obs w
  logCreate : ∀ n s w, obs (env.logCreate n s w) = obs w
  jobRun : ∀ name verbose timestamp job w,
    obs (env.jobRun name verbose timestamp job w).world = obs w
  parallelRun : ∀ verbose timestamp stage i w,
    obs (env.parallelRun verbose timestamp stage i w).world = obs w
  flowPut : ∀ a b c d e g n m w, obs (env.flowPut a b c d e g n m w).2 = obs w
  getNumbers : ∀ n w, obs (env.getNumbers n w).2 = obs w
  dataPut : ∀ a b c d e w, obs (env.dataPut a b c d e w).2 = obs w

/-- Function `calls` reads off the world the calls of `Notify` made so far, each
as the receiver type looked up and the addresses passed: a call that reaches a
notifier adds its pair at the end, whatever the notifier returns, and nothing
else changes the list. -/
structure NotifyObserved {W : Type} (env : Env W) (calls : W → List (String × List String)) :
    Prop where
  silent : env.Silent calls
  notify : ∀ ty f addrs w o w1, env.notify ty f addrs w = some (o, w1) →
    calls w1 = calls w ++ [(ty, addrs)]

/-- The test environment over a world that lists the calls of `Notify` made so
far; the notifier registered under `"mail"` returns an error on every call,
and no other receiver type has a notifier. -/
def recordingEnv : Env (List (String × List String)) where
  now := fun w => ("t", w)
  println := fun _ w => w
  logCreate := fun _ _ w => w
  jobRun := fun name verbose timestamp job w =>
    { status := (testEnv.jobRun name verbose timestamp job ()).status,
      err := (testEnv.jobRun name verbose timestamp job ()).err,
      job := (testEnv.jobRun name verbose timestamp job ()).job,
      flowLogs := (testEnv.jobRun name verbose timestamp job ()).flowLogs, world := w }
  parallelRun := fun _ _ stage _ w =>
    { status := Success, err := none, stage := stage, flowLogs := [], world := w }
  marshal := fun _ => ""
  flowPut := fun _ _ _ _ _ _ _ _ w => ((0, some "store down"), w)
  getNumbers := fun _ w => ((0, some "store down"), w)
  dataPut := fun _ _ _ _ _ w => (some "store down", w)
  notify := fun ty _ addrs w =>
    if ty = "mail" then some (some "mail down", w ++ [(ty, addrs)]) else none

/-- The scenario flow with two receivers of type `"mail"`. -/
def notifiedFlow : Flow :=
  mkFlow Pending scenarioFlow.Stages
    [{ Typ := "mail", Address := "dev" }, { Typ := "mail", Address := "ops" }]

/-! # Theorems -/

/-! ## Lemmas on loop traces -/

theorem LoopTrace.nil {ε : Type} (outcome : ε → String) (index : ε → Nat) (i : Nat) :
    LoopTrace outcome index 0 i [] := by
  refine ⟨by simp, ?_, ?_, ?_⟩ <;> simp

theorem LoopTrace.single {ε : Type} (outcome : ε → String) (index : ε → Nat) (n i : Nat)
    (e : ε) (hi : index e = i) (hh : Halts (outcome e)) :
    LoopTrace outcome index (n + 1) i [e] := by
  refine ⟨by simp, ?_, ?_, ?_⟩
  · intro p x hx
    cases p with
    | zero => simp at hx; subst hx; simpa using hi
    | succ p => simp at hx
  · intro p x _ hp
    simp at hp
  · intro _
    exact ⟨e, by simp, hh⟩

theorem LoopTrace.cons {ε : Type} (outcome : ε → String) (index : ε → Nat) (n i : Nat)
    (e : ε) (evs : List ε) (hi : index e = i) (hh : ¬ Halts (outcome e))
    (h : LoopTrace outcome index n (i + 1) evs) :
    LoopTrace outcome index (n + 1) i (e :: evs) := by
  obtain ⟨h1, h2, h3, h4⟩ := h
  refine ⟨by simpa using h1, ?_, ?_, ?_⟩
  · intro p x hx
    cases p with
    | zero => simp at hx; subst hx; simpa using hi
    | succ p =>
      simp at hx
      have := h2 p x hx
      omega
  · intro p x hx hp
    cases p with
    | zero => simp at hx; subst hx; exact hh
    | succ p =>
      simp at hx hp
      exact h3 p x hx (by omega)
  · intro hlt
    have hlt2 : evs.length < n := by simpa using hlt
    obtain ⟨x, hx, hxh⟩ := h4 hlt2
    refine ⟨x, ?_, hxh⟩
    cases evs with
    | nil => simp at hx
    | cons y ys => simpa [List.getLast?_cons_cons] using hx

theorem lastOutcome_cons {ε : Type} (outcome : ε → String) (init : String) (e : ε)
    (evs : List ε) :
    lastOutcome outcome init (e :: evs) = lastOutcome outcome (outcome e) evs := by
  cases evs with
  | nil => simp [lastOutcome]
  | cons y ys =>
    have h : (y :: ys).getLast? = some ((y :: ys).getLast (by simp)) :=
      List.getLast?_eq_getLast _ _
    simp only [lastOutcome, List.getLast?_cons_cons, h]

/-- In a loop trace a halting event is the last one. -/
theorem LoopTrace.halts_last {ε : Type} {outcome : ε → String} {index : ε → Nat} {n i : Nat}
    {evs : List ε} (h : LoopTrace outcome index n i evs) {p : Nat} {e : ε}
    (he : evs[p]? = some e) (hh : Halts (outcome e)) : evs.length = p + 1 := by
  have hp : p < evs.length := by
    rcases Nat.lt_or_ge p evs.length with h' | h'
    · exact h'
    · rw [List.getElem?_eq_none h'] at he; cases he
  by_contra hne
  exact h.2.2.1 p e he (by omega) hh

/-- In a complete loop trace the event after a non-halting one exists. -/
theorem LoopTrace.next {ε : Type} {outcome : ε → String} {index : ε → Nat} {n i : Nat}
    {evs : List ε} (h : LoopTrace outcome index n i evs) {p : Nat} {e : ε}
    (he : evs[p]? = some e) (hh : ¬ Halts (outcome e)) (hn : p + 1 < n) :
    p + 1 < evs.length := by
  have hp : p < evs.length := by
    rcases Nat.lt_or_ge p evs.length with h' | h'
    · exact h'
    · rw [List.getElem?_eq_none h'] at he; cases he
  by_contra hlt
  have hlen : evs.length = p + 1 := by omega
  obtain ⟨x, hx, hxh⟩ := h.2.2.2 (by omega)
  have : evs.getLast? = evs[p]? := by
    rw [List.getLast?_eq_getElem?, hlen]; simp
  rw [this, he] at hx
  cases hx
  exact hh hxh

/-- The final status is the outcome of the last event of a non-empty trace. -/
theorem lastOutcome_of_last {ε : Type} (outcome : ε → String) (init : String) {evs : List ε}
    {p : Nat} {e : ε} (he : evs[p]? = some e) (hlen : evs.length = p + 1) :
    lastOutcome outcome init evs = outcome e := by
  have : evs.getLast? = evs[p]? := by
    rw [List.getLast?_eq_getElem?, hlen]; simp
  simp [lastOutcome, this, he]

theorem Flow.LogsExtend.refl_logs (f : Flow) : Flow.LogsExtend f f :=
  ⟨rfl, List.prefix_refl _⟩

theorem Flow.LogsExtend.trans_logs {f g h : Flow} (h1 : Flow.LogsExtend f g)
    (h2 : Flow.LogsExtend g h) : Flow.LogsExtend f h := by
  obtain ⟨e1, p1⟩ := h1
  obtain ⟨e2, p2⟩ := h2
  refine ⟨?_, p1.trans p2⟩
  rw [e2, e1]

theorem Flow.LogsExtend.status_eq {f g : Flow} (h : Flow.LogsExtend f g) : g.Status = f.Status := by
  rw [h.1]

theorem Flow.LogsExtend.stages {f g : Flow} (h : Flow.LogsExtend f g) : g.Stages = f.Stages := by
  rw [h.1]

theorem Flow.Log_extend {W : Type} (env : Env W) (f : Flow) (log : String)
    (verbose timestamp : Bool) (w : W) :
    Flow.LogsExtend f (f.Log env log verbose timestamp w).1 :=
  ⟨rfl, by simp [Flow.Log]⟩

theorem Flow.append_extend (f : Flow) (ls : List String) :
    Flow.LogsExtend f { f with Logs := f.Logs ++ ls } :=
  ⟨rfl, by simp⟩

theorem Action.Kept.refl_action (a : Action) : Action.Kept a a :=
  ⟨rfl, rfl, rfl, List.prefix_refl _⟩

theorem Action.Kept.trans_action {a b c : Action} (h1 : Action.Kept a b) (h2 : Action.Kept b c) :
    Action.Kept a c :=
  ⟨h2.1.trans h1.1, h2.2.1.trans h1.2.1, h2.2.2.1.trans h1.2.2.1, h1.2.2.2.trans h2.2.2.2⟩

/-! ## The action loop -/

/-- One iteration of the action loop records one dispatch, stores its outcome
as the action status and touches no job but the one dispatched. -/
theorem Action.RunBody_spec {W : Type} (env : Env W) (verbose timestamp : Bool) (i : Nat)
    (job : Job) (st : ActionState W) :
    ∃ e : JobEvent,
      (Action.RunBody env verbose timestamp i job st).trace = st.trace ++ [e] ∧
      e.index = i ∧
      e.From env verbose timestamp ∧
      (Action.RunBody env verbose timestamp i job st).a.Status = e.outcome ∧
      (∀ q, q ≠ i →
        (Action.RunBody env verbose timestamp i job st).a.Jobs[q]? = st.a.Jobs[q]?) ∧
      Action.Kept st.a (Action.RunBody env verbose timestamp i job st).a ∧
      Flow.LogsExtend st.f (Action.RunBody env verbose timestamp i job st).f := by
  unfold Action.RunBody
  simp only
  generalize hr : env.jobRun _ _ _ _ _ = r
  obtain ⟨rs, re, rj, rl, rw_⟩ := r
  have hfrom : JobEvent.From env verbose timestamp { index := i, status := rs, err := re } :=
    ⟨_, _, _, (congrArg JobResult.status hr).symm, (congrArg JobResult.err hr).symm⟩
  cases re with
  | some e =>
    refine ⟨_, rfl, rfl, hfrom, ?_, ?_, ?_, ?_⟩
    · simp [JobEvent.outcome, Action.Log]
    · intro q hq
      simp [Action.Log, List.getElem?_set, Ne.symm hq]
    · refine ⟨?_, ?_, ?_, ?_⟩
      · simp [Action.Log]
      · simp [Action.Log]
      · simp [Action.Log]
      · simp only [Action.Log]
        exact (List.prefix_append _ _).trans (List.prefix_append _ _)
    · exact ((Flow.Log_extend env _ _ verbose timestamp _).trans_logs (Flow.append_extend _ _)).trans_logs
        (Flow.Log_extend env _ _ verbose timestamp _)
  | none =>
    refine ⟨_, rfl, rfl, hfrom, ?_, ?_, ?_, ?_⟩
    · simp [JobEvent.outcome]
    · intro q hq
      simp [Action.Log, List.getElem?_set, Ne.symm hq]
    · refine ⟨?_, ?_, ?_, ?_⟩ <;> simp [Action.Log]
    · exact (Flow.Log_extend env _ _ verbose timestamp _).trans_logs (Flow.append_extend _ _)

/-- The action loop started at index `i` with `n` jobs left. -/
theorem Action.RunLoop_spec {W : Type} (env : Env W) (verbose timestamp : Bool) :
    ∀ (n i : Nat) (st : ActionState W), i + n = st.a.Jobs.length →
    ∃ evs : List JobEvent,
      (Action.RunLoop env verbose timestamp n i st).trace = st.trace ++ evs ∧
      LoopTrace JobEvent.outcome JobEvent.index n i evs ∧
      (∀ x ∈ evs, x.From env verbose timestamp) ∧
      (Action.RunLoop env verbose timestamp n i st).a.Status =
        lastOutcome JobEvent.outcome st.a.Status evs ∧
      (∀ q, q < i ∨ i + evs.length ≤ q →
        (Action.RunLoop env verbose timestamp n i st).a.Jobs[q]? = st.a.Jobs[q]?) ∧
      Action.Kept st.a (Action.RunLoop env verbose timestamp n i st).a ∧
      Flow.LogsExtend st.f (Action.RunLoop env verbose timestamp n i st).f := by
  intro n
  induction n with
  | zero =>
    intro i st _
    exact ⟨[], by simp [Action.RunLoop], LoopTrace.nil _ _ _, by simp, rfl, fun _ _ => rfl,
      Action.Kept.refl_action _, Flow.LogsExtend.refl_logs _⟩
  | succ n ih =>
    intro i st hlen
    have hi : i < st.a.Jobs.length := by omega
    obtain ⟨e, htr, hidx, hfrom, hst, hjobs, hkept, hflow⟩ :=
      Action.RunBody_spec env verbose timestamp i st.a.Jobs[i] st
    unfold Action.RunLoop
    rw [List.getElem?_eq_getElem hi]
    simp only
    split
    · rename_i hh
      refine ⟨[e], htr, LoopTrace.single _ _ _ _ _ hidx (by rw [← hst]; exact hh),
        by simpa using hfrom, ?_, ?_, hkept, hflow⟩
      · simpa [lastOutcome] using hst
      · intro q hq
        apply hjobs
        simp at hq
        omega
    · rename_i hh
      obtain ⟨evs, htr2, hlt, hfrom2, hst2, hjobs2, hkept2, hflow2⟩ :=
        ih (i + 1) (Action.RunBody env verbose timestamp i st.a.Jobs[i] st)
          (by rw [hkept.2.2.1]; omega)
      refine ⟨e :: evs, ?_, LoopTrace.cons _ _ _ _ _ _ hidx (by rw [← hst]; exact hh) hlt,
        by simpa using ⟨hfrom, hfrom2⟩, ?_, ?_, hkept.trans_action hkept2, hflow.trans_logs hflow2⟩
      · rw [htr2, htr]; simp
      · rw [hst2, lastOutcome_cons, hst]
      · intro q hq
        rw [hjobs2 q (by simp at hq; omega)]
        apply hjobs
        simp at hq
        omega

/-- The state before the action loop. -/
theorem Action.RunInit_spec {W : Type} (env : Env W) (a : Action) (verbose timestamp : Bool)
    (f : Flow) (w : W) :
    (Action.RunInit env a verbose timestamp f w).a.Status = Running ∧
    (Action.RunInit env a verbose timestamp f w).a.Jobs = a.Jobs ∧
    (Action.RunInit env a verbose timestamp f w).trace = [] ∧
    Action.Kept a (Action.RunInit env a verbose timestamp f w).a ∧
    Flow.LogsExtend f (Action.RunInit env a verbose timestamp f w).f := by
  refine ⟨rfl, rfl, rfl, ⟨rfl, rfl, rfl, ?_⟩, ?_⟩
  · simp [Action.RunInit, Action.Log]
  · exact Flow.Log_extend env _ _ verbose timestamp _

/-- Summary of `Action.Run`: the dispatches form a loop trace over the declared
jobs, the returned status is the stored status, which is the outcome of the
last dispatch or `Running` when there was none, and no error is returned. -/
theorem Action.Run_spec {W : Type} (env : Env W) (a : Action) (verbose timestamp : Bool)
    (f : Flow) (w : W) :
    LoopTrace JobEvent.outcome JobEvent.index a.Jobs.length 0
      (a.Run env verbose timestamp f w).trace ∧
    (∀ x ∈ (a.Run env verbose timestamp f w).trace, x.From env verbose timestamp) ∧
    (a.Run env verbose timestamp f w).status = (a.Run env verbose timestamp f w).action.Status ∧
    (a.Run env verbose timestamp f w).action.Status =
      lastOutcome JobEvent.outcome Running (a.Run env verbose timestamp f w).trace ∧
    (a.Run env verbose timestamp f w).err = none ∧
    (∀ q, (a.Run env verbose timestamp f w).trace.length ≤ q →
      (a.Run env verbose timestamp f w).action.Jobs[q]? = a.Jobs[q]?) ∧
    Action.Kept a (a.Run env verbose timestamp f w).action ∧
    Flow.LogsExtend f (a.Run env verbose timestamp f w).flow := by
  obtain ⟨h0s, h0j, h0t, h0k, h0f⟩ := Action.RunInit_spec env a verbose timestamp f w
  obtain ⟨evs, htr, hlt, hfrom, hst, hjobs, hkept, hflow⟩ :=
    Action.RunLoop_spec env verbose timestamp
      (Action.RunInit env a verbose timestamp f w).a.Jobs.length 0
      (Action.RunInit env a verbose timestamp f w) (by simp)
  rw [h0t, List.nil_append] at htr
  have hrun : (a.Run env verbose timestamp f w).trace = evs := htr
  refine ⟨?_, ?_, rfl, ?_, rfl, ?_, h0k.trans_action hkept, h0f.trans_logs hflow⟩
  · rw [hrun, ← h0j]; exact hlt
  · rw [hrun]; exact hfrom
  · rw [hrun, ← h0s]; exact hst
  · intro q hq
    rw [hrun] at hq
    rw [← h0j]
    exact hjobs q (Or.inr (by omega))

/-! ## The stage loop -/

theorem Stage.Kept.refl_stage (s : Stage) : Stage.Kept s s :=
  ⟨rfl, rfl, rfl, rfl, rfl, List.prefix_refl _⟩

theorem Stage.Kept.trans_stage {s t u : Stage} (h1 : Stage.Kept s t) (h2 : Stage.Kept t u) :
    Stage.Kept s u :=
  ⟨h2.1.trans h1.1, h2.2.1.trans h1.2.1, h2.2.2.1.trans h1.2.2.1,
    h2.2.2.2.1.trans h1.2.2.2.1, h2.2.2.2.2.1.trans h1.2.2.2.2.1,
    h1.2.2.2.2.2.trans h2.2.2.2.2.2⟩

/-- One iteration of the stage loop records one call of `Action.Run`, adopts
the status it returned and touches no action but the one run. -/
theorem Stage.SequencingBody_spec {W : Type} (env : Env W) (verbose timestamp : Bool) (i : Nat)
    (action : Action) (st : StageState W) (hi : i < st.s.Actions.length) :
    ∃ e : ActionEvent,
      (Stage.SequencingBody env verbose timestamp i action st).trace = st.trace ++ [e] ∧
      e.index = i ∧
      (Stage.SequencingBody env verbose timestamp i action st).s.Status = e.status ∧
      (∃ b, (Stage.SequencingBody env verbose timestamp i action st).s.Actions[i]? = some b ∧
        e.Records env verbose timestamp action b) ∧
      (∀ q, q ≠ i →
        (Stage.SequencingBody env verbose timestamp i action st).s.Actions[q]? =
          st.s.Actions[q]?) ∧
      Stage.Kept st.s (Stage.SequencingBody env verbose timestamp i action st).s ∧
      Flow.LogsExtend st.f (Stage.SequencingBody env verbose timestamp i action st).f := by
  unfold Stage.SequencingBody
  simp only
  generalize hl2 : Flow.Log env st.f _ verbose timestamp _ = l2
  have hf2 : Flow.LogsExtend st.f l2.1 := by
    rw [← hl2]; exact Flow.Log_extend env _ _ verbose timestamp _
  obtain ⟨hlt, hfrom, hst, hlast, herr, hjobs, hkept, hflow⟩ :=
    Action.Run_spec env action verbose timestamp l2.1 l2.2
  generalize Action.Run env action verbose timestamp l2.1 l2.2 = r at *
  obtain ⟨rs, re, ra, rf, rw_, rt⟩ := r
  simp only at hlt hfrom hst hlast herr hjobs hkept hflow
  subst herr
  refine ⟨_, rfl, rfl, rfl, ⟨ra, ?_, ?_⟩, ?_, ?_, hf2.trans_logs hflow⟩
  · simp [Stage.Log, List.getElem?_set, hi]
  · exact ⟨hst.symm, hlt, hfrom, by rw [hst]; exact hlast, hjobs, hkept⟩
  · intro q hq
    simp [Stage.Log, List.getElem?_set, Ne.symm hq]
  · refine ⟨?_, ?_, ?_, ?_, ?_, ?_⟩ <;> simp [Stage.Log]

/-- The stage loop started at index `i` with `n` actions left. -/
theorem Stage.SequencingLoop_spec {W : Type} (env : Env W) (verbose timestamp : Bool) :
    ∀ (n i : Nat) (st : StageState W), i + n = st.s.Actions.length →
    ∃ evs : List ActionEvent,
      (Stage.SequencingLoop env verbose timestamp n i st).trace = st.trace ++ evs ∧
      LoopTrace ActionEvent.status ActionEvent.index n i evs ∧
      (Stage.SequencingLoop env verbose timestamp n i st).s.Status =
        lastOutcome ActionEvent.status st.s.Status evs ∧
      (∀ q, q < i ∨ i + evs.length ≤ q →
        (Stage.SequencingLoop env verbose timestamp n i st).s.Actions[q]? = st.s.Actions[q]?) ∧
      (∀ (p : Nat) (e : ActionEvent), evs[p]? = some e → ∃ a b,
        st.s.Actions[i + p]? = some a ∧
        (Stage.SequencingLoop env verbose timestamp n i st).s.Actions[i + p]? = some b ∧
        e.Records env verbose timestamp a b) ∧
      Stage.Kept st.s (Stage.SequencingLoop env verbose timestamp n i st).s ∧
      Flow.LogsExtend st.f (Stage.SequencingLoop env verbose timestamp n i st).f := by
  intro n
  induction n with
  | zero =>
    intro i st _
    exact ⟨[], by simp [Stage.SequencingLoop], LoopTrace.nil _ _ _, rfl, fun _ _ => rfl,
      by simp, Stage.Kept.refl_stage _, Flow.LogsExtend.refl_logs _⟩
  | succ n ih =>
    intro i st hlen
    have hi : i < st.s.Actions.length := by omega
    obtain ⟨e, htr, hidx, hst, ⟨b, hb, hrec⟩, hacts, hkept, hflow⟩ :=
      Stage.SequencingBody_spec env verbose timestamp i st.s.Actions[i] st hi
    unfold Stage.SequencingLoop
    rw [List.getElem?_eq_getElem hi]
    simp only
    split
    · rename_i hh
      refine ⟨[e], htr, LoopTrace.single _ _ _ _ _ hidx (by rw [← hst]; exact hh), ?_, ?_, ?_,
        hkept, hflow⟩
      · simpa [lastOutcome] using hst
      · intro q hq
        apply hacts
        simp at hq
        omega
      · intro p x hx
        cases p with
        | zero =>
          simp at hx
          subst hx
          exact ⟨st.s.Actions[i], b, by simp [List.getElem?_eq_getElem hi], by simpa using hb,
            hrec⟩
        | succ p => simp at hx
    · rename_i hh
      obtain ⟨evs, htr2, hlt, hst2, hacts2, hrec2, hkept2, hflow2⟩ :=
        ih (i + 1) (Stage.SequencingBody env verbose timestamp i st.s.Actions[i] st)
          (by rw [hkept.2.2.2.2.1]; omega)
      refine ⟨e :: evs, ?_, LoopTrace.cons _ _ _ _ _ _ hidx (by rw [← hst]; exact hh) hlt, ?_,
        ?_, ?_, hkept.trans_stage hkept2, hflow.trans_logs hflow2⟩
      · rw [htr2, htr]; simp
      · rw [hst2, lastOutcome_cons, hst]
      · intro q hq
        rw [hacts2 q (by simp at hq; omega)]
        apply hacts
        simp at hq
        omega
      · intro p x hx
        cases p with
        | zero =>
          simp at hx
          subst hx
          refine ⟨st.s.Actions[i], b, by simp [List.getElem?_eq_getElem hi], ?_, hrec⟩
          have h2 := hacts2 i (Or.inl (by omega))
          simp only [Nat.add_zero]
          rw [h2]
          exact hb
        | succ p =>
          simp at hx
          obtain ⟨a2, b2, ha2, hb2, hr2⟩ := hrec2 p x hx
          have e1 : i + (p + 1) = i + 1 + p := by omega
          refine ⟨a2, b2, ?_, ?_, hr2⟩
          · rw [e1, ← hacts (i + 1 + p) (by omega)]
            exact ha2
          · rw [e1]
            exact hb2

/-- The state before the stage loop. -/
theorem Stage.SequencingInit_spec {W : Type} (env : Env W) (s : Stage)
    (verbose timestamp : Bool) (f : Flow) (w : W) :
    (Stage.SequencingInit env s verbose timestamp f w).s.Status = Running ∧
    (Stage.SequencingInit env s verbose timestamp f w).s.Actions = s.Actions ∧
    (Stage.SequencingInit env s verbose timestamp f w).trace = [] ∧
    Stage.Kept s (Stage.SequencingInit env s verbose timestamp f w).s ∧
    Flow.LogsExtend f (Stage.SequencingInit env s verbose timestamp f w).f := by
  refine ⟨rfl, rfl, rfl, ⟨rfl, rfl, rfl, rfl, rfl, ?_⟩, ?_⟩
  · simp [Stage.SequencingInit, Stage.Log]
  · exact Flow.Log_extend env _ _ verbose timestamp _

/-- Summary of `Stage.SequencingRun`: the calls of `Action.Run` form a loop
trace over the declared actions, the returned status is the stored status,
which is the status returned by the last call or `Running` when there was
none, no error is returned, and actions not run are untouched. -/
theorem Stage.SequencingRun_spec {W : Type} (env : Env W) (s : Stage)
    (verbose timestamp : Bool) (f : Flow) (w : W) :
    LoopTrace ActionEvent.status ActionEvent.index s.Actions.length 0
      (s.SequencingRun env verbose timestamp f w).trace ∧
    (s.SequencingRun env verbose timestamp f w).status =
      (s.SequencingRun env verbose timestamp f w).stage.Status ∧
    (s.SequencingRun env verbose timestamp f w).stage.Status =
      lastOutcome ActionEvent.status Running (s.SequencingRun env verbose timestamp f w).trace ∧
    (s.SequencingRun env verbose timestamp f w).err = none ∧
    (∀ q, (s.SequencingRun env verbose timestamp f w).trace.length ≤ q →
      (s.SequencingRun env verbose timestamp f w).stage.Actions[q]? = s.Actions[q]?) ∧
    (∀ (p : Nat) (e : ActionEvent),
      (s.SequencingRun env verbose timestamp f w).trace[p]? = some e →
      ∃ a b, s.Actions[p]? = some a ∧
        (s.SequencingRun env verbose timestamp f w).stage.Actions[p]? = some b ∧
        e.Records env verbose timestamp a b) ∧
    Stage.Kept s (s.SequencingRun env verbose timestamp f w).stage ∧
    Flow.LogsExtend f (s.SequencingRun env verbose timestamp f w).flow := by
  obtain ⟨h0s, h0a, h0t, h0k, h0f⟩ := Stage.SequencingInit_spec env s verbose timestamp f w
  obtain ⟨evs, htr, hlt, hst, hacts, hrec, hkept, hflow⟩ :=
    Stage.SequencingLoop_spec env verbose timestamp
      (Stage.SequencingInit env s verbose timestamp f w).s.Actions.length 0
      (Stage.SequencingInit env s verbose timestamp f w) (by simp)
  rw [h0t, List.nil_append] at htr
  have hrun : (s.SequencingRun env verbose timestamp f w).trace = evs := htr
  refine ⟨?_, rfl, ?_, rfl, ?_, ?_, h0k.trans_stage hkept, h0f.trans_logs hflow⟩
  · rw [hrun, ← h0a]; exact hlt
  · rw [hrun, ← h0s]; exact hst
  · intro q hq
    rw [hrun] at hq
    rw [← h0a]
    exact hacts q (Or.inr (by omega))
  · intro p e he
    rw [hrun] at he
    obtain ⟨a, b, ha, hb, hr⟩ := hrec p e he
    rw [Nat.zero_add] at ha hb
    exact ⟨a, b, by rw [← h0a]; exact ha, hb, hr⟩

/-! ## Claims on the action runner and the sequential stage run -/

/-- A loop over at least one item records at least one event. -/
theorem LoopTrace.ne_nil {ε : Type} {outcome : ε → String} {index : ε → Nat} {n i : Nat}
    {evs : List ε} (h : LoopTrace outcome index n i evs) (hn : 0 < n) : evs ≠ [] := by
  intro he
  subst he
  obtain ⟨x, hx, _⟩ := h.2.2.2 (by simpa using hn)
  simp at hx

/-- Position `p` of a loop trace that starts at index `0` holds the event of
index `p`, and `p` is below the number of items. -/
theorem LoopTrace.index_eq {ε : Type} {outcome : ε → String} {index : ε → Nat} {n : Nat}
    {evs : List ε} (h : LoopTrace outcome index n 0 evs) {p : Nat} {e : ε}
    (he : evs[p]? = some e) : index e = p ∧ p < n := by
  have hp : p < evs.length := by
    rcases Nat.lt_or_ge p evs.length with h' | h'
    · exact h'
    · rw [List.getElem?_eq_none h'] at he; cases he
  have := h.2.1 p e he
  have := h.1
  omega

/-- C3: in `Action.Run`, an iteration whose dispatch returns an error stores
`Failure`, one whose dispatch returns no error stores the returned status; a
dispatch that returned an error is the last one of the run, and a dispatch
that returned no error is the last one exactly when its status is `Failure` or
`Cancel` or it was the dispatch of the last declared job. -/
theorem C3_action_run_dispatch {W : Type} (env : Env W) (verbose timestamp : Bool) :
    (∀ (i : Nat) (job : Job) (st : ActionState W), ∃ e : JobEvent,
      (Action.RunBody env verbose timestamp i job st).trace = st.trace ++ [e] ∧
      e.index = i ∧
      (e.err ≠ none → (Action.RunBody env verbose timestamp i job st).a.Status = Failure) ∧
      (e.err = none → (Action.RunBody env verbose timestamp i job st).a.Status = e.status)) ∧
    (∀ (a : Action) (f : Flow) (w : W) (p : Nat) (e : JobEvent),
      (a.Run env verbose timestamp f w).trace[p]? = some e →
      e.index = p ∧ p < a.Jobs.length ∧
      (e.err ≠ none →
        (a.Run env verbose timestamp f w).trace.length = p + 1 ∧
        (a.Run env verbose timestamp f w).action.Status = Failure) ∧
      (e.err = none →
        ((a.Run env verbose timestamp f w).trace.length = p + 1 ↔
          (e.status = Failure ∨ e.status = Cancel) ∨ p + 1 = a.Jobs.length) ∧
        ((a.Run env verbose timestamp f w).trace.length = p + 1 →
          (a.Run env verbose timestamp f w).action.Status = e.status))) := by
  constructor
  · intro i job st
    obtain ⟨e, htr, hidx, _, hst, _⟩ := Action.RunBody_spec env verbose timestamp i job st
    refine ⟨e, htr, hidx, ?_, ?_⟩
    · intro he
      rw [hst]
      cases h : e.err with
      | none => exact absurd h he
      | some x => simp [JobEvent.outcome, h]
    · intro he
      rw [hst]
      simp [JobEvent.outcome, he]
  · intro a f w p e he
    obtain ⟨hlt, _, _, hlast, _, _, _, _⟩ := Action.Run_spec env a verbose timestamp f w
    obtain ⟨hidx, hp⟩ := hlt.index_eq he
    refine ⟨hidx, hp, ?_, ?_⟩
    · intro herr
      have hout : e.outcome = Failure := by
        cases h : e.err with
        | none => exact absurd h herr
        | some x => simp [JobEvent.outcome, h]
      have hlen := hlt.halts_last he (by rw [hout]; exact Or.inl rfl)
      exact ⟨hlen, by rw [hlast, lastOutcome_of_last _ _ he hlen, hout]⟩
    · intro herr
      have hout : e.outcome = e.status := by simp [JobEvent.outcome, herr]
      refine ⟨⟨?_, ?_⟩, ?_⟩
      · intro hlen
        by_cases hh : Halts e.outcome
        · rw [hout] at hh; exact Or.inl hh
        · right
          by_contra hne
          have := hlt.next he hh (by omega)
          omega
      · rintro (hh | hh)
        · exact hlt.halts_last he (by rw [hout]; exact hh)
        · have := hlt.1
          have hp2 : p < (a.Run env verbose timestamp f w).trace.length := by
            rcases Nat.lt_or_ge p (a.Run env verbose timestamp f w).trace.length with h' | h'
            · exact h'
            · rw [List.getElem?_eq_none h'] at he; cases he
          omega
      · intro hlen
        rw [hlast, lastOutcome_of_last _ _ he hlen, hout]

/-- Witness of C3: the action with jobs `[success, error, success]` under the
test environment dispatches job 0 without error, then job 1 with an error,
stops there and ends in `Failure`. -/
theorem C3_action_run_dispatch_witness :
    ((mkAction "A" "" [mkJob Success, mkJob "error", mkJob Success]).Run testEnv false false
      (mkFlow Pending [] []) ()).trace =
      [{ index := 0, status := Success, err := none },
       { index := 1, status := Failure, err := some "dispatch failed" }] ∧
    ((mkAction "A" "" [mkJob Success, mkJob "error", mkJob Success]).Run testEnv false false
      (mkFlow Pending [] []) ()).trace.length = 1 + 1 ∧
    ((mkAction "A" "" [mkJob Success, mkJob "error", mkJob Success]).Run testEnv false false
      (mkFlow Pending [] []) ()).action.Status = Failure :=
  have h := ((C3_action_run_dispatch testEnv false false).2
    (mkAction "A" "" [mkJob Success, mkJob "error", mkJob Success]) (mkFlow Pending [] []) () 1
    { index := 1, status := Failure, err := some "dispatch failed" } (by decide)).2.2.1
    (by decide)
  ⟨by decide, h.1, h.2⟩

/-- C1: when a call of `Action.Run` made by `Stage.SequencingRun` returns
`Failure` for the action of index `k`, it is the first and the last call of the
run, no action of a higher index is run and each of them is left as it was, and
`SequencingRun` returns `Failure`, which is then both the stage status and the
status of action `k`. -/
theorem C1_sequencing_stops_at_failure {W : Type} (env : Env W) (s : Stage)
    (verbose timestamp : Bool) (f : Flow) (w : W) (k : Nat) (e : ActionEvent)
    (hk : (s.SequencingRun env verbose timestamp f w).trace[k]? = some e)
    (hf : e.status = Failure) :
    e.index = k ∧
    (∀ (j : Nat) (x : ActionEvent),
      (s.SequencingRun env verbose timestamp f w).trace[j]? = some x → j < k →
      x.status ≠ Failure) ∧
    (s.SequencingRun env verbose timestamp f w).trace.length = k + 1 ∧
    (∀ x ∈ (s.SequencingRun env verbose timestamp f w).trace, x.index ≤ k) ∧
    (∀ q, k < q →
      (s.SequencingRun env verbose timestamp f w).stage.Actions[q]? = s.Actions[q]?) ∧
    (s.SequencingRun env verbose timestamp f w).status = Failure ∧
    (s.SequencingRun env verbose timestamp f w).err = none ∧
    (s.SequencingRun env verbose timestamp f w).stage.Status = Failure ∧
    (∃ b, (s.SequencingRun env verbose timestamp f w).stage.Actions[k]? = some b ∧
      b.Status = Failure) := by
  obtain ⟨hlt, hst, hlast, herr, hacts, hrec, _, _⟩ :=
    Stage.SequencingRun_spec env s verbose timestamp f w
  have hlen := hlt.halts_last hk (by rw [hf]; exact Or.inl rfl)
  have hstat : (s.SequencingRun env verbose timestamp f w).stage.Status = Failure := by
    rw [hlast, lastOutcome_of_last _ _ hk hlen, hf]
  refine ⟨(hlt.index_eq hk).1, ?_, hlen, ?_, ?_, by rw [hst, hstat], herr, hstat, ?_⟩
  · intro j x hx hj hxf
    have := hlt.halts_last hx (by rw [hxf]; exact Or.inl rfl)
    omega
  · intro x hx
    obtain ⟨j, hj, hjx⟩ := List.getElem_of_mem hx
    have hx2 : (s.SequencingRun env verbose timestamp f w).trace[j]? = some x := by
      rw [List.getElem?_eq_getElem hj, hjx]
    have := (hlt.index_eq hx2).1
    omega
  · intro q hq
    exact hacts q (by omega)
  · obtain ⟨a, b, _, hb, hr⟩ := hrec k e hk
    exact ⟨b, hb, by rw [hr.1, hf]⟩

/-- Witness of C1 on the scenario stage: `A2` (index 1) reports `Failure`, two
calls are recorded, `A3` is untouched and the stage ends in `Failure`. -/
theorem C1_sequencing_stops_at_failure_witness :
    (scenarioStage.SequencingRun testEnv false false scenarioFlow ()).trace[1]? =
      some { index := 1, status := Failure, jobs := [{ index := 0, status := Failure, err := none }] } ∧
    (scenarioStage.SequencingRun testEnv false false scenarioFlow ()).trace.length = 1 + 1 ∧
    (scenarioStage.SequencingRun testEnv false false scenarioFlow ()).stage.Actions[2]? =
      scenarioStage.Actions[2]? ∧
    (scenarioStage.SequencingRun testEnv false false scenarioFlow ()).status = Failure :=
  have h := C1_sequencing_stops_at_failure testEnv scenarioStage false false scenarioFlow () 1
    { index := 1, status := Failure, jobs := [{ index := 0, status := Failure, err := none }] }
    (by decide) rfl
  ⟨by decide, h.2.2.1, h.2.2.2.2.1 2 (by decide), h.2.2.2.2.2.1⟩

/-- C7 (as stated) fails: a sequential stage with no actions returns `Running`,
not `Success`. -/
theorem C7_counterexample :
    (mkStage NormalStage Sequencing Pending []).Actions = [] ∧
    ((mkStage NormalStage Sequencing Pending []).SequencingRun testEnv false false
      (mkFlow Pending [mkStage NormalStage Sequencing Pending []] []) ()).status = Running ∧
    ((mkStage NormalStage Sequencing Pending []).SequencingRun testEnv false false
      (mkFlow Pending [mkStage NormalStage Sequencing Pending []] []) ()).status ≠ Success := by
  decide

/-- C7 (amended): `Stage.SequencingRun` on a stage with no actions runs nothing
and returns `Running`; on a stage with at least one action it returns the
status returned by the last call of `Action.Run`, so it returns `Success` when
every call reported `Success`, and then every declared action was run. -/
theorem C7_sequencing_final_status {W : Type} (env : Env W) (s : Stage)
    (verbose timestamp : Bool) (f : Flow) (w : W) :
    (s.Actions = [] →
      (s.SequencingRun env verbose timestamp f w).trace = [] ∧
      (s.SequencingRun env verbose timestamp f w).status = Running) ∧
    (s.Actions ≠ [] →
      ∃ e, (s.SequencingRun env verbose timestamp f w).trace.getLast? = some e ∧
        (s.SequencingRun env verbose timestamp f w).status = e.status) ∧
    (s.Actions ≠ [] →
      (∀ e ∈ (s.SequencingRun env verbose timestamp f w).trace, e.status = Success) →
      (s.SequencingRun env verbose timestamp f w).status = Success ∧
      (s.SequencingRun env verbose timestamp f w).trace.length = s.Actions.length) := by
  obtain ⟨hlt, hst, hlast, _, _, _, _, _⟩ :=
    Stage.SequencingRun_spec env s verbose timestamp f w
  have hne : s.Actions ≠ [] → ∃ e,
      (s.SequencingRun env verbose timestamp f w).trace.getLast? = some e ∧
      (s.SequencingRun env verbose timestamp f w).status = e.status := by
    intro hs
    have hn : 0 < s.Actions.length := List.length_pos.mpr hs
    have htr := hlt.ne_nil hn
    refine ⟨_, List.getLast?_eq_getLast _ htr, ?_⟩
    rw [hst, hlast]
    simp [lastOutcome, List.getLast?_eq_getLast _ htr]
  refine ⟨?_, hne, ?_⟩
  · intro hs
    have h0 : (s.SequencingRun env verbose timestamp f w).trace = [] := by
      have := hlt.1
      rw [hs] at this
      exact List.eq_nil_of_length_eq_zero (by simpa using this)
    refine ⟨h0, ?_⟩
    rw [hst, hlast, h0]
    rfl
  · intro hs hall
    obtain ⟨e, he, hes⟩ := hne hs
    have hmem : e ∈ (s.SequencingRun env verbose timestamp f w).trace :=
      List.mem_of_getLast?_eq_some he
    have hsucc := hall e hmem
    refine ⟨by rw [hes, hsucc], ?_⟩
    by_contra hlen
    have hlt2 : (s.SequencingRun env verbose timestamp f w).trace.length < s.Actions.length := by
      have := hlt.1
      omega
    obtain ⟨x, hx, hxh⟩ := hlt.2.2.2 hlt2
    rw [he] at hx
    cases hx
    rw [hsucc] at hxh
    revert hxh
    decide

/-- Witness of C7 (amended): the scenario stage has actions and returns the
status of the last call made, that of `A2`. -/
theorem C7_sequencing_final_status_witness :
    scenarioStage.Actions ≠ [] ∧
    ∃ e, (scenarioStage.SequencingRun testEnv false false scenarioFlow ()).trace.getLast? =
        some e ∧
      (scenarioStage.SequencingRun testEnv false false scenarioFlow ()).status = e.status :=
  ⟨by decide,
    (C7_sequencing_final_status testEnv scenarioStage false false scenarioFlow ()).2.1
      (by decide)⟩

/-! ## The flow loop -/

theorem Flow.Kept.refl_flow (f : Flow) : Flow.Kept f f :=
  ⟨rfl, List.prefix_refl _, rfl⟩

theorem Flow.Kept.trans_flow {f g h : Flow} (h1 : Flow.Kept f g) (h2 : Flow.Kept g h) :
    Flow.Kept f h := by
  obtain ⟨e1, p1, l1⟩ := h1
  obtain ⟨e2, p2, l2⟩ := h2
  refine ⟨?_, p1.trans p2, l2.trans l1⟩
  rw [e2, e1]

theorem Flow.LogsExtend.kept {f g : Flow} (h : Flow.LogsExtend f g) : Flow.Kept f g := by
  obtain ⟨e, p⟩ := h
  refine ⟨?_, p, by rw [e]⟩
  rw [e]

/-- The normal arm of the stage loop. -/
theorem Flow.NormalArm_spec {W : Type} (env : Env W) (verbose timestamp : Bool) (i : Nat)
    (stage : Stage) (f : Flow) (w : W) (hi : f.Stages[i]? = some stage)
    (hT : stage.T = NormalStage) :
    (∃ t, (Flow.NormalArm env verbose timestamp i stage f w).1.Stages[i]? = some t ∧
      StageEvent.Records env verbose timestamp
        { index := i, status := (Flow.NormalArm env verbose timestamp i stage f w).1.Status,
          actions := (Flow.NormalArm env verbose timestamp i stage f w).2.2 }
        f.Status stage t) ∧
    (∀ q, q ≠ i →
      (Flow.NormalArm env verbose timestamp i stage f w).1.Stages[q]? = f.Stages[q]?) ∧
    Flow.Kept f (Flow.NormalArm env verbose timestamp i stage f w).1 := by
  have hlen : i < f.Stages.length := by
    rcases Nat.lt_or_ge i f.Stages.length with h' | h'
    · exact h'
    · rw [List.getElem?_eq_none h'] at hi; cases hi
  unfold Flow.NormalArm
  by_cases hp : stage.Sequencing = Parallel
  · simp only [hp, if_true]
    have hp2 : stage.Sequencing = Parallel := hp
    generalize hr : env.parallelRun verbose timestamp stage i w = r
    obtain ⟨rs, re, rst, rl, rw_⟩ := r
    cases re with
    | some x =>
      refine ⟨⟨rst, by simp [Flow.Log, List.getElem?_set, hlen], ?_⟩, ?_, ?_⟩
      · unfold StageEvent.Records
        rw [if_pos hT, if_pos hp2]
        exact ⟨rfl, w, by rw [hr], by rw [hr]; rfl⟩
      · intro q hq
        simp [Flow.Log, List.getElem?_set, Ne.symm hq]
      · exact ⟨rfl, by simp [Flow.Log], by simp [Flow.Log]⟩
    | none =>
      refine ⟨⟨rst, by simp [List.getElem?_set, hlen], ?_⟩, ?_, ?_⟩
      · unfold StageEvent.Records
        rw [if_pos hT, if_pos hp2]
        exact ⟨rfl, w, by rw [hr], by rw [hr]; rfl⟩
      · intro q hq
        simp [List.getElem?_set, Ne.symm hq]
      · exact ⟨rfl, by simp, by simp⟩
  · simp only [hp, if_false]
    by_cases hs : stage.Sequencing = Sequencing
    · simp only [hs, if_true]
      have hs2 : stage.Sequencing = Sequencing := hs
      obtain ⟨hlt, hst, hlast, herr, hacts, hrec, hkept, hflow⟩ :=
        Stage.SequencingRun_spec env stage verbose timestamp f w
      generalize Stage.SequencingRun env stage verbose timestamp f w = r at *
      obtain ⟨rs, re, rst, rf, rw_, rt⟩ := r
      simp only at hlt hst hlast herr hacts hrec hkept hflow
      subst herr
      have hrfl : rf.Stages.length = f.Stages.length := by rw [hflow.stages]
      refine ⟨⟨rst, by simp [List.getElem?_set, hrfl, hlen], ?_⟩, ?_, ?_⟩
      · unfold StageEvent.Records
        rw [if_pos hT, if_neg hp, if_pos hs2]
        exact ⟨hst.symm, hlt, by rw [hst]; exact hlast, hacts, hrec, hkept⟩
      · intro q hq
        simp [List.getElem?_set, Ne.symm hq, hflow.stages]
      · refine ⟨?_, hflow.2, by simp [hrfl]⟩
        simp only
        rw [hflow.1]
    · simp only [hs, if_false]
      refine ⟨⟨stage, by simpa [Flow.Log] using hi, ?_⟩, ?_, ?_⟩
      · unfold StageEvent.Records
        rw [if_pos hT, if_neg hp, if_neg hs]
        exact ⟨rfl, rfl, rfl⟩
      · intro q _
        simp [Flow.Log]
      · exact ⟨rfl, by simp [Flow.Log], by simp [Flow.Log]⟩

/-- One iteration of the stage loop of `LocalRun` records one event, whose
status is the flow status at the `break` test, and touches no stage but its
own. -/
theorem Flow.LocalRunBody_spec {W : Type} (env : Env W) (verbose timestamp : Bool) (i : Nat)
    (stage : Stage) (st : FlowState W) (hi : st.f.Stages[i]? = some stage) :
    ∃ e : StageEvent,
      (Flow.LocalRunBody env verbose timestamp i stage st).trace = st.trace ++ [e] ∧
      e.index = i ∧
      (Flow.LocalRunBody env verbose timestamp i stage st).f.Status = e.status ∧
      (∃ t, (Flow.LocalRunBody env verbose timestamp i stage st).f.Stages[i]? = some t ∧
        e.Records env verbose timestamp st.f.Status stage t) ∧
      (∀ q, q ≠ i →
        (Flow.LocalRunBody env verbose timestamp i stage st).f.Stages[q]? = st.f.Stages[q]?) ∧
      Flow.Kept st.f (Flow.LocalRunBody env verbose timestamp i stage st).f := by
  have hk0 : Flow.Kept st.f (st.f.Log env
      ("The Number [" ++ toString i ++ "] stage is running: " ++ stage.Title)
      verbose timestamp st.w).1 :=
    (Flow.Log_extend env _ _ verbose timestamp _).kept
  have hrec : ∀ (status : String), status = st.f.Status → stage.T ≠ NormalStage →
      StageEvent.Records env verbose timestamp { index := i, status := status, actions := [] }
        st.f.Status stage stage := by
    intro status hs hT
    unfold StageEvent.Records
    rw [if_neg hT]
    exact ⟨hs, rfl, rfl⟩
  unfold Flow.LocalRunBody
  simp only
  by_cases h1 : stage.T = StartStage
  · have hT : stage.T ≠ NormalStage := by rw [h1]; decide
    simp only [h1, if_true]
    exact ⟨_, rfl, rfl, rfl, ⟨stage, by simpa [Flow.Log] using hi, hrec _ rfl hT⟩,
      fun q _ => by simp [Flow.Log],
      hk0.trans_flow (Flow.Log_extend env _ _ verbose timestamp _).kept⟩
  · rw [if_neg h1]
    by_cases h2 : stage.T = NormalStage
    · rw [if_pos h2]
      have hi2 : (st.f.Log env
          ("The Number [" ++ toString i ++ "] stage is running: " ++ stage.Title)
          verbose timestamp st.w).1.Stages[i]? = some stage := by
        simpa [Flow.Log] using hi
      obtain ⟨⟨t, ht, hr⟩, hq, hk⟩ :=
        Flow.NormalArm_spec env verbose timestamp i stage _ _ hi2 h2
      refine ⟨_, rfl, rfl, rfl, ⟨t, ht, hr⟩, ?_, hk0.trans_flow hk⟩
      intro q hne
      rw [hq q hne]
      simp [Flow.Log]
    · rw [if_neg h2]
      by_cases h3 : stage.T = PauseStage
      · rw [if_pos h3]
        exact ⟨_, rfl, rfl, rfl, ⟨stage, by simpa [Flow.Log] using hi, hrec _ rfl h2⟩,
          fun q _ => by simp [Flow.Log], hk0⟩
      · rw [if_neg h3]
        by_cases h4 : stage.T = EndStage
        · rw [if_pos h4]
          exact ⟨_, rfl, rfl, rfl, ⟨stage, by simpa [Flow.Log] using hi, hrec _ rfl h2⟩,
            fun q _ => by simp [Flow.Log],
            hk0.trans_flow (Flow.Log_extend env _ _ verbose timestamp _).kept⟩
        · rw [if_neg h4]
          exact ⟨_, rfl, rfl, rfl, ⟨stage, by simpa [Flow.Log] using hi, hrec _ rfl h2⟩,
            fun q _ => by simp [Flow.Log], hk0⟩

/-- The stage loop of `LocalRun` started at index `i` with `n` stages left. -/
theorem Flow.LocalRunLoop_spec {W : Type} (env : Env W) (verbose timestamp : Bool) :
    ∀ (n i : Nat) (st : FlowState W), i + n = st.f.Stages.length →
    ∃ evs : List StageEvent,
      (Flow.LocalRunLoop env verbose timestamp n i st).trace = st.trace ++ evs ∧
      LoopTrace StageEvent.status StageEvent.index n i evs ∧
      (Flow.LocalRunLoop env verbose timestamp n i st).f.Status =
        lastOutcome StageEvent.status st.f.Status evs ∧
      (∀ q, q < i ∨ i + evs.length ≤ q →
        (Flow.LocalRunLoop env verbose timestamp n i st).f.Stages[q]? = st.f.Stages[q]?) ∧
      (∀ (p : Nat) (e : StageEvent), evs[p]? = some e → ∃ s t,
        st.f.Stages[i + p]? = some s ∧
        (Flow.LocalRunLoop env verbose timestamp n i st).f.Stages[i + p]? = some t ∧
        e.Records env verbose timestamp
          (lastOutcome StageEvent.status st.f.Status (evs.take p)) s t) ∧
      Flow.Kept st.f (Flow.LocalRunLoop env verbose timestamp n i st).f := by
  intro n
  induction n with
  | zero =>
    intro i st _
    exact ⟨[], by simp [Flow.LocalRunLoop], LoopTrace.nil _ _ _, rfl, fun _ _ => rfl,
      by simp, Flow.Kept.refl_flow _⟩
  | succ n ih =>
    intro i st hlen
    have hi : i < st.f.Stages.length := by omega
    have hget : st.f.Stages[i]? = some st.f.Stages[i] := List.getElem?_eq_getElem hi
    obtain ⟨e, htr, hidx, hst, ⟨b, hb, hrec⟩, hstages, hkept⟩ :=
      Flow.LocalRunBody_spec env verbose timestamp i st.f.Stages[i] st hget
    unfold Flow.LocalRunLoop
    rw [hget]
    simp only
    split
    · rename_i hh
      refine ⟨[e], htr, LoopTrace.single _ _ _ _ _ hidx (by rw [← hst]; exact hh), ?_, ?_, ?_,
        hkept⟩
      · simpa [lastOutcome] using hst
      · intro q hq
        apply hstages
        simp at hq
        omega
      · intro p x hx
        cases p with
        | zero =>
          simp at hx
          subst hx
          exact ⟨st.f.Stages[i], b, by simp, by simpa using hb,
            by simpa [lastOutcome] using hrec⟩
        | succ p => simp at hx
    · rename_i hh
      obtain ⟨evs, htr2, hlt, hst2, hstages2, hrec2, hkept2⟩ :=
        ih (i + 1) (Flow.LocalRunBody env verbose timestamp i st.f.Stages[i] st)
          (by rw [hkept.2.2]; omega)
      refine ⟨e :: evs, ?_, LoopTrace.cons _ _ _ _ _ _ hidx (by rw [← hst]; exact hh) hlt, ?_,
        ?_, ?_, hkept.trans_flow hkept2⟩
      · rw [htr2, htr]; simp
      · rw [hst2, lastOutcome_cons, hst]
      · intro q hq
        rw [hstages2 q (by simp at hq; omega)]
        apply hstages
        simp at hq
        omega
      · intro p x hx
        cases p with
        | zero =>
          simp at hx
          subst hx
          refine ⟨st.f.Stages[i], b, by simp, ?_, by simpa [lastOutcome] using hrec⟩
          have h2 := hstages2 i (Or.inl (by omega))
          simp only [Nat.add_zero]
          rw [h2]
          exact hb
        | succ p =>
          simp at hx
          obtain ⟨a2, b2, ha2, hb2, hr2⟩ := hrec2 p x hx
          have e1 : i + (p + 1) = i + 1 + p := by omega
          refine ⟨a2, b2, ?_, ?_, ?_⟩
          · rw [e1, ← hstages (i + 1 + p) (by omega)]
            exact ha2
          · rw [e1]
            exact hb2
          · rw [List.take_succ_cons, lastOutcome_cons, ← hst]
            exact hr2

/-- The state before the stage loop of `LocalRun`: the status is `Running`,
stages and receivers are as declared, log lines were added. -/
theorem Flow.LocalRunInit_spec {W : Type} (env : Env W) (f : Flow) (verbose timestamp : Bool)
    (w : W) :
    (Flow.LocalRunInit env f verbose timestamp w).1.Status = Running ∧
    (Flow.LocalRunInit env f verbose timestamp w).1.Stages = f.Stages ∧
    (Flow.LocalRunInit env f verbose timestamp w).1.Receivers = f.Receivers ∧
    f.Logs <+: (Flow.LocalRunInit env f verbose timestamp w).1.Logs := by
  unfold Flow.LocalRunInit
  simp only
  have h1 : Flow.LogsExtend { f with Status := Running }
      (({ f with Status := Running } : Flow).Log env
        ("Flow [" ++ f.URI ++ "] status change to " ++ Running) verbose timestamp w).1 :=
    Flow.Log_extend env _ _ verbose timestamp _
  generalize ({ f with Status := Running } : Flow).Log env
    ("Flow [" ++ f.URI ++ "] status change to " ++ Running) verbose timestamp w = l1 at *
  have h2 : ∀ l2 : Flow × W, l2 = (match l1.1.URIs.2 with
      | some e => l1.1.Log env ("Parse Flow [" ++ l1.1.URI ++ "] error: " ++ e)
          verbose timestamp l1.2
      | none => l1) → Flow.LogsExtend l1.1 l2.1 := by
    intro l2 hl2
    rw [hl2]
    split
    · exact Flow.Log_extend env _ _ verbose timestamp _
    · exact Flow.LogsExtend.refl_logs _
  have h2' := h2 _ rfl
  generalize (match l1.1.URIs.2 with
      | some e => l1.1.Log env ("Parse Flow [" ++ l1.1.URI ++ "] error: " ++ e)
          verbose timestamp l1.2
      | none => l1) = l2 at *
  generalize env.flowPut _ _ _ _ _ _ _ _ _ = pr
  have h3 : ∀ l3 : Flow × W, l3 = (match pr.1.2 with
      | some e => l2.1.Log env ("Save Flow [" ++ l2.1.URI ++ "] error: " ++ e)
          verbose timestamp pr.2
      | none => (l2.1, pr.2)) → Flow.LogsExtend l2.1 l3.1 := by
    intro l3 hl3
    rw [hl3]
    split
    · exact Flow.Log_extend env _ _ verbose timestamp _
    · exact Flow.LogsExtend.refl_logs _
  have h3' := h3 _ rfl
  generalize (match pr.1.2 with
      | some e => l2.1.Log env ("Save Flow [" ++ l2.1.URI ++ "] error: " ++ e)
          verbose timestamp pr.2
      | none => (l2.1, pr.2)) = l3 at *
  have h := (h1.trans_logs h2').trans_logs h3'
  refine ⟨?_, ?_, ?_, ?_⟩
  · exact h.status_eq
  · exact h.stages
  · show l3.1.Receivers = f.Receivers
    rw [h.1]
  · exact h.2

/-- Recording the run adds log lines to the flow and nothing else. -/
theorem Flow.LocalRunRecord_spec {W : Type} (env : Env W) (f : Flow) (flowID : Int)
    (startTime : String) (verbose timestamp : Bool) (w : W) :
    Flow.LogsExtend f (Flow.LocalRunRecord env f flowID startTime verbose timestamp w).1 := by
  unfold Flow.LocalRunRecord
  simp only
  have h1 : ∀ l1 : Flow × W, l1 = (match (env.getNumbers flowID w).1.2 with
      | some e => f.Log env ("Get Flow Data [" ++ f.URI ++ "] Numbers error: " ++ e)
          verbose timestamp (env.getNumbers flowID w).2
      | none => (f, (env.getNumbers flowID w).2)) → Flow.LogsExtend f l1.1 := by
    intro l1 hl1
    rw [hl1]
    split
    · exact Flow.Log_extend env _ _ verbose timestamp _
    · exact Flow.LogsExtend.refl_logs _
  have h1' := h1 _ rfl
  generalize (match (env.getNumbers flowID w).1.2 with
      | some e => f.Log env ("Get Flow Data [" ++ f.URI ++ "] Numbers error: " ++ e)
          verbose timestamp (env.getNumbers flowID w).2
      | none => (f, (env.getNumbers flowID w).2)) = l1 at *
  split
  · exact h1'.trans_logs (Flow.Log_extend env _ _ verbose timestamp _)
  · exact h1'

/-- Notifying the receivers adds log lines to the flow and nothing else. -/
theorem Flow.NotifyLoop_spec {W : Type} (env : Env W) (verbose timestamp : Bool) :
    ∀ (rs : List Receiver) (f : Flow) (w : W) (done : List Receiver),
    Flow.LogsExtend f (Flow.NotifyLoop env verbose timestamp rs f w done).1 := by
  intro rs
  induction rs with
  | nil => intro f w done; exact Flow.LogsExtend.refl_logs _
  | cons r rest ih =>
    intro f w done
    unfold Flow.NotifyLoop
    split
    · exact Flow.LogsExtend.refl_logs _
    · exact (Flow.Log_extend env _ _ verbose timestamp _).trans_logs (ih _ _ _)
    · exact (Flow.Log_extend env _ _ verbose timestamp _).trans_logs (ih _ _ _)

/-- Summary of `Flow.LocalRun`: the iterations of the stage loop form a loop
trace over the declared stages, the final flow status is the flow status at the
last `break` test or `Running` when the loop body never ran, stages not
reached are untouched, and each recorded event describes what happened to its
stage. -/
theorem Flow.LocalRun_spec {W : Type} (env : Env W) (f : Flow) (verbose timestamp : Bool)
    (w : W) :
    LoopTrace StageEvent.status StageEvent.index f.Stages.length 0
      (f.LocalRun env verbose timestamp w).trace ∧
    (f.LocalRun env verbose timestamp w).flow.Status =
      lastOutcome StageEvent.status Running (f.LocalRun env verbose timestamp w).trace ∧
    (f.LocalRun env verbose timestamp w).err = none ∧
    (∀ q, (f.LocalRun env verbose timestamp w).trace.length ≤ q →
      (f.LocalRun env verbose timestamp w).flow.Stages[q]? = f.Stages[q]?) ∧
    (∀ (p : Nat) (e : StageEvent), (f.LocalRun env verbose timestamp w).trace[p]? = some e →
      ∃ s t, f.Stages[p]? = some s ∧
        (f.LocalRun env verbose timestamp w).flow.Stages[p]? = some t ∧
        e.Records env verbose timestamp
          (lastOutcome StageEvent.status Running
            ((f.LocalRun env verbose timestamp w).trace.take p)) s t) ∧
    f.Logs <+: (f.LocalRun env verbose timestamp w).flow.Logs ∧
    (f.LocalRun env verbose timestamp w).flow.Receivers = f.Receivers := by
  obtain ⟨h0s, h0g, h0r, h0l⟩ := Flow.LocalRunInit_spec env f verbose timestamp w
  obtain ⟨evs, htr, hlt, hst, hstages, hrec, hkept⟩ :=
    Flow.LocalRunLoop_spec env verbose timestamp
      (Flow.LocalRunInit env f verbose timestamp w).1.Stages.length 0
      { f := (Flow.LocalRunInit env f verbose timestamp w).1,
        w := (Flow.LocalRunInit env f verbose timestamp w).2.2.2, trace := [] } (by simp)
  simp only [List.nil_append] at htr
  have hrun : (f.LocalRun env verbose timestamp w).trace = evs := htr
  have hfin : Flow.LogsExtend
      (Flow.LocalRunLoop env verbose timestamp
        (Flow.LocalRunInit env f verbose timestamp w).1.Stages.length 0
        { f := (Flow.LocalRunInit env f verbose timestamp w).1,
          w := (Flow.LocalRunInit env f verbose timestamp w).2.2.2, trace := [] }).f
      (f.LocalRun env verbose timestamp w).flow := by
    unfold Flow.LocalRun
    simp only
    split
    · exact (Flow.LocalRunRecord_spec env _ _ _ verbose timestamp _).trans_logs
        (Flow.NotifyLoop_spec env verbose timestamp _ _ _ _)
    · exact Flow.LocalRunRecord_spec env _ _ _ verbose timestamp _
  simp only at hst hstages hrec hkept
  refine ⟨?_, ?_, rfl, ?_, ?_, ?_, ?_⟩
  · rw [hrun, ← h0g]; exact hlt
  · rw [hrun, hfin.status_eq, hst, h0s]
  · intro q hq
    rw [hrun] at hq
    rw [hfin.stages, ← h0g]
    exact hstages q (Or.inr (by omega))
  · intro p e he
    rw [hrun] at he
    obtain ⟨s, t, hs, ht, hr⟩ := hrec p e he
    rw [Nat.zero_add] at hs ht
    refine ⟨s, t, by rw [← h0g]; exact hs, by rw [hfin.stages]; exact ht, ?_⟩
    rw [hrun, ← h0s]
    exact hr
  · exact (h0l.trans hkept.2.1).trans hfin.2
  · rw [hfin.1]
    show (Flow.LocalRunLoop env verbose timestamp _ 0 _).f.Receivers = f.Receivers
    rw [hkept.1]
    exact h0r

/-! ## Claims on the flow orchestrator -/

/-- C2: when the flow status is `Failure` or `Cancel` after the stage of index
`k` has been processed by `Flow.LocalRun`, that stage is the first such one and
the last one processed, every stage of a higher index is left as it was, and
the final flow status is that `Failure` or `Cancel`. -/
theorem C2_flow_stops_at_failure {W : Type} (env : Env W) (f : Flow)
    (verbose timestamp : Bool) (w : W) (k : Nat) (e : StageEvent)
    (hk : (f.LocalRun env verbose timestamp w).trace[k]? = some e)
    (hh : e.status = Failure ∨ e.status = Cancel) :
    e.index = k ∧
    (∀ (j : Nat) (x : StageEvent),
      (f.LocalRun env verbose timestamp w).trace[j]? = some x → j < k →
      x.status ≠ Failure ∧ x.status ≠ Cancel) ∧
    (f.LocalRun env verbose timestamp w).trace.length = k + 1 ∧
    (∀ x ∈ (f.LocalRun env verbose timestamp w).trace, x.index ≤ k) ∧
    (∀ q, k < q → (f.LocalRun env verbose timestamp w).flow.Stages[q]? = f.Stages[q]?) ∧
    (f.LocalRun env verbose timestamp w).flow.Status = e.status := by
  obtain ⟨hlt, hlast, _, hstages, _, _, _⟩ := Flow.LocalRun_spec env f verbose timestamp w
  have hlen := hlt.halts_last hk hh
  refine ⟨(hlt.index_eq hk).1, ?_, hlen, ?_, ?_, ?_⟩
  · intro j x hx hj
    have hnh : ¬ Halts x.status := by
      intro hxh
      have := hlt.halts_last hx hxh
      omega
    exact ⟨fun h => hnh (Or.inl h), fun h => hnh (Or.inr h)⟩
  · intro x hx
    obtain ⟨j, hj, hjx⟩ := List.getElem_of_mem hx
    have hx2 : (f.LocalRun env verbose timestamp w).trace[j]? = some x := by
      rw [List.getElem?_eq_getElem hj, hjx]
    have := (hlt.index_eq hx2).1
    omega
  · intro q hq
    exact hstages q (by omega)
  · rw [hlast, lastOutcome_of_last _ _ hk hlen]

/-- Witness of C2 on the scenario flow `[Start, Normal(sequence, [A1, A2, A3])]`
with `A2` failing: the flow status is `Failure` after stage 1, only `A1` and
`A2` were run, `A3` is as declared, the stage status and the flow status are
`Failure`. -/
theorem C2_flow_stops_at_failure_witness :
    ((scenarioFlow.LocalRun testEnv false false ()).trace[1]? =
      some { index := 1, status := Failure,
             actions := [{ index := 0, status := Success,
                           jobs := [{ index := 0, status := Success, err := none }] },
                         { index := 1, status := Failure,
                           jobs := [{ index := 0, status := Failure, err := none }] }] }) ∧
    (scenarioFlow.LocalRun testEnv false false ()).trace.length = 1 + 1 ∧
    (scenarioFlow.LocalRun testEnv false false ()).flow.Status = Failure ∧
    ((scenarioFlow.LocalRun testEnv false false ()).flow.Stages[1]?.map Stage.Status =
      some Failure) ∧
    ((scenarioFlow.LocalRun testEnv false false ()).flow.Stages[1]?.map
      (fun s => s.Actions[2]?) = some (some (mkAction "A3" "" [mkJob Success]))) :=
  have h := C2_flow_stops_at_failure testEnv scenarioFlow false false () 1
    { index := 1, status := Failure,
      actions := [{ index := 0, status := Success,
                    jobs := [{ index := 0, status := Success, err := none }] },
                  { index := 1, status := Failure,
                    jobs := [{ index := 0, status := Failure, err := none }] }] }
    (by decide) (Or.inl rfl)
  ⟨by decide, h.2.2.1, h.2.2.2.2.2, by decide, by decide⟩

/-- The notification loop invokes the notifier of every receiver, whatever the
notifiers return, when each receiver's lookup finds a notifier. -/
theorem Flow.NotifyLoop_all {W : Type} (env : Env W) (verbose timestamp : Bool) :
    ∀ (rs : List Receiver) (f : Flow) (w : W) (done : List Receiver),
    (∀ rc ∈ rs, ∀ g addrs w0, (env.notify rc.Typ g addrs w0).isSome = true) →
    (Flow.NotifyLoop env verbose timestamp rs f w done).2.2.1 = done ++ rs ∧
    (Flow.NotifyLoop env verbose timestamp rs f w done).2.2.2 = false := by
  intro rs
  induction rs with
  | nil => intro f w done _; exact ⟨by simp [Flow.NotifyLoop], rfl⟩
  | cons r rest ih =>
    intro f w done hn
    have hrest : ∀ rc ∈ rest, ∀ g addrs w0, (env.notify rc.Typ g addrs w0).isSome = true :=
      fun rc hrc => hn rc (List.mem_cons_of_mem _ hrc)
    unfold Flow.NotifyLoop
    split
    · rename_i hx
      have := hn r (List.mem_cons_self _ _) f [r.Address] w
      rw [hx] at this
      cases this
    · obtain ⟨i1, i2⟩ := ih _ _ (done ++ [r]) hrest
      exact ⟨by rw [i1]; simp, i2⟩
    · obtain ⟨i1, i2⟩ := ih _ _ (done ++ [r]) hrest
      exact ⟨by rw [i1]; simp, i2⟩

/-- When the lookup of each receiver of the flow finds a notifier, `LocalRun`
invokes the notifier of every receiver in declared order and is not aborted. -/
theorem Flow.LocalRun_notified {W : Type} (env : Env W) (f : Flow) (verbose timestamp : Bool)
    (w : W)
    (hn : ∀ rc ∈ f.Receivers, ∀ g addrs w0, (env.notify rc.Typ g addrs w0).isSome = true) :
    (f.LocalRun env verbose timestamp w).notified = f.Receivers ∧
    (f.LocalRun env verbose timestamp w).panicked = false := by
  obtain ⟨_, _, h0r, _⟩ := Flow.LocalRunInit_spec env f verbose timestamp w
  obtain ⟨_, _, _, _, _, _, hkept⟩ :=
    Flow.LocalRunLoop_spec env verbose timestamp
      (Flow.LocalRunInit env f verbose timestamp w).1.Stages.length 0
      { f := (Flow.LocalRunInit env f verbose timestamp w).1,
        w := (Flow.LocalRunInit env f verbose timestamp w).2.2.2, trace := [] } (by simp)
  have hloop : (Flow.LocalRunLoop env verbose timestamp
      (Flow.LocalRunInit env f verbose timestamp w).1.Stages.length 0
      { f := (Flow.LocalRunInit env f verbose timestamp w).1,
        w := (Flow.LocalRunInit env f verbose timestamp w).2.2.2,
        trace := [] }).f.Receivers = f.Receivers := by
    rw [hkept.1]
    exact h0r
  have key : ∀ (fl : Flow) (w0 : W), fl.Receivers = f.Receivers →
      (if fl.Receivers.length > 0 then
          Flow.NotifyLoop env verbose timestamp fl.Receivers fl w0 []
        else (fl, w0, [], false)).2.2.1 = f.Receivers ∧
      (if fl.Receivers.length > 0 then
          Flow.NotifyLoop env verbose timestamp fl.Receivers fl w0 []
        else (fl, w0, [], false)).2.2.2 = false := by
    intro fl w0 hfl
    split
    · obtain ⟨i1, i2⟩ := Flow.NotifyLoop_all env verbose timestamp fl.Receivers fl w0 []
        (by rw [hfl]; exact hn)
      exact ⟨by rw [i1, hfl]; rfl, i2⟩
    · rename_i hlen
      refine ⟨?_, rfl⟩
      rw [← hfl]
      exact (List.eq_nil_of_length_eq_zero (by omega)).symm
  have hrec := (Flow.LocalRunRecord_spec env
    (Flow.LocalRunLoop env verbose timestamp
      (Flow.LocalRunInit env f verbose timestamp w).1.Stages.length 0
      { f := (Flow.LocalRunInit env f verbose timestamp w).1,
        w := (Flow.LocalRunInit env f verbose timestamp w).2.2.2, trace := [] }).f
    (Flow.LocalRunInit env f verbose timestamp w).2.1
    (Flow.LocalRunInit env f verbose timestamp w).2.2.1 verbose timestamp
    (Flow.LocalRunLoop env verbose timestamp
      (Flow.LocalRunInit env f verbose timestamp w).1.Stages.length 0
      { f := (Flow.LocalRunInit env f verbose timestamp w).1,
        w := (Flow.LocalRunInit env f verbose timestamp w).2.2.2, trace := [] }).w).1
  exact key _ _ ((congrArg Flow.Receivers hrec).trans hloop)

/-- C6 (as stated) fails: `LocalRun` on a flow with no stages and declared
status `Pending` leaves the status `Running`; and on a flow with no stages and
a receiver whose type has no notifier the call is aborted. -/
theorem C6_counterexample :
    (mkFlow Pending [] []).Stages = [] ∧
    ((mkFlow Pending [] []).LocalRun testEnv false false ()).flow.Status = Running ∧
    ((mkFlow Pending [] []).LocalRun testEnv false false ()).flow.Status ≠
      (mkFlow Pending [] []).Status ∧
    ((mkFlow Pending [] [{ Typ := "slack", Address := "ops" }]).LocalRun testEnv false false
      ()).panicked = true := by
  decide

/-- C6 (amended): on a flow with no stages `LocalRun` runs no stage, returns no
error and leaves the flow status `Running`, the value set on entry; when the
lookup of each receiver of the flow finds a notifier the call is not
aborted. -/
theorem C6_empty_flow {W : Type} (env : Env W) (f : Flow) (verbose timestamp : Bool) (w : W)
    (hs : f.Stages = []) :
    (f.LocalRun env verbose timestamp w).trace = [] ∧
    (f.LocalRun env verbose timestamp w).flow.Status = Running ∧
    (f.LocalRun env verbose timestamp w).flow.Stages = [] ∧
    (f.LocalRun env verbose timestamp w).err = none ∧
    ((∀ rc ∈ f.Receivers, ∀ g addrs w0, (env.notify rc.Typ g addrs w0).isSome = true) →
      (f.LocalRun env verbose timestamp w).panicked = false) := by
  obtain ⟨hlt, hlast, _, hstages, _, _, _⟩ := Flow.LocalRun_spec env f verbose timestamp w
  have h0 : (f.LocalRun env verbose timestamp w).trace = [] := by
    have := hlt.1
    rw [hs] at this
    exact List.eq_nil_of_length_eq_zero (by simpa using this)
  refine ⟨h0, ?_, ?_, rfl, fun hn => (Flow.LocalRun_notified env f verbose timestamp w hn).2⟩
  · rw [hlast, h0]; rfl
  · apply List.ext_getElem?
    intro q
    rw [hstages q (by rw [h0]; simp), hs]

/-- Witness of C6 (amended): the flow with no stages and one receiver of type
`"mail"`, for which the test environment has a notifier: the status is left
`Running` and the call is not aborted. -/
theorem C6_empty_flow_witness :
    (mkFlow Pending [] [{ Typ := "mail", Address := "ops" }]).Stages = [] ∧
    (∀ rc ∈ (mkFlow Pending [] [{ Typ := "mail", Address := "ops" }]).Receivers,
      ∀ (g : Flow) (addrs : List String) (w0 : Unit),
        (testEnv.notify rc.Typ g addrs w0).isSome = true) ∧
    ((mkFlow Pending [] [{ Typ := "mail", Address := "ops" }]).LocalRun testEnv false false
      ()).flow.Status = Running ∧
    ((mkFlow Pending [] [{ Typ := "mail", Address := "ops" }]).LocalRun testEnv false false
      ()).panicked = false :=
  have hn : ∀ rc ∈ (mkFlow Pending [] [{ Typ := "mail", Address := "ops" }]).Receivers,
      ∀ (g : Flow) (addrs : List String) (w0 : Unit),
        (testEnv.notify rc.Typ g addrs w0).isSome = true := by
    intro rc hrc g addrs w0
    have h : rc = { Typ := "mail", Address := "ops" } := by simpa [mkFlow] using hrc
    rw [h]
    rfl
  ⟨rfl, hn,
    (C6_empty_flow testEnv (mkFlow Pending [] [{ Typ := "mail", Address := "ops" }])
      false false () rfl).2.1,
    (C6_empty_flow testEnv (mkFlow Pending [] [{ Typ := "mail", Address := "ops" }])
      false false () rfl).2.2.2.2 hn⟩

/-- C8 (as stated) fails: after `LocalRun` on a flow made of one start stage
and one end stage, both declared `Pending`, neither stage has status
`Success`; both are still `Pending`. -/
theorem C8_counterexample :
    ((mkFlow Pending [mkStage StartStage "" Pending [], mkStage EndStage "" Pending []]
      []).LocalRun testEnv false false ()).trace.length = 2 ∧
    ((mkFlow Pending [mkStage StartStage "" Pending [], mkStage EndStage "" Pending []]
      []).LocalRun testEnv false false ()).flow.Stages.map Stage.Status = [Pending, Pending] ∧
    Pending ≠ Success := by
  decide

/-- C8 (amended): a stage of kind `start` or `end` that `LocalRun` processes
has none of its actions run, is left exactly as it was (its status is not
set), and the flow status after it is the flow status before it. -/
theorem C8_start_end_stage {W : Type} (env : Env W) (f : Flow) (verbose timestamp : Bool)
    (w : W) (p : Nat) (e : StageEvent) (s : Stage)
    (he : (f.LocalRun env verbose timestamp w).trace[p]? = some e)
    (hs : f.Stages[p]? = some s) (hT : s.T = StartStage ∨ s.T = EndStage) :
    e.index = p ∧ e.actions = [] ∧
    (f.LocalRun env verbose timestamp w).flow.Stages[p]? = some s ∧
    e.status = lastOutcome StageEvent.status Running
      ((f.LocalRun env verbose timestamp w).trace.take p) := by
  obtain ⟨hlt, _, _, _, hrec, _, _⟩ := Flow.LocalRun_spec env f verbose timestamp w
  obtain ⟨s2, t, hs2, ht, hr⟩ := hrec p e he
  rw [hs] at hs2
  cases hs2
  have hN : s.T ≠ NormalStage := by
    rcases hT with h | h <;> rw [h] <;> decide
  unfold StageEvent.Records at hr
  rw [if_neg hN] at hr
  obtain ⟨h1, h2, h3⟩ := hr
  exact ⟨(hlt.index_eq he).1, h3, by rw [ht, h2], h1⟩

/-- Witness of C8 (amended): the start stage of the scenario flow. -/
theorem C8_start_end_stage_witness :
    (scenarioFlow.LocalRun testEnv false false ()).trace[0]? =
      some { index := 0, status := Running, actions := [] } ∧
    (scenarioFlow.LocalRun testEnv false false ()).flow.Stages[0]? =
      some (mkStage StartStage "" "" []) :=
  ⟨by decide, (C8_start_end_stage testEnv scenarioFlow false false () 0
    { index := 0, status := Running, actions := [] } (mkStage StartStage "" "" [])
    (by decide) (by decide) (Or.inl rfl)).2.2.1⟩

/-! ## Status progression -/

theorem Terminal.not_running {s : String} (h : Terminal s) : s ≠ Pending ∧ s ≠ Running := by
  rcases h with h | h | h <;> rw [h] <;> decide

theorem Halts.is_terminal {s : String} (h : Halts s) : Terminal s := by
  rcases h with h | h
  · exact Or.inr (Or.inl h)
  · exact Or.inr (Or.inr h)

theorem lastOutcome_nil {ε : Type} (outcome : ε → String) (init : String) :
    lastOutcome outcome init [] = init := rfl

theorem lastOutcome_mem {ε : Type} (outcome : ε → String) (init : String) {evs : List ε}
    (h : evs ≠ []) : ∃ e ∈ evs, lastOutcome outcome init evs = outcome e := by
  refine ⟨evs.getLast h, List.getLast_mem h, ?_⟩
  simp [lastOutcome, List.getLast?_eq_getLast _ h]

/-- The status after the first `p + 1` recorded iterations is the outcome of
the iteration at position `p`. -/
theorem lastOutcome_take_succ {ε : Type} (outcome : ε → String) (init : String)
    {evs : List ε} {p : Nat} {e : ε} (he : evs[p]? = some e) :
    lastOutcome outcome init (evs.take (p + 1)) = outcome e := by
  have hp : p < evs.length := by
    rcases Nat.lt_or_ge p evs.length with h' | h'
    · exact h'
    · rw [List.getElem?_eq_none h'] at he; cases he
  apply lastOutcome_of_last outcome init (p := p)
  · rw [List.getElem?_take_of_lt (by omega)]
    exact he
  · rw [List.length_take]
    omega

theorem lastOutcome_take_all {ε : Type} (outcome : ε → String) (init : String)
    (evs : List ε) : lastOutcome outcome init (evs.take evs.length) =
      lastOutcome outcome init evs := by
  rw [List.take_length]

/-- Under `TerminalDispatch` the outcome of a recorded dispatch is terminal. -/
theorem JobEvent.From.outcome_terminal {W : Type} {env : Env W} {verbose timestamp : Bool}
    {e : JobEvent} (h : e.From env verbose timestamp) (hjob : TerminalDispatch env) :
    Terminal e.outcome := by
  obtain ⟨name, job, w, hs, he⟩ := h
  unfold JobEvent.outcome
  cases hx : e.err with
  | some x => exact Or.inr (Or.inl rfl)
  | none =>
    rcases hjob name verbose timestamp job w with h1 | h1
    · rw [← he, hx] at h1; exact absurd rfl h1
    · rw [← hs] at h1; exact h1

/-- Under `TerminalDispatch` a call of `Action.Run` returns `Running` when the
action has no job and a terminal status otherwise. -/
theorem ActionEvent.Records.action_status {W : Type} {env : Env W} {verbose timestamp : Bool}
    {x : ActionEvent} {a b : Action} (h : x.Records env verbose timestamp a b)
    (hjob : TerminalDispatch env) :
    (a.Jobs = [] → x.status = Running) ∧ (a.Jobs ≠ [] → Terminal x.status) := by
  obtain ⟨_, hlt, hfrom, hlast, _, _⟩ := h
  constructor
  · intro ha
    have h0 : x.jobs = [] := by
      have := hlt.1
      rw [ha] at this
      exact List.eq_nil_of_length_eq_zero (by simpa using this)
    rw [hlast, h0]
    rfl
  · intro ha
    have hne := hlt.ne_nil (List.length_pos.mpr ha)
    obtain ⟨e, he, heq⟩ := lastOutcome_mem JobEvent.outcome Running hne
    rw [hlast, heq]
    exact (hfrom e he).outcome_terminal hjob

/-- What one iteration of the stage loop does to the flow status, under
`TerminalDispatch` and `TerminalParallel`: a stage that is not normal leaves
it, a normal stage gives `Running` or a terminal status, and a normal stage
that is not a sequential stage without work gives a terminal status. -/
theorem StageEvent.Records.stage_status {W : Type} {env : Env W} {verbose timestamp : Bool}
    {e : StageEvent} {prev : String} {s t : Stage}
    (h : e.Records env verbose timestamp prev s t)
    (hjob : TerminalDispatch env) (hpar : TerminalParallel env) :
    (s.T ≠ NormalStage → e.status = prev) ∧
    (s.T = NormalStage → e.status = Running ∨ Terminal e.status) ∧
    (s.T = NormalStage →
      (s.Sequencing = Sequencing → s.Actions ≠ [] ∧ ∀ a ∈ s.Actions, a.Jobs ≠ []) →
      Terminal e.status) := by
  unfold StageEvent.Records at h
  by_cases hT : s.T = NormalStage
  · rw [if_pos hT] at h
    have key : (e.status = Running ∨ Terminal e.status) ∧
        ((s.Sequencing = Sequencing → s.Actions ≠ [] ∧ ∀ a ∈ s.Actions, a.Jobs ≠ []) →
          Terminal e.status) := by
      by_cases hp : s.Sequencing = Parallel
      · rw [if_pos hp] at h
        obtain ⟨_, w, _, hst⟩ := h
        have ht : Terminal e.status := by
          rw [hst]
          unfold ParallelResult.outcome
          cases hx : (env.parallelRun verbose timestamp s e.index w).err with
          | some x => exact Or.inr (Or.inl rfl)
          | none =>
            rcases hpar verbose timestamp s e.index w with h1 | h1
            · rw [hx] at h1; exact absurd rfl h1
            · exact h1
        exact ⟨Or.inr ht, fun _ => ht⟩
      · rw [if_neg hp] at h
        by_cases hs : s.Sequencing = Sequencing
        · rw [if_pos hs] at h
          obtain ⟨_, hlt, hlast, _, hrec, _⟩ := h
          constructor
          · by_cases hne : e.actions = []
            · left
              rw [hlast, hne]
              rfl
            · obtain ⟨x, hx, heq⟩ := lastOutcome_mem ActionEvent.status Running hne
              obtain ⟨j, hj, hjx⟩ := List.getElem_of_mem hx
              obtain ⟨a, b, _, _, hr⟩ := hrec j x (by rw [List.getElem?_eq_getElem hj, hjx])
              rw [hlast, heq]
              by_cases ha : a.Jobs = []
              · exact Or.inl ((hr.action_status hjob).1 ha)
              · exact Or.inr ((hr.action_status hjob).2 ha)
          · intro hw
            obtain ⟨hacts, hjobs⟩ := hw hs
            have hne := hlt.ne_nil (List.length_pos.mpr hacts)
            obtain ⟨x, hx, heq⟩ := lastOutcome_mem ActionEvent.status Running hne
            obtain ⟨j, hj, hjx⟩ := List.getElem_of_mem hx
            obtain ⟨a, b, ha, _, hr⟩ := hrec j x (by rw [List.getElem?_eq_getElem hj, hjx])
            rw [hlast, heq]
            exact (hr.action_status hjob).2 (hjobs a (List.getElem?_mem ha))
        · rw [if_neg hs] at h
          have ht : Terminal e.status := by rw [h.1]; exact Or.inr (Or.inl rfl)
          exact ⟨Or.inr ht, fun _ => ht⟩
    exact ⟨fun hn => absurd hT hn, fun _ => key.1, fun _ => key.2⟩
  · rw [if_neg hT] at h
    exact ⟨fun _ => h.1, fun hn => absurd hn hT, fun hn => absurd hn hT⟩

/-- Each recorded iteration of the stage loop takes the flow status from
`statusBefore p` to `statusBefore (p + 1)` as its event records. -/
theorem Flow.LocalRun_step {W : Type} (env : Env W) (f : Flow) (verbose timestamp : Bool)
    (w : W) (p : Nat) (hp : p < (f.LocalRun env verbose timestamp w).trace.length) :
    ∃ e s t, (f.LocalRun env verbose timestamp w).trace[p]? = some e ∧
      f.Stages[p]? = some s ∧
      (f.LocalRun env verbose timestamp w).flow.Stages[p]? = some t ∧
      statusBefore (f.LocalRun env verbose timestamp w) (p + 1) = e.status ∧
      e.Records env verbose timestamp (statusBefore (f.LocalRun env verbose timestamp w) p)
        s t := by
  obtain ⟨_, _, _, _, hrec, _, _⟩ := Flow.LocalRun_spec env f verbose timestamp w
  have he := List.getElem?_eq_getElem hp
  obtain ⟨s, t, hs, ht, hr⟩ := hrec p _ he
  exact ⟨_, s, t, he, hs, ht, lastOutcome_take_succ _ _ he, hr⟩

/-- The final flow status is the status before the position past the last
recorded iteration. -/
theorem Flow.LocalRun_final {W : Type} (env : Env W) (f : Flow) (verbose timestamp : Bool)
    (w : W) :
    (f.LocalRun env verbose timestamp w).flow.Status =
      statusBefore (f.LocalRun env verbose timestamp w)
        (f.LocalRun env verbose timestamp w).trace.length := by
  obtain ⟨_, hlast, _⟩ := Flow.LocalRun_spec env f verbose timestamp w
  rw [hlast, statusBefore, List.take_length]

/-- Under `TerminalDispatch` and `TerminalParallel` the flow status is
`Running` or terminal at every `break` test. -/
theorem Flow.LocalRun_range {W : Type} (env : Env W) (f : Flow) (verbose timestamp : Bool)
    (w : W) (hjob : TerminalDispatch env) (hpar : TerminalParallel env) :
    ∀ p, p ≤ (f.LocalRun env verbose timestamp w).trace.length →
      statusBefore (f.LocalRun env verbose timestamp w) p = Running ∨
      Terminal (statusBefore (f.LocalRun env verbose timestamp w) p) := by
  intro p
  induction p with
  | zero => intro _; exact Or.inl rfl
  | succ p ih =>
    intro hp
    obtain ⟨e, s, t, _, _, _, hnext, hr⟩ :=
      Flow.LocalRun_step env f verbose timestamp w p (by omega)
    obtain ⟨h1, h2, _⟩ := hr.stage_status hjob hpar
    rw [hnext]
    by_cases hT : s.T = NormalStage
    · exact h2 hT
    · rw [h1 hT]
      exact ih (by omega)

/-- Under `TerminalDispatch`, `TerminalParallel` and `NoEmptyWork` a terminal
flow status stays terminal, and a normal stage makes it terminal. -/
theorem Flow.LocalRun_terminal_step {W : Type} (env : Env W) (f : Flow)
    (verbose timestamp : Bool) (w : W) (hjob : TerminalDispatch env)
    (hpar : TerminalParallel env) (hw : f.NoEmptyWork) (p : Nat)
    (hp : p < (f.LocalRun env verbose timestamp w).trace.length) :
    (Terminal (statusBefore (f.LocalRun env verbose timestamp w) p) →
      Terminal (statusBefore (f.LocalRun env verbose timestamp w) (p + 1))) ∧
    (∀ s, f.Stages[p]? = some s → s.T = NormalStage →
      Terminal (statusBefore (f.LocalRun env verbose timestamp w) (p + 1))) := by
  obtain ⟨e, s, t, _, hs, _, hnext, hr⟩ := Flow.LocalRun_step env f verbose timestamp w p hp
  obtain ⟨h1, _, h3⟩ := hr.stage_status hjob hpar
  have hn : s.T = NormalStage → Terminal e.status :=
    fun hT => h3 hT (hw s (List.getElem?_mem hs) hT)
  rw [hnext]
  constructor
  · intro hprev
    by_cases hT : s.T = NormalStage
    · exact hn hT
    · rw [h1 hT]; exact hprev
  · intro s2 hs2 hT
    rw [hs] at hs2
    cases hs2
    exact hn hT

/-- Under the three assumptions a terminal flow status stays terminal up to
any later position. -/
theorem Flow.LocalRun_terminal_mono {W : Type} (env : Env W) (f : Flow)
    (verbose timestamp : Bool) (w : W) (hjob : TerminalDispatch env)
    (hpar : TerminalParallel env) (hw : f.NoEmptyWork) (p : Nat)
    (ht : Terminal (statusBefore (f.LocalRun env verbose timestamp w) p)) :
    ∀ d, p + d ≤ (f.LocalRun env verbose timestamp w).trace.length →
      Terminal (statusBefore (f.LocalRun env verbose timestamp w) (p + d)) := by
  intro d
  induction d with
  | zero => intro _; exact ht
  | succ d ih =>
    intro hd
    exact (Flow.LocalRun_terminal_step env f verbose timestamp w hjob hpar hw (p + d)
      (by omega)).1 (ih (by omega))

theorem testEnv_terminalDispatch : TerminalDispatch testEnv := by
  intro name verbose timestamp job w
  simp only [testEnv]
  split
  · left; simp
  · split
    · right; exact Or.inr (Or.inl rfl)
    · split
      · right; exact Or.inr (Or.inr rfl)
      · right; exact Or.inl rfl

theorem testEnv_terminalParallel : TerminalParallel testEnv := by
  intro verbose timestamp stage i w
  right
  exact Or.inl rfl

/-- C5 (as stated) fails: under an environment whose dispatches and parallel
runs all return a terminal status or an error, `LocalRun` on the flow
`[Start, Normal(sequence, [A1 without jobs]), End]` ends with flow status
`Running`. -/
theorem C5_counterexample :
    TerminalDispatch testEnv ∧ TerminalParallel testEnv ∧
    ((mkFlow Pending
      [mkStage StartStage "" Pending [],
       mkStage NormalStage Sequencing Pending [mkAction "A1" Pending []],
       mkStage EndStage "" Pending []] []).LocalRun testEnv false false ()).flow.Status
      = Running ∧
    ¬ Terminal Running :=
  ⟨testEnv_terminalDispatch, testEnv_terminalParallel, by decide, by decide⟩

/-- C5 (amended): when every job dispatch and every `ParallelRun` returns a
terminal status or an error, the flow status after `LocalRun` is `Running`,
`Success`, `Failure` or `Cancel`, never `Pending`; it is terminal when a normal
stage was processed and no sequential stage is without actions and no action of
one is without jobs. -/
theorem C5_flow_status_range {W : Type} (env : Env W) (f : Flow) (verbose timestamp : Bool)
    (w : W) (hjob : TerminalDispatch env) (hpar : TerminalParallel env) :
    ((f.LocalRun env verbose timestamp w).flow.Status = Running ∨
      Terminal (f.LocalRun env verbose timestamp w).flow.Status) ∧
    (f.LocalRun env verbose timestamp w).flow.Status ≠ Pending ∧
    (f.NoEmptyWork →
      (∃ p s, p < (f.LocalRun env verbose timestamp w).trace.length ∧
        f.Stages[p]? = some s ∧ s.T = NormalStage) →
      Terminal (f.LocalRun env verbose timestamp w).flow.Status) := by
  have hrange := Flow.LocalRun_range env f verbose timestamp w hjob hpar _ (Nat.le_refl _)
  rw [← Flow.LocalRun_final] at hrange
  refine ⟨hrange, ?_, ?_⟩
  · rcases hrange with h | h
    · rw [h]; decide
    · exact h.not_running.1
  · rintro hw ⟨p, s, hp, hs, hT⟩
    have h1 := (Flow.LocalRun_terminal_step env f verbose timestamp w hjob hpar hw p hp).2
      s hs hT
    have h2 := Flow.LocalRun_terminal_mono env f verbose timestamp w hjob hpar hw (p + 1) h1
      ((f.LocalRun env verbose timestamp w).trace.length - (p + 1)) (by omega)
    rw [Flow.LocalRun_final]
    have e : p + 1 + ((f.LocalRun env verbose timestamp w).trace.length - (p + 1)) =
        (f.LocalRun env verbose timestamp w).trace.length := by omega
    rw [e] at h2
    exact h2

/-- Witness of C5 (amended): the scenario flow under the test environment ends
in a status that is `Running` or terminal. -/
theorem C5_flow_status_range_witness :
    TerminalDispatch testEnv ∧ TerminalParallel testEnv ∧
    ((scenarioFlow.LocalRun testEnv false false ()).flow.Status = Running ∨
      Terminal (scenarioFlow.LocalRun testEnv false false ()).flow.Status) :=
  ⟨testEnv_terminalDispatch, testEnv_terminalParallel,
    (C5_flow_status_range testEnv scenarioFlow false false () testEnv_terminalDispatch
      testEnv_terminalParallel).1⟩

theorem statusBefore_zero {W : Type} (r : FlowResult W) : statusBefore r 0 = Running := rfl

theorem not_halts_running : ¬ Halts Running := by decide

/-- The loop reached position `p`, so the flow status before it was neither
`Failure` nor `Cancel`. -/
theorem Flow.LocalRun_not_halted {W : Type} (env : Env W) (f : Flow) (verbose timestamp : Bool)
    (w : W) (p : Nat) (hp : p < (f.LocalRun env verbose timestamp w).trace.length) :
    ¬ Halts (statusBefore (f.LocalRun env verbose timestamp w) p) := by
  obtain ⟨hlt, _⟩ := Flow.LocalRun_spec env f verbose timestamp w
  cases p with
  | zero => rw [statusBefore_zero]; exact not_halts_running
  | succ q =>
    have he := List.getElem?_eq_getElem
      (show q < (f.LocalRun env verbose timestamp w).trace.length by omega)
    unfold statusBefore
    rw [lastOutcome_take_succ _ _ he]
    exact hlt.2.2.1 q _ he hp

/-- A stage processed by `LocalRun` keeps its kind; when it is a sequential
normal stage its status after the run is the flow status at its `break`
test. -/
theorem Flow.LocalRun_stage {W : Type} (env : Env W) (f : Flow) (verbose timestamp : Bool)
    (w : W) (hseq : ∀ s ∈ f.Stages, s.T = NormalStage → s.Sequencing = Sequencing)
    (p : Nat) (hp : p < (f.LocalRun env verbose timestamp w).trace.length) :
    ∃ e s t, (f.LocalRun env verbose timestamp w).trace[p]? = some e ∧
      f.Stages[p]? = some s ∧
      (f.LocalRun env verbose timestamp w).flow.Stages[p]? = some t ∧
      statusBefore (f.LocalRun env verbose timestamp w) (p + 1) = e.status ∧
      t.T = s.T ∧
      (s.T = NormalStage → t.Status = e.status) ∧
      (s.T ≠ NormalStage →
        e.status = statusBefore (f.LocalRun env verbose timestamp w) p) := by
  obtain ⟨e, s, t, he, hs, ht, hnext, hr⟩ := Flow.LocalRun_step env f verbose timestamp w p hp
  refine ⟨e, s, t, he, hs, ht, hnext, ?_⟩
  unfold StageEvent.Records at hr
  by_cases hT : s.T = NormalStage
  · have hsq := hseq s (List.getElem?_mem hs) hT
    have hnp : ¬ s.Sequencing = Parallel := by rw [hsq]; decide
    rw [if_pos hT, if_neg hnp, if_pos hsq] at hr
    exact ⟨hr.2.2.2.2.2.1, fun _ => hr.1, fun h => absurd hT h⟩
  · rw [if_neg hT] at hr
    exact ⟨by rw [hr.2.1], fun h => absurd h hT, fun _ => hr.1⟩

theorem List.mem_take_getElem? {α : Type} {l : List α} {n : Nat} {x : α}
    (h : x ∈ l.take n) : ∃ p, p < n ∧ p < l.length ∧ l[p]? = some x := by
  obtain ⟨p, hp, hx⟩ := List.getElem_of_mem h
  rw [List.length_take] at hp
  refine ⟨p, by omega, by omega, ?_⟩
  rw [List.getElem_take] at hx
  rw [List.getElem?_eq_getElem (by omega), hx]

theorem dominance_eq {l : List String} {s : String} (ht : Terminal s)
    (ha : ∀ x ∈ l, Halts x → x = s) (hb : Halts s → s ∈ l) : dominance l = s := by
  unfold dominance
  rcases ht with h | h | h
  · have h1 : Failure ∉ l := fun hm => by
      have := ha _ hm (Or.inl rfl)
      rw [h] at this
      exact absurd this (by decide)
    have h2 : Cancel ∉ l := fun hm => by
      have := ha _ hm (Or.inr rfl)
      rw [h] at this
      exact absurd this (by decide)
    rw [if_neg h1, if_neg h2, h]
  · have h1 : Failure ∈ l := by
      have := hb (Or.inl h)
      rwa [h] at this
    rw [if_pos h1, h]
  · have h1 : Failure ∉ l := fun hm => by
      have := ha _ hm (Or.inl rfl)
      rw [h] at this
      exact absurd this (by decide)
    have h2 : Cancel ∈ l := by
      have := hb (Or.inr h)
      rwa [h] at this
    rw [if_neg h1, if_pos h2, h]

/-- C4 (as stated) fails: `LocalRun` on a flow made of one start stage declared
`Pending` processes that stage and ends with flow status `Running`, while the
status of the stage is `Pending` and the dominance combination of the executed
stages is `Success`. -/
theorem C4_counterexample :
    ((mkFlow Pending [mkStage StartStage "" Pending []] []).LocalRun testEnv false false
      ()).trace.length = 1 ∧
    (executedStages ((mkFlow Pending [mkStage StartStage "" Pending []] []).LocalRun testEnv
      false false ())).map Stage.Status = [Pending] ∧
    ((mkFlow Pending [mkStage StartStage "" Pending []] []).LocalRun testEnv false false
      ()).flow.Status = Running ∧
    dominance ((executedStages ((mkFlow Pending [mkStage StartStage "" Pending []] []).LocalRun
      testEnv false false ())).map Stage.Status) = Success ∧
    ((mkFlow Pending [mkStage StartStage "" Pending []] []).LocalRun testEnv false false
      ()).flow.Status ≠
      dominance ((executedStages ((mkFlow Pending [mkStage StartStage "" Pending []]
        []).LocalRun testEnv false false ())).map Stage.Status) := by
  decide

/-- C4 (amended): for a flow whose normal stages are all sequential, when
`LocalRun` ends with a terminal flow status, that status is the dominance
combination of the statuses of the normal stages it processed. -/
theorem C4_flow_status_dominance {W : Type} (env : Env W) (f : Flow) (verbose timestamp : Bool)
    (w : W) (hseq : ∀ s ∈ f.Stages, s.T = NormalStage → s.Sequencing = Sequencing)
    (hterm : Terminal (f.LocalRun env verbose timestamp w).flow.Status) :
    (f.LocalRun env verbose timestamp w).flow.Status =
      dominance (((executedStages (f.LocalRun env verbose timestamp w)).filter
        (fun s => decide (s.T = NormalStage))).map Stage.Status) := by
  obtain ⟨hlt, _⟩ := Flow.LocalRun_spec env f verbose timestamp w
  have hfin := Flow.LocalRun_final env f verbose timestamp w
  symm
  apply dominance_eq hterm
  · intro x hx hxh
    obtain ⟨t, ht, hts⟩ := List.mem_map.mp hx
    obtain ⟨htm, htT⟩ := List.mem_filter.mp ht
    have htT2 : t.T = NormalStage := by simpa using htT
    obtain ⟨p, hp, _, hpt⟩ := List.mem_take_getElem? htm
    obtain ⟨e, s, t2, he, _, ht2, hnext, hT, hN, _⟩ :=
      Flow.LocalRun_stage env f verbose timestamp w hseq p hp
    rw [hpt] at ht2
    cases ht2
    have hst : t.Status = e.status := hN (by rw [← hT]; exact htT2)
    have hlen := hlt.halts_last he (by rw [← hst, hts]; exact hxh)
    rw [hfin, hlen, hnext, ← hst, hts]
  · intro hh
    have hn : 0 < (f.LocalRun env verbose timestamp w).trace.length := by
      by_contra h0
      have h0' : (f.LocalRun env verbose timestamp w).trace.length = 0 := by omega
      rw [hfin, h0', statusBefore_zero] at hh
      exact not_halts_running hh
    obtain ⟨p, hpn⟩ : ∃ p, (f.LocalRun env verbose timestamp w).trace.length = p + 1 :=
      ⟨_, (Nat.succ_pred_eq_of_pos hn).symm⟩
    obtain ⟨e, s, t, he, _, ht, hnext, hT, hN, hO⟩ :=
      Flow.LocalRun_stage env f verbose timestamp w hseq p (by omega)
    have hS : (f.LocalRun env verbose timestamp w).flow.Status = e.status := by
      rw [hfin, hpn, hnext]
    have hsT : s.T = NormalStage := by
      by_contra hne
      have h1 := Flow.LocalRun_not_halted env f verbose timestamp w p (by omega)
      rw [← hO hne, ← hS] at h1
      exact h1 hh
    apply List.mem_map.mpr
    refine ⟨t, List.mem_filter.mpr ⟨?_, by simpa [hT] using hsT⟩, by rw [hN hsT, hS]⟩
    unfold executedStages
    rw [hpn]
    have hpl : p < (f.LocalRun env verbose timestamp w).flow.Stages.length := by
      rcases Nat.lt_or_ge p (f.LocalRun env verbose timestamp w).flow.Stages.length with h' | h'
      · exact h'
      · rw [List.getElem?_eq_none h'] at ht; cases ht
    apply List.getElem?_mem (n := p)
    rw [List.getElem?_take_of_lt (by omega)]
    exact ht

/-- Witness of C4 (amended): the scenario flow ends in `Failure`, the dominance
combination of the status of the one normal stage it processed. -/
theorem C4_flow_status_dominance_witness :
    (∀ s ∈ scenarioFlow.Stages, s.T = NormalStage → s.Sequencing = Sequencing) ∧
    Terminal (scenarioFlow.LocalRun testEnv false false ()).flow.Status ∧
    (scenarioFlow.LocalRun testEnv false false ()).flow.Status =
      dominance (((executedStages (scenarioFlow.LocalRun testEnv false false ())).filter
        (fun s => decide (s.T = NormalStage))).map Stage.Status) :=
  ⟨by decide, by decide,
    C4_flow_status_dominance testEnv scenarioFlow false false () (by decide) (by decide)⟩

/-! ## Status histories -/

theorem NoReentry.of_tail_terminal (a : String) {l : List String}
    (h : ∀ b ∈ l, Terminal b) : NoReentry (a :: l) := by
  intro i j x y hij _ hy _
  cases j with
  | zero => omega
  | succ j =>
    rw [List.getElem?_cons_succ] at hy
    exact (h y (List.getElem?_mem hy)).not_running

/-- Entry `j` of the flow history is the flow status before position `j`. -/
theorem FlowResult.history_getElem? {W : Type} (r : FlowResult W) (j : Nat) (b : String)
    (h : r.history[j]? = some b) : j ≤ r.trace.length ∧ b = statusBefore r j := by
  cases j with
  | zero =>
    simp [FlowResult.history] at h
    exact ⟨Nat.zero_le _, by rw [statusBefore_zero, h]⟩
  | succ j =>
    simp only [FlowResult.history, List.getElem?_cons_succ, List.getElem?_map] at h
    cases he : r.trace[j]? with
    | none => rw [he] at h; cases h
    | some e =>
      rw [he] at h
      have hj : j < r.trace.length := by
        rcases Nat.lt_or_ge j r.trace.length with h' | h'
        · exact h'
        · rw [List.getElem?_eq_none h'] at he; cases he
      refine ⟨hj, ?_⟩
      unfold statusBefore
      rw [lastOutcome_take_succ _ _ he]
      simpa using h.symm

/-- C10 (as stated) fails: under an environment whose dispatches all return a
terminal status or an error, the stage `[A1 with one job, A2 without jobs]` has
status `Success` after the first iteration of `SequencingRun` and `Running`
after the second, so its history goes from a terminal value back to
`Running`. -/
theorem C10_counterexample :
    TerminalDispatch testEnv ∧ TerminalParallel testEnv ∧
    (Stage.SequencingLoop testEnv false false 1 0
      (Stage.SequencingInit testEnv
        (mkStage NormalStage Sequencing Pending
          [mkAction "A1" Pending [mkJob Success], mkAction "A2" Pending []])
        false false (mkFlow Pending [] []) ())).s.Status = Success ∧
    (Stage.SequencingLoop testEnv false false 2 0
      (Stage.SequencingInit testEnv
        (mkStage NormalStage Sequencing Pending
          [mkAction "A1" Pending [mkJob Success], mkAction "A2" Pending []])
        false false (mkFlow Pending [] []) ())).s.Status = Running ∧
    ((mkFlow Pending
      [mkStage NormalStage Sequencing Pending
        [mkAction "A1" Pending [mkJob Success], mkAction "A2" Pending []]] []).LocalRun
      testEnv false false ()).trace.map StageEvent.history = [[Running, Success, Running]] ∧
    ¬ NoReentry [Running, Success, Running] := by
  refine ⟨testEnv_terminalDispatch, testEnv_terminalParallel, by decide, by decide, by decide,
    ?_⟩
  intro h
  exact (h 1 2 Success Running (by decide) rfl rfl (Or.inl rfl)).2 rfl

/-- C10 (amended): when every job dispatch and every `ParallelRun` returns a
terminal status or an error, and no sequential stage is without actions and no
action of one is without jobs, then during `LocalRun` neither the flow status,
nor the status of a stage run by `SequencingRun`, nor the status of an action
run by `Action.Run` goes from a terminal value to `Pending` or `Running`. -/
theorem C10_no_reentry {W : Type} (env : Env W) (f : Flow) (verbose timestamp : Bool) (w : W)
    (hjob : TerminalDispatch env) (hpar : TerminalParallel env) (hw : f.NoEmptyWork) :
    NoReentry (f.LocalRun env verbose timestamp w).history ∧
    (∀ e ∈ (f.LocalRun env verbose timestamp w).trace,
      NoReentry e.history ∧ ∀ x ∈ e.actions, NoReentry x.history) := by
  constructor
  · intro i j a b hij ha hb hta
    obtain ⟨_, ha2⟩ := FlowResult.history_getElem? _ i a ha
    obtain ⟨hj, hb2⟩ := FlowResult.history_getElem? _ j b hb
    have h := Flow.LocalRun_terminal_mono env f verbose timestamp w hjob hpar hw i
      (by rw [← ha2]; exact hta) (j - i) (by omega)
    have e : i + (j - i) = j := by omega
    rw [e, ← hb2] at h
    exact h.not_running
  · intro e he
    obtain ⟨p, hp, hpe⟩ := List.getElem_of_mem he
    obtain ⟨e2, s, t, he2, hs, _, _, hr⟩ := Flow.LocalRun_step env f verbose timestamp w p hp
    rw [List.getElem?_eq_getElem hp, hpe] at he2
    cases he2
    unfold StageEvent.Records at hr
    have hnil : e.actions = [] →
        NoReentry e.history ∧ ∀ x ∈ e.actions, NoReentry x.history := by
      intro h0
      unfold StageEvent.history
      rw [h0]
      exact ⟨NoReentry.of_tail_terminal _ (by simp), by simp⟩
    by_cases hT : s.T = NormalStage
    · rw [if_pos hT] at hr
      by_cases hp2 : s.Sequencing = Parallel
      · rw [if_pos hp2] at hr
        exact hnil hr.1
      · rw [if_neg hp2] at hr
        by_cases hs2 : s.Sequencing = Sequencing
        · rw [if_pos hs2] at hr
          obtain ⟨_, _, _, _, hrec, _⟩ := hr
          obtain ⟨_, hjobs⟩ := hw s (List.getElem?_mem hs) hT hs2
          have hact : ∀ x ∈ e.actions, Terminal x.status ∧ NoReentry x.history := by
            intro x hx
            obtain ⟨q, hq, hqx⟩ := List.getElem_of_mem hx
            obtain ⟨a, b, ha, _, hrx⟩ := hrec q x (by rw [List.getElem?_eq_getElem hq, hqx])
            refine ⟨(hrx.action_status hjob).2 (hjobs a (List.getElem?_mem ha)), ?_⟩
            apply NoReentry.of_tail_terminal
            intro y hy
            obtain ⟨z, hz, hzy⟩ := List.mem_map.mp hy
            rw [← hzy]
            exact (hrx.2.2.1 z hz).outcome_terminal hjob
          refine ⟨?_, fun x hx => (hact x hx).2⟩
          apply NoReentry.of_tail_terminal
          intro y hy
          obtain ⟨x, hx, hxy⟩ := List.mem_map.mp hy
          rw [← hxy]
          exact (hact x hx).1
        · rw [if_neg hs2] at hr
          exact hnil hr.2.2
    · rw [if_neg hT] at hr
      exact hnil hr.2.2

theorem scenarioFlow_noEmptyWork : scenarioFlow.NoEmptyWork := by
  unfold Flow.NoEmptyWork
  decide

/-- Witness of C10 (amended): the scenario flow under the test environment. -/
theorem C10_no_reentry_witness :
    TerminalDispatch testEnv ∧ TerminalParallel testEnv ∧ scenarioFlow.NoEmptyWork ∧
    (scenarioFlow.LocalRun testEnv false false ()).history = [Running, Running, Failure] ∧
    NoReentry (scenarioFlow.LocalRun testEnv false false ()).history :=
  ⟨testEnv_terminalDispatch, testEnv_terminalParallel, scenarioFlow_noEmptyWork, by decide,
    (C10_no_reentry testEnv scenarioFlow false false () testEnv_terminalDispatch
      testEnv_terminalParallel scenarioFlow_noEmptyWork).1⟩

/-! ## Order, pause stages, unknown sequencing, returned status -/

/-- The indices recorded by a loop that starts at index `0` are `0, 1, ...`
in this order. -/
theorem LoopTrace.indices {ε : Type} {outcome : ε → String} {index : ε → Nat} {n : Nat}
    {evs : List ε} (h : LoopTrace outcome index n 0 evs) :
    evs.map index = List.range evs.length := by
  apply List.ext_getElem?
  intro p
  rw [List.getElem?_map]
  rcases Nat.lt_or_ge p evs.length with hp | hp
  · have he := List.getElem?_eq_getElem hp
    rw [he, List.getElem?_range hp]
    simp only [Option.map_some']
    rw [(h.index_eq he).1]
  · rw [List.getElem?_eq_none hp, List.getElem?_eq_none (by simpa using hp)]
    rfl

/-- One iteration of the action loop dispatches the job it was given, under the
name of the action, and stores the job that the dispatch left behind at the
index of the iteration. -/
theorem Action.RunBody_dispatch {W : Type} (env : Env W) (verbose timestamp : Bool) (i : Nat)
    (job : Job) (st : ActionState W) (hi : i < st.a.Jobs.length) :
    ∃ (e : JobEvent) (stored : Job),
      (Action.RunBody env verbose timestamp i job st).trace = st.trace ++ [e] ∧
      (Action.RunBody env verbose timestamp i job st).a.Jobs[i]? = some stored ∧
      e.Dispatches env verbose timestamp st.a.Name job stored := by
  unfold Action.RunBody
  simp only
  generalize hr : env.jobRun _ _ _ _ _ = r
  have hname : (Action.Log env st.a
      ("The Number [" ++ toString i ++ "] job is running: " ++ st.a.Title) false timestamp
      st.w).1.Name = st.a.Name := rfl
  rw [hname] at hr
  obtain ⟨rs, re, rj, rl, rw_⟩ := r
  have hd : JobEvent.Dispatches env verbose timestamp { index := i, status := rs, err := re }
      st.a.Name job rj :=
    ⟨_, (congrArg JobResult.status hr).symm, (congrArg JobResult.err hr).symm,
      (congrArg JobResult.job hr).symm⟩
  cases re with
  | some e =>
    refine ⟨_, rj, rfl, ?_, hd⟩
    simp [Action.Log, List.getElem?_set, hi]
  | none =>
    refine ⟨_, rj, rfl, ?_, hd⟩
    simp [Action.Log, List.getElem?_set, hi]

/-- The dispatch recorded at position `p` of the action loop started at index
`i` is the dispatch of the job found at index `i + p` when the loop started,
and the job it left behind is the one stored at that index. -/
theorem Action.RunLoop_dispatch {W : Type} (env : Env W) (verbose timestamp : Bool) :
    ∀ (n i : Nat) (st : ActionState W), i + n = st.a.Jobs.length →
    ∀ (p : Nat) (e : JobEvent),
      (Action.RunLoop env verbose timestamp n i st).trace[st.trace.length + p]? = some e →
      ∃ job stored, st.a.Jobs[i + p]? = some job ∧
        (Action.RunLoop env verbose timestamp n i st).a.Jobs[i + p]? = some stored ∧
        e.Dispatches env verbose timestamp st.a.Name job stored := by
  intro n
  induction n with
  | zero =>
    intro i st _ p e he
    simp only [Action.RunLoop] at he
    rw [List.getElem?_eq_none (by omega)] at he
    cases he
  | succ n ih =>
    intro i st hlen p e he
    have hi : i < st.a.Jobs.length := by omega
    obtain ⟨_, _, _, _, _, hjobs, hkept, _⟩ :=
      Action.RunBody_spec env verbose timestamp i st.a.Jobs[i] st
    obtain ⟨e0, stored, htr, hstored, hd⟩ :=
      Action.RunBody_dispatch env verbose timestamp i st.a.Jobs[i] st hi
    unfold Action.RunLoop at he ⊢
    rw [List.getElem?_eq_getElem hi] at he ⊢
    simp only at he ⊢
    split at he
    · rename_i hh
      rw [if_pos hh]
      rw [htr] at he
      cases p with
      | zero =>
        rw [Nat.add_zero, List.getElem?_append_right (Nat.le_refl _), Nat.sub_self] at he
        simp only [List.getElem?_cons_zero, Option.some.injEq] at he
        subst he
        exact ⟨_, stored, List.getElem?_eq_getElem hi, hstored, hd⟩
      | succ p =>
        rw [List.getElem?_eq_none (by simp)] at he
        cases he
    · rename_i hh
      rw [if_neg hh]
      obtain ⟨evs, htr2, _, _, _, hjobs2, _, _⟩ :=
        Action.RunLoop_spec env verbose timestamp n (i + 1)
          (Action.RunBody env verbose timestamp i st.a.Jobs[i] st)
          (by rw [hkept.2.2.1]; omega)
      cases p with
      | zero =>
        rw [htr2, htr, Nat.add_zero, List.append_assoc,
          List.getElem?_append_right (Nat.le_refl _), Nat.sub_self] at he
        simp only [List.singleton_append, List.getElem?_cons_zero, Option.some.injEq] at he
        subst he
        exact ⟨_, stored, List.getElem?_eq_getElem hi,
          (hjobs2 i (Or.inl (by omega))).trans hstored, hd⟩
      | succ p =>
        have he2 : (Action.RunLoop env verbose timestamp n (i + 1)
            (Action.RunBody env verbose timestamp i st.a.Jobs[i] st)).trace[
              (Action.RunBody env verbose timestamp i st.a.Jobs[i] st).trace.length + p]? =
            some e := by
          rw [← he]
          congr 1
          rw [htr]
          simp
          omega
        obtain ⟨job, stored2, hj, hs2, hd2⟩ :=
          ih (i + 1) _ (by rw [hkept.2.2.1]; omega) p e he2
        rw [hjobs (i + 1 + p) (by omega)] at hj
        rw [hkept.1] at hd2
        have eq1 : i + (p + 1) = i + 1 + p := by omega
        rw [eq1]
        exact ⟨job, stored2, hj, hs2, hd2⟩

/-- The dispatch recorded at position `p` of `Action.Run` is the dispatch of
the declared job of index `p` under the name of the action, and the job it
left behind is the one stored at index `p`. -/
theorem Action.Run_dispatch {W : Type} (env : Env W) (a : Action) (verbose timestamp : Bool)
    (f : Flow) (w : W) (p : Nat) (e : JobEvent)
    (he : (a.Run env verbose timestamp f w).trace[p]? = some e) :
    ∃ job stored, a.Jobs[p]? = some job ∧
      (a.Run env verbose timestamp f w).action.Jobs[p]? = some stored ∧
      e.Dispatches env verbose timestamp a.Name job stored := by
  have h := Action.RunLoop_dispatch env verbose timestamp
    (Action.RunInit env a verbose timestamp f w).a.Jobs.length 0
    (Action.RunInit env a verbose timestamp f w) (by simp) p e
    (by simpa [Action.RunInit] using he)
  simpa [Action.RunInit, Action.Log] using h

/-- C15: the jobs dispatched by `Action.Run`, the actions run by
`Stage.SequencingRun` and the stages processed by `Flow.LocalRun` are, each
time, those of indices `0, 1, ..., m - 1` in this order for some `m` not above
the number declared, each once; the job dispatched at a position is the
declared job of that index, dispatched under the name of the action, and the
job the dispatch left behind is stored at that index; the action run at a
position is the declared action of that index, and so is the stage
processed. -/
theorem C15_declaration_order {W : Type} (env : Env W) (verbose timestamp : Bool) (f : Flow)
    (w : W) :
    (∀ a : Action,
      (a.Run env verbose timestamp f w).trace.map JobEvent.index =
        List.range (a.Run env verbose timestamp f w).trace.length ∧
      (a.Run env verbose timestamp f w).trace.length ≤ a.Jobs.length ∧
      ∀ (p : Nat) (e : JobEvent),
        (a.Run env verbose timestamp f w).trace[p]? = some e →
        ∃ job stored, a.Jobs[p]? = some job ∧
          (a.Run env verbose timestamp f w).action.Jobs[p]? = some stored ∧
          e.Dispatches env verbose timestamp a.Name job stored) ∧
    (∀ s : Stage,
      (s.SequencingRun env verbose timestamp f w).trace.map ActionEvent.index =
        List.range (s.SequencingRun env verbose timestamp f w).trace.length ∧
      (s.SequencingRun env verbose timestamp f w).trace.length ≤ s.Actions.length ∧
      ∀ (p : Nat) (e : ActionEvent),
        (s.SequencingRun env verbose timestamp f w).trace[p]? = some e →
        ∃ a b, s.Actions[p]? = some a ∧
          (s.SequencingRun env verbose timestamp f w).stage.Actions[p]? = some b ∧
          e.Records env verbose timestamp a b) ∧
    ((f.LocalRun env verbose timestamp w).trace.map StageEvent.index =
        List.range (f.LocalRun env verbose timestamp w).trace.length ∧
      (f.LocalRun env verbose timestamp w).trace.length ≤ f.Stages.length ∧
      ∀ (p : Nat) (e : StageEvent),
        (f.LocalRun env verbose timestamp w).trace[p]? = some e →
        ∃ s t, f.Stages[p]? = some s ∧
          (f.LocalRun env verbose timestamp w).flow.Stages[p]? = some t ∧
          e.Records env verbose timestamp
            (statusBefore (f.LocalRun env verbose timestamp w) p) s t) := by
  refine ⟨?_, ?_, ?_⟩
  · intro a
    obtain ⟨hlt, _⟩ := Action.Run_spec env a verbose timestamp f w
    exact ⟨hlt.indices, hlt.1, Action.Run_dispatch env a verbose timestamp f w⟩
  · intro s
    obtain ⟨hlt, _, _, _, _, hrec, _, _⟩ := Stage.SequencingRun_spec env s verbose timestamp f w
    exact ⟨hlt.indices, hlt.1, hrec⟩
  · obtain ⟨hlt, _, _, _, hrec, _, _⟩ := Flow.LocalRun_spec env f verbose timestamp w
    exact ⟨hlt.indices, hlt.1, hrec⟩

/-- Witness of C15: the scenario stage runs the actions of indices `0` and `1`
and the scenario flow processes the stages of indices `0` and `1`; in the
action with jobs `success, cancel, success` the second dispatch, which returns
`Cancel`, is the dispatch of the declared job of index `1`. -/
theorem C15_declaration_order_witness :
    (scenarioStage.SequencingRun testEnv false false scenarioFlow ()).trace.map
      ActionEvent.index = [0, 1] ∧
    (scenarioFlow.LocalRun testEnv false false ()).trace.map StageEvent.index =
      List.range (scenarioFlow.LocalRun testEnv false false ()).trace.length ∧
    ((mkAction "A" "" [mkJob Success, mkJob Cancel, mkJob Success]).Run testEnv false false
      scenarioFlow ()).trace[1]? = some { index := 1, status := Cancel, err := none } ∧
    (∃ job stored,
      (mkAction "A" "" [mkJob Success, mkJob Cancel, mkJob Success]).Jobs[1]? = some job ∧
      ((mkAction "A" "" [mkJob Success, mkJob Cancel, mkJob Success]).Run testEnv false false
        scenarioFlow ()).action.Jobs[1]? = some stored ∧
      JobEvent.Dispatches testEnv false false { index := 1, status := Cancel, err := none }
        (mkAction "A" "" [mkJob Success, mkJob Cancel, mkJob Success]).Name job stored) :=
  ⟨by decide, (C15_declaration_order testEnv false false scenarioFlow ()).2.2.1, by decide,
    ((C15_declaration_order testEnv false false scenarioFlow ()).1
      (mkAction "A" "" [mkJob Success, mkJob Cancel, mkJob Success])).2.2 1
      { index := 1, status := Cancel, err := none } (by decide)⟩

/-- C16: a stage of kind `pause` that `LocalRun` processes has none of its
actions run and is left as it was, the flow status after it is the flow status
before it, and when a stage follows it that stage is processed too. -/
theorem C16_pause_stage {W : Type} (env : Env W) (f : Flow) (verbose timestamp : Bool)
    (w : W) (p : Nat) (e : StageEvent) (s : Stage)
    (he : (f.LocalRun env verbose timestamp w).trace[p]? = some e)
    (hs : f.Stages[p]? = some s) (hT : s.T = PauseStage) :
    e.index = p ∧ e.actions = [] ∧
    (f.LocalRun env verbose timestamp w).flow.Stages[p]? = some s ∧
    e.status = statusBefore (f.LocalRun env verbose timestamp w) p ∧
    (p + 1 < f.Stages.length → p + 1 < (f.LocalRun env verbose timestamp w).trace.length) := by
  obtain ⟨hlt, _, _, _, hrec, _, _⟩ := Flow.LocalRun_spec env f verbose timestamp w
  have hp : p < (f.LocalRun env verbose timestamp w).trace.length := by
    rcases Nat.lt_or_ge p (f.LocalRun env verbose timestamp w).trace.length with h' | h'
    · exact h'
    · rw [List.getElem?_eq_none h'] at he; cases he
  obtain ⟨s2, t, hs2, ht, hr⟩ := hrec p e he
  rw [hs] at hs2
  cases hs2
  have hN : s.T ≠ NormalStage := by rw [hT]; decide
  unfold StageEvent.Records at hr
  rw [if_neg hN] at hr
  obtain ⟨h1, h2, h3⟩ := hr
  refine ⟨(hlt.index_eq he).1, h3, by rw [ht, h2], h1, ?_⟩
  intro hnext
  apply hlt.next he _ hnext
  show ¬ Halts e.status
  rw [h1]
  exact Flow.LocalRun_not_halted env f verbose timestamp w p hp

/-- Witness of C16: in the flow `[Start, Pause, Normal(sequence, [A1 success])]`
the pause stage is left as it was, the flow status stays `Running` and the
third stage is processed. -/
theorem C16_pause_stage_witness :
    ((mkFlow Pending [mkStage StartStage "" "" [], mkStage PauseStage "" Pending
        [mkAction "A0" Pending [mkJob Failure]],
        mkStage NormalStage Sequencing "" [mkAction "A1" "" [mkJob Success]]] []).LocalRun
      testEnv false false ()).trace[1]? = some { index := 1, status := Running, actions := [] } ∧
    ((mkFlow Pending [mkStage StartStage "" "" [], mkStage PauseStage "" Pending
        [mkAction "A0" Pending [mkJob Failure]],
        mkStage NormalStage Sequencing "" [mkAction "A1" "" [mkJob Success]]] []).LocalRun
      testEnv false false ()).flow.Stages[1]? =
      some (mkStage PauseStage "" Pending [mkAction "A0" Pending [mkJob Failure]]) ∧
    1 + 1 < ((mkFlow Pending [mkStage StartStage "" "" [], mkStage PauseStage "" Pending
        [mkAction "A0" Pending [mkJob Failure]],
        mkStage NormalStage Sequencing "" [mkAction "A1" "" [mkJob Success]]] []).LocalRun
      testEnv false false ()).trace.length :=
  have h := C16_pause_stage testEnv
    (mkFlow Pending [mkStage StartStage "" "" [], mkStage PauseStage "" Pending
        [mkAction "A0" Pending [mkJob Failure]],
        mkStage NormalStage Sequencing "" [mkAction "A1" "" [mkJob Success]]] [])
    false false () 1 { index := 1, status := Running, actions := [] }
    (mkStage PauseStage "" Pending [mkAction "A0" Pending [mkJob Failure]])
    (by decide) (by decide) rfl
  ⟨by decide, h.2.2.1, h.2.2.2.2 (by decide)⟩

/-- C17: a normal stage whose sequencing is neither `sequence` nor `parallel`
that `LocalRun` reaches has none of its actions run and is left as it was, the
flow status becomes `Failure`, no later stage is processed and `Failure` is the
final flow status. -/
theorem C17_unknown_sequencing {W : Type} (env : Env W) (f : Flow) (verbose timestamp : Bool)
    (w : W) (p : Nat) (e : StageEvent) (s : Stage)
    (he : (f.LocalRun env verbose timestamp w).trace[p]? = some e)
    (hs : f.Stages[p]? = some s) (hT : s.T = NormalStage)
    (h1 : s.Sequencing ≠ Sequencing) (h2 : s.Sequencing ≠ Parallel) :
    e.index = p ∧ e.actions = [] ∧
    (f.LocalRun env verbose timestamp w).flow.Stages[p]? = some s ∧
    e.status = Failure ∧
    (f.LocalRun env verbose timestamp w).trace.length = p + 1 ∧
    (∀ q, p < q → (f.LocalRun env verbose timestamp w).flow.Stages[q]? = f.Stages[q]?) ∧
    (f.LocalRun env verbose timestamp w).flow.Status = Failure := by
  obtain ⟨hlt, hlast, _, hstages, hrec, _, _⟩ := Flow.LocalRun_spec env f verbose timestamp w
  obtain ⟨s2, t, hs2, ht, hr⟩ := hrec p e he
  rw [hs] at hs2
  cases hs2
  unfold StageEvent.Records at hr
  rw [if_pos hT, if_neg h2, if_neg h1] at hr
  obtain ⟨hf, hts, hacts⟩ := hr
  have hlen := hlt.halts_last he (by rw [hf]; exact Or.inl rfl)
  refine ⟨(hlt.index_eq he).1, hacts, by rw [ht, hts], hf, hlen, ?_, ?_⟩
  · intro q hq
    exact hstages q (by omega)
  · rw [hlast, lastOutcome_of_last _ _ he hlen, hf]

/-- Witness of C17: the flow `[Normal with empty sequencing, Normal(sequence,
[A1 success])]` stops at the first stage with flow status `Failure`. -/
theorem C17_unknown_sequencing_witness :
    ((mkFlow Pending [mkStage NormalStage "" Pending [mkAction "A0" Pending [mkJob Success]],
        mkStage NormalStage Sequencing "" [mkAction "A1" "" [mkJob Success]]] []).LocalRun
      testEnv false false ()).trace = [{ index := 0, status := Failure, actions := [] }] ∧
    ((mkFlow Pending [mkStage NormalStage "" Pending [mkAction "A0" Pending [mkJob Success]],
        mkStage NormalStage Sequencing "" [mkAction "A1" "" [mkJob Success]]] []).LocalRun
      testEnv false false ()).flow.Status = Failure :=
  have h := C17_unknown_sequencing testEnv
    (mkFlow Pending [mkStage NormalStage "" Pending [mkAction "A0" Pending [mkJob Success]],
        mkStage NormalStage Sequencing "" [mkAction "A1" "" [mkJob Success]]] [])
    false false () 0 { index := 0, status := Failure, actions := [] }
    (mkStage NormalStage "" Pending [mkAction "A0" Pending [mkJob Success]])
    (by decide) (by decide) rfl (by decide) (by decide)
  ⟨by decide, h.2.2.2.2.2.2⟩

/-- C18: the status `Action.Run` returns is the status stored in the action,
the status `Stage.SequencingRun` returns is the status stored in the stage, and
after an iteration of the stage loop of `LocalRun` on a sequential normal stage
the flow status is the status stored in that stage. -/
theorem C18_returned_status_is_stored {W : Type} (env : Env W) (verbose timestamp : Bool) :
    (∀ (a : Action) (f : Flow) (w : W),
      (a.Run env verbose timestamp f w).status =
        (a.Run env verbose timestamp f w).action.Status) ∧
    (∀ (s : Stage) (f : Flow) (w : W),
      (s.SequencingRun env verbose timestamp f w).status =
        (s.SequencingRun env verbose timestamp f w).stage.Status) ∧
    (∀ (i : Nat) (stage : Stage) (st : FlowState W), st.f.Stages[i]? = some stage →
      stage.T = NormalStage → stage.Sequencing = Sequencing →
      (Flow.LocalRunBody env verbose timestamp i stage st).f.Stages[i]?.map Stage.Status =
        some (Flow.LocalRunBody env verbose timestamp i stage st).f.Status) := by
  refine ⟨fun a f w => rfl, fun s f w => rfl, ?_⟩
  intro i stage st hi hT hS
  obtain ⟨e, _, _, hst, ⟨t, ht, hr⟩, _, _⟩ :=
    Flow.LocalRunBody_spec env verbose timestamp i stage st hi
  have hnp : ¬ stage.Sequencing = Parallel := by rw [hS]; decide
  unfold StageEvent.Records at hr
  rw [if_pos hT, if_neg hnp, if_pos hS] at hr
  rw [ht, hst]
  simp only [Option.map_some']
  rw [hr.1]

/-- Witness of C18: on the scenario flow the second stage, a sequential normal
stage, ends with the status `Failure`, which is the final flow status. -/
theorem C18_returned_status_is_stored_witness :
    (scenarioStage.SequencingRun testEnv false false scenarioFlow ()).status =
      (scenarioStage.SequencingRun testEnv false false scenarioFlow ()).stage.Status ∧
    (scenarioFlow.LocalRun testEnv false false ()).flow.Stages[1]?.map Stage.Status =
      some (scenarioFlow.LocalRun testEnv false false ()).flow.Status :=
  ⟨(C18_returned_status_is_stored testEnv false false).2.1 scenarioStage scenarioFlow (),
    by decide⟩

/-! ## Log growth -/

theorem Stage.LogsGrow.same (s : Stage) : Stage.LogsGrow s s := by
  refine ⟨List.prefix_refl _, rfl, ?_⟩
  intro q a b ha hb
  rw [ha] at hb
  cases hb
  exact List.prefix_refl _

/-- A stage whose first `m` actions were run by `Action.Run` and whose other
actions are untouched has grown logs. -/
theorem Stage.LogsGrow.of_run {W : Type} {env : Env W} {verbose timestamp : Bool}
    {s t : Stage} {evs : List ActionEvent} (hk : Stage.Kept s t)
    (hge : ∀ q, evs.length ≤ q → t.Actions[q]? = s.Actions[q]?)
    (hrec : ∀ (p : Nat) (x : ActionEvent), evs[p]? = some x →
      ∃ a b, s.Actions[p]? = some a ∧ t.Actions[p]? = some b ∧
        x.Records env verbose timestamp a b) :
    Stage.LogsGrow s t := by
  refine ⟨hk.2.2.2.2.2, hk.2.2.2.2.1, ?_⟩
  intro q a b ha hb
  rcases Nat.lt_or_ge q evs.length with hq | hq
  · obtain ⟨a2, b2, ha2, hb2, hr⟩ := hrec q _ (List.getElem?_eq_getElem hq)
    rw [ha] at ha2
    rw [hb] at hb2
    cases ha2
    cases hb2
    exact hr.2.2.2.2.2.2.2.2
  · rw [hge q hq, ha] at hb
    cases hb
    exact List.prefix_refl _

/-- What an iteration of the stage loop of `LocalRun` does to the logs of its
stage. -/
theorem StageEvent.Records.logs_grow {W : Type} {env : Env W} {verbose timestamp : Bool}
    {e : StageEvent} {prev : String} {s t : Stage}
    (h : e.Records env verbose timestamp prev s t) (hpar : ParallelKeepsLogs env) :
    Stage.LogsGrow s t := by
  unfold StageEvent.Records at h
  by_cases hT : s.T = NormalStage
  · rw [if_pos hT] at h
    by_cases hp : s.Sequencing = Parallel
    · rw [if_pos hp] at h
      obtain ⟨_, w, ht, _⟩ := h
      rw [ht]
      exact hpar verbose timestamp s e.index w
    · rw [if_neg hp] at h
      by_cases hs : s.Sequencing = Sequencing
      · rw [if_pos hs] at h
        obtain ⟨_, _, _, hge, hrec, hk⟩ := h
        exact Stage.LogsGrow.of_run hk hge hrec
      · rw [if_neg hs] at h
        rw [h.2.1]
        exact Stage.LogsGrow.same s
  · rw [if_neg hT] at h
    rw [h.2.1]
    exact Stage.LogsGrow.same s

/-- `LocalRun` keeps the number of stages. -/
theorem Flow.LocalRun_stages_length {W : Type} (env : Env W) (f : Flow)
    (verbose timestamp : Bool) (w : W) :
    (f.LocalRun env verbose timestamp w).flow.Stages.length = f.Stages.length := by
  obtain ⟨hlt, _, _, hstages, hrec, _, _⟩ := Flow.LocalRun_spec env f verbose timestamp w
  have key : ∀ q : Nat, (f.LocalRun env verbose timestamp w).flow.Stages[q]? = none ↔
      f.Stages[q]? = none := by
    intro q
    rcases Nat.lt_or_ge q (f.LocalRun env verbose timestamp w).trace.length with hq | hq
    · obtain ⟨s, t, hs, ht, _⟩ := hrec q _ (List.getElem?_eq_getElem hq)
      rw [hs, ht]
      simp
    · rw [hstages q hq]
  rcases Nat.lt_trichotomy (f.LocalRun env verbose timestamp w).flow.Stages.length
    f.Stages.length with h | h | h
  · have := (key (f.LocalRun env verbose timestamp w).flow.Stages.length).mp
      (List.getElem?_eq_none (Nat.le_refl _))
    rw [List.getElem?_eq_getElem h] at this
    cases this
  · exact h
  · have := (key f.Stages.length).mpr (List.getElem?_eq_none (Nat.le_refl _))
    rw [List.getElem?_eq_getElem h] at this
    cases this

/-- C13: each of `Flow.Log`, `Stage.Log` and `Action.Log` leaves the log equal
to the former log followed by one new line that ends in the given message,
whatever `verbose` and `timestamp`; across `Action.Run`, `Stage.SequencingRun`
and `Flow.LocalRun` the log of the flow, of each stage and of each action
before the call is a beginning of its log after the call, and no log gets
shorter. -/
theorem C13_logs_append_only {W : Type} (env : Env W) (verbose timestamp : Bool) :
    (∀ (a : Action) (log : String) (w : W), ∃ line pre,
      (a.Log env log verbose timestamp w).1.Logs = a.Logs ++ [line] ∧ line = pre ++ log) ∧
    (∀ (s : Stage) (log : String) (w : W), ∃ line pre,
      (s.Log env log verbose timestamp w).1.Logs = s.Logs ++ [line] ∧ line = pre ++ log) ∧
    (∀ (f : Flow) (log : String) (w : W), ∃ line pre,
      (f.Log env log verbose timestamp w).1.Logs = f.Logs ++ [line] ∧ line = pre ++ log) ∧
    (∀ (a : Action) (f : Flow) (w : W),
      a.Logs <+: (a.Run env verbose timestamp f w).action.Logs ∧
      a.Logs.length ≤ (a.Run env verbose timestamp f w).action.Logs.length ∧
      f.Logs <+: (a.Run env verbose timestamp f w).flow.Logs) ∧
    (∀ (s : Stage) (f : Flow) (w : W),
      Stage.LogsGrow s (s.SequencingRun env verbose timestamp f w).stage ∧
      s.Logs.length ≤ (s.SequencingRun env verbose timestamp f w).stage.Logs.length ∧
      f.Logs <+: (s.SequencingRun env verbose timestamp f w).flow.Logs) ∧
    (∀ (f : Flow) (w : W), ParallelKeepsLogs env →
      Flow.LogsGrow f (f.LocalRun env verbose timestamp w).flow ∧
      f.Logs.length ≤ (f.LocalRun env verbose timestamp w).flow.Logs.length) := by
  refine ⟨?_, ?_, ?_, ?_, ?_, ?_⟩
  · intro a log w
    exact ⟨_, "[" ++ (env.now w).1 ++ "] ", rfl, rfl⟩
  · intro s log w
    exact ⟨_, "[" ++ (env.now w).1 ++ "] ", rfl, rfl⟩
  · intro f log w
    exact ⟨_, "[" ++ (env.now w).1 ++ "] ", rfl, rfl⟩
  · intro a f w
    obtain ⟨_, _, _, _, _, _, hk, hf⟩ := Action.Run_spec env a verbose timestamp f w
    exact ⟨hk.2.2.2, hk.2.2.2.length_le, hf.2⟩
  · intro s f w
    obtain ⟨_, _, _, _, hge, hrec, hk, hf⟩ := Stage.SequencingRun_spec env s verbose timestamp f w
    exact ⟨Stage.LogsGrow.of_run hk hge hrec, hk.2.2.2.2.2.length_le, hf.2⟩
  · intro f w hpar
    obtain ⟨_, _, _, hstages, hrec, hl, _⟩ := Flow.LocalRun_spec env f verbose timestamp w
    refine ⟨⟨hl, Flow.LocalRun_stages_length env f verbose timestamp w, ?_⟩, hl.length_le⟩
    intro p s t hs ht
    rcases Nat.lt_or_ge p (f.LocalRun env verbose timestamp w).trace.length with hp | hp
    · obtain ⟨s2, t2, hs2, ht2, hr⟩ := hrec p _ (List.getElem?_eq_getElem hp)
      rw [hs] at hs2
      rw [ht] at ht2
      cases hs2
      cases ht2
      exact hr.logs_grow hpar
    · rw [hstages p hp, hs] at ht
      cases ht
      exact Stage.LogsGrow.same s

theorem testEnv_parallelKeepsLogs : ParallelKeepsLogs testEnv := by
  intro verbose timestamp stage i w
  exact Stage.LogsGrow.same stage

/-- Witness of C13: under the test environment the log of the scenario flow
after `LocalRun` begins with its log before. -/
theorem C13_logs_append_only_witness :
    ParallelKeepsLogs testEnv ∧
    Flow.LogsGrow scenarioFlow (scenarioFlow.LocalRun testEnv false false ()).flow ∧
    (scenarioFlow.LocalRun testEnv false false ()).flow.Logs.length = 11 :=
  ⟨testEnv_parallelKeepsLogs,
    ((C13_logs_append_only testEnv false false).2.2.2.2.2 scenarioFlow ()
      testEnv_parallelKeepsLogs).1, by decide⟩

/-! ## Flow address -/

theorem splitChars_ne_nil (sep : Char) (l : List Char) : splitChars sep l ≠ [] := by
  cases l with
  | nil => simp [splitChars]
  | cons c cs =>
    unfold splitChars
    split
    · simp
    · split <;> simp

theorem splitChars_length (sep : Char) (l : List Char) :
    (splitChars sep l).length = l.count sep + 1 := by
  induction l with
  | nil => simp [splitChars]
  | cons c cs ih =>
    unfold splitChars
    by_cases h : c = sep
    · rw [if_pos h, h]
      simp [ih]
    · rw [if_neg h]
      have hne := splitChars_ne_nil sep cs
      cases hs : splitChars sep cs with
      | nil => exact absurd hs hne
      | cons x xs =>
        rw [hs] at ih
        simp only [List.length_cons] at ih ⊢
        rw [List.count_cons_of_ne (Ne.symm h)]
        exact ih

theorem splitChars_no_sep (sep : Char) (l : List Char) :
    ∀ piece ∈ splitChars sep l, sep ∉ piece := by
  induction l with
  | nil => simp [splitChars]
  | cons c cs ih =>
    unfold splitChars
    by_cases h : c = sep
    · rw [if_pos h]
      intro piece hp
      rcases List.mem_cons.mp hp with h1 | h1
      · rw [h1]; simp
      · exact ih piece h1
    · rw [if_neg h]
      have hne := splitChars_ne_nil sep cs
      cases hs : splitChars sep cs with
      | nil => exact absurd hs hne
      | cons x xs =>
        rw [hs] at ih
        intro piece hp
        rcases List.mem_cons.mp hp with h1 | h1
        · rw [h1]
          intro hm
          rcases List.mem_cons.mp hm with h2 | h2
          · exact h h2.symm
          · exact ih x (List.mem_cons_self _ _) h2
        · exact ih piece (List.mem_cons_of_mem _ h1)

theorem splitChars_join (sep : Char) (l : List Char) :
    [sep].intercalate (splitChars sep l) = l := by
  induction l with
  | nil => simp [splitChars, List.intercalate]
  | cons c cs ih =>
    unfold splitChars
    have hne := splitChars_ne_nil sep cs
    by_cases h : c = sep
    · rw [if_pos h]
      cases hs : splitChars sep cs with
      | nil => exact absurd hs hne
      | cons x xs =>
        rw [hs] at ih
        rw [h]
        simp only [List.intercalate, List.intersperse, List.flatten] at ih ⊢
        simp [ih]
    · rw [if_neg h]
      cases hs : splitChars sep cs with
      | nil => exact absurd hs hne
      | cons x xs =>
        rw [hs] at ih
        cases xs with
        | nil =>
          simp only [List.intercalate, List.intersperse, List.flatten] at ih ⊢
          simp at ih ⊢
          exact ih
        | cons y ys =>
          simp only [List.intercalate, List.intersperse, List.flatten] at ih ⊢
          simp at ih ⊢
          exact ih

/-- C14: `Flow.URIs` returns an error exactly when splitting the address at
`/` does not give three segments, that is when the address does not hold
exactly two `/`; when it returns no error the three parts joined by `/` are
the address and no part holds a `/`; when it returns an error the three parts
are empty. -/
theorem C14_uris (f : Flow) :
    (f.URIs.2 ≠ none ↔ (Split f.URI '/').length ≠ 3) ∧
    ((Split f.URI '/').length = 3 ↔ f.URI.data.count '/' = 2) ∧
    (f.URIs.2 = none →
      f.URIs.1.1 ++ "/" ++ f.URIs.1.2.1 ++ "/" ++ f.URIs.1.2.2 = f.URI ∧
      '/' ∉ f.URIs.1.1.data ∧ '/' ∉ f.URIs.1.2.1.data ∧ '/' ∉ f.URIs.1.2.2.data) ∧
    (f.URIs.2 ≠ none → f.URIs.1 = ("", "", "")) := by
  have hlen := splitChars_length '/' f.URI.data
  have hno := splitChars_no_sep '/' f.URI.data
  have hjoin := splitChars_join '/' f.URI.data
  unfold Flow.URIs Split
  generalize splitChars '/' f.URI.data = l at hlen hno hjoin
  rcases l with _ | ⟨a, _ | ⟨b, _ | ⟨c, _ | ⟨d, r⟩⟩⟩⟩
  · simp at hlen
  · simp at hlen ⊢
    omega
  · simp at hlen ⊢
    omega
  · simp only [List.map_cons, List.map_nil, List.length_cons, List.length_nil]
    refine ⟨by simp, ?_, ?_, by simp⟩
    · simp at hlen
      simp [hlen]
    · intro _
      refine ⟨?_, hno a (by simp), hno b (by simp), hno c (by simp)⟩
      apply String.ext
      simp only [String.data_append]
      simp only [List.intercalate, List.intersperse, List.flatten] at hjoin
      simpa using hjoin
  · simp at hlen ⊢
    omega

/-- Witness of C14: the address `ns/repo/flow` resolves to its three segments
and the address `ns/flow` gives an error with empty parts. -/
theorem C14_uris_witness :
    (mkFlow Pending [] []).URIs = (("ns", "repo", "flow"), none) ∧
    ({ mkFlow Pending [] [] with URI := "ns/flow" } : Flow).URIs =
      (("", "", ""), some "Invalid flow URI: ns/flow") ∧
    ((mkFlow Pending [] []).URIs.2 ≠ none ↔
      (Split (mkFlow Pending [] []).URI '/').length ≠ 3) :=
  ⟨by decide, by decide, (C14_uris (mkFlow Pending [] [])).1⟩

/-! ## Independence of the outcome from bookkeeping -/

theorem mirror_left {W1 W2 : Type} {env1 : Env W1} {env2 : Env W2} {R : W1 → W2 → Prop}
    (h : SameDispatch env1 env2 R) (log : String) (verbose timestamp : Bool) {w1 : W1}
    {w2 : W2} (hw : R w1 w2) : R (mirror env1 log verbose timestamp w1) w2 := by
  unfold mirror
  split
  · split
    · exact h.printL _ _ _ (h.nowL _ _ hw)
    · exact h.printL _ _ _ hw
  · exact hw

theorem mirror_right {W1 W2 : Type} {env1 : Env W1} {env2 : Env W2} {R : W1 → W2 → Prop}
    (h : SameDispatch env1 env2 R) (log : String) (verbose timestamp : Bool) {w1 : W1}
    {w2 : W2} (hw : R w1 w2) : R w1 (mirror env2 log verbose timestamp w2) := by
  unfold mirror
  split
  · split
    · exact h.printR _ _ _ (h.nowR _ _ hw)
    · exact h.printR _ _ _ hw
  · exact hw

theorem Action.Log_left_action {W1 W2 : Type} {env1 : Env W1} {env2 : Env W2} {R : W1 → W2 → Prop}
    (h : SameDispatch env1 env2 R) (a : Action) (log : String) (verbose timestamp : Bool)
    {w1 : W1} {w2 : W2} (hw : R w1 w2) : R (a.Log env1 log verbose timestamp w1).2 w2 :=
  mirror_left h log verbose timestamp (h.nowL _ _ hw)

theorem Action.Log_right_action {W1 W2 : Type} {env1 : Env W1} {env2 : Env W2} {R : W1 → W2 → Prop}
    (h : SameDispatch env1 env2 R) (a : Action) (log : String) (verbose timestamp : Bool)
    {w1 : W1} {w2 : W2} (hw : R w1 w2) : R w1 (a.Log env2 log verbose timestamp w2).2 :=
  mirror_right h log verbose timestamp (h.nowR _ _ hw)

theorem Stage.Log_left_stage {W1 W2 : Type} {env1 : Env W1} {env2 : Env W2} {R : W1 → W2 → Prop}
    (h : SameDispatch env1 env2 R) (s : Stage) (log : String) (verbose timestamp : Bool)
    {w1 : W1} {w2 : W2} (hw : R w1 w2) : R (s.Log env1 log verbose timestamp w1).2 w2 :=
  mirror_left h log verbose timestamp (h.nowL _ _ hw)

theorem Stage.Log_right_stage {W1 W2 : Type} {env1 : Env W1} {env2 : Env W2} {R : W1 → W2 → Prop}
    (h : SameDispatch env1 env2 R) (s : Stage) (log : String) (verbose timestamp : Bool)
    {w1 : W1} {w2 : W2} (hw : R w1 w2) : R w1 (s.Log env2 log verbose timestamp w2).2 :=
  mirror_right h log verbose timestamp (h.nowR _ _ hw)

theorem Flow.Log_left_flow {W1 W2 : Type} {env1 : Env W1} {env2 : Env W2} {R : W1 → W2 → Prop}
    (h : SameDispatch env1 env2 R) (f : Flow) (log : String) (verbose timestamp : Bool)
    {w1 : W1} {w2 : W2} (hw : R w1 w2) : R (f.Log env1 log verbose timestamp w1).2 w2 :=
  mirror_left h log verbose timestamp (h.storeL _ _ _ _ (h.nowL _ _ hw))

theorem Flow.Log_right_flow {W1 W2 : Type} {env1 : Env W1} {env2 : Env W2} {R : W1 → W2 → Prop}
    (h : SameDispatch env1 env2 R) (f : Flow) (log : String) (verbose timestamp : Bool)
    {w1 : W1} {w2 : W2} (hw : R w1 w2) : R w1 (f.Log env2 log verbose timestamp w2).2 :=
  mirror_right h log verbose timestamp (h.storeR _ _ _ _ (h.nowR _ _ hw))

theorem Action.erase_eq_action_iff (a b : Action) :
    a.erase = b.erase ↔
      a.Name = b.Name ∧ a.Title = b.Title ∧ a.Status = b.Status ∧ a.Jobs = b.Jobs := by
  cases a
  cases b
  simp [Action.erase]

theorem Stage.erase_eq_stage_iff (s t : Stage) :
    s.erase = t.erase ↔
      s.T = t.T ∧ s.Name = t.Name ∧ s.Title = t.Title ∧ s.Sequencing = t.Sequencing ∧
      s.Status = t.Status ∧ s.Actions.map Action.erase = t.Actions.map Action.erase := by
  cases s
  cases t
  simp [Stage.erase]

/-- One iteration of the action loop in two executions with the same dispatch
behaviour: the same event is recorded and the actions stay equal up to their
logs. -/
theorem Action.RunBody_rel {W1 W2 : Type} {env1 : Env W1} {env2 : Env W2}
    {R : W1 → W2 → Prop} (h : SameDispatch env1 env2 R) (verbose timestamp : Bool) (i : Nat)
    (job : Job) (st1 : ActionState W1) (st2 : ActionState W2)
    (ha : st1.a.erase = st2.a.erase) (hw : R st1.w st2.w) (htr : st1.trace = st2.trace) :
    (Action.RunBody env1 verbose timestamp i job st1).a.erase =
      (Action.RunBody env2 verbose timestamp i job st2).a.erase ∧
    R (Action.RunBody env1 verbose timestamp i job st1).w
      (Action.RunBody env2 verbose timestamp i job st2).w ∧
    (Action.RunBody env1 verbose timestamp i job st1).trace =
      (Action.RunBody env2 verbose timestamp i job st2).trace := by
  obtain ⟨hn, hti, hs, hj⟩ := (Action.erase_eq_action_iff _ _).mp ha
  have hpre : R
      (st1.f.Log env1 ("The Number [" ++ toString i ++ "] job is running: " ++ st1.a.Title)
        verbose timestamp
        (st1.a.Log env1 ("The Number [" ++ toString i ++ "] job is running: " ++ st1.a.Title)
          false timestamp st1.w).2).2
      (st2.f.Log env2 ("The Number [" ++ toString i ++ "] job is running: " ++ st2.a.Title)
        verbose timestamp
        (st2.a.Log env2 ("The Number [" ++ toString i ++ "] job is running: " ++ st2.a.Title)
          false timestamp st2.w).2).2 :=
    Flow.Log_right_flow h _ _ _ _ (Flow.Log_left_flow h _ _ _ _
      (Action.Log_right_action h _ _ _ _ (Action.Log_left_action h _ _ _ _ hw)))
  obtain ⟨e1, e2, e3, e4⟩ := h.job st1.a.Name verbose timestamp job _ _ hpre
  unfold Action.RunBody
  simp only
  have hname1 : (st1.a.Log env1
      ("The Number [" ++ toString i ++ "] job is running: " ++ st1.a.Title)
      false timestamp st1.w).1.Name = st1.a.Name := rfl
  have hname2 : (st2.a.Log env2
      ("The Number [" ++ toString i ++ "] job is running: " ++ st2.a.Title)
      false timestamp st2.w).1.Name = st1.a.Name := hn.symm
  rw [hname1, hname2]
  generalize env1.jobRun _ _ _ _ _ = r1 at e1 e2 e3 e4 ⊢
  generalize env2.jobRun _ _ _ _ _ = r2 at e1 e2 e3 e4 ⊢
  obtain ⟨rs1, re1, rj1, rl1, rw1⟩ := r1
  obtain ⟨rs2, re2, rj2, rl2, rw2⟩ := r2
  simp only at e1 e2 e3 e4
  subst e1 e2 e3
  cases re1 with
  | some x =>
    simp only
    refine ⟨?_, ?_, by rw [htr]⟩
    · rw [Action.erase_eq_action_iff]
      simp [Action.Log, hn, hti, hj]
    · exact Flow.Log_right_flow h _ _ _ _ (Flow.Log_left_flow h _ _ _ _
        (Action.Log_right_action h _ _ _ _ (Action.Log_left_action h _ _ _ _ e4)))
  | none =>
    simp only
    refine ⟨?_, e4, by rw [htr]⟩
    rw [Action.erase_eq_action_iff]
    simp [Action.Log, hn, hti, hj]

/-- The action loop in two executions with the same dispatch behaviour. -/
theorem Action.RunLoop_rel {W1 W2 : Type} {env1 : Env W1} {env2 : Env W2}
    {R : W1 → W2 → Prop} (h : SameDispatch env1 env2 R) (verbose timestamp : Bool) :
    ∀ (n i : Nat) (st1 : ActionState W1) (st2 : ActionState W2),
    st1.a.erase = st2.a.erase → R st1.w st2.w → st1.trace = st2.trace →
    (Action.RunLoop env1 verbose timestamp n i st1).a.erase =
      (Action.RunLoop env2 verbose timestamp n i st2).a.erase ∧
    R (Action.RunLoop env1 verbose timestamp n i st1).w
      (Action.RunLoop env2 verbose timestamp n i st2).w ∧
    (Action.RunLoop env1 verbose timestamp n i st1).trace =
      (Action.RunLoop env2 verbose timestamp n i st2).trace := by
  intro n
  induction n with
  | zero => intro i st1 st2 ha hw htr; exact ⟨ha, hw, htr⟩
  | succ n ih =>
    intro i st1 st2 ha hw htr
    have hj : st1.a.Jobs = st2.a.Jobs := ((Action.erase_eq_action_iff _ _).mp ha).2.2.2
    unfold Action.RunLoop
    rw [hj]
    cases hjob : st2.a.Jobs[i]? with
    | none => exact ⟨ha, hw, htr⟩
    | some job =>
      simp only
      obtain ⟨b1, b2, b3⟩ := Action.RunBody_rel h verbose timestamp i job st1 st2 ha hw htr
      have hs : (Action.RunBody env1 verbose timestamp i job st1).a.Status =
          (Action.RunBody env2 verbose timestamp i job st2).a.Status :=
        ((Action.erase_eq_action_iff _ _).mp b1).2.2.1
      rw [hs]
      split
      · exact ⟨b1, b2, b3⟩
      · exact ih (i + 1) _ _ b1 b2 b3

/-- Two calls of `Action.Run` with the same dispatch behaviour on actions that
are equal up to their logs return the same status, record the same dispatches
and leave actions that are equal up to their logs. -/
theorem Action.Run_rel {W1 W2 : Type} {env1 : Env W1} {env2 : Env W2}
    {R : W1 → W2 → Prop} (h : SameDispatch env1 env2 R) (verbose timestamp : Bool)
    (a1 a2 : Action) (f1 f2 : Flow) (w1 : W1) (w2 : W2)
    (ha : a1.erase = a2.erase) (hw : R w1 w2) :
    (a1.Run env1 verbose timestamp f1 w1).status = (a2.Run env2 verbose timestamp f2 w2).status ∧
    (a1.Run env1 verbose timestamp f1 w1).err = (a2.Run env2 verbose timestamp f2 w2).err ∧
    (a1.Run env1 verbose timestamp f1 w1).action.erase =
      (a2.Run env2 verbose timestamp f2 w2).action.erase ∧
    R (a1.Run env1 verbose timestamp f1 w1).world (a2.Run env2 verbose timestamp f2 w2).world ∧
    (a1.Run env1 verbose timestamp f1 w1).trace = (a2.Run env2 verbose timestamp f2 w2).trace := by
  obtain ⟨hn, hti, hs, hj⟩ := (Action.erase_eq_action_iff _ _).mp ha
  have h0a : (Action.RunInit env1 a1 verbose timestamp f1 w1).a.erase =
      (Action.RunInit env2 a2 verbose timestamp f2 w2).a.erase := by
    rw [Action.erase_eq_action_iff]
    exact ⟨hn, hti, rfl, hj⟩
  have h0w : R (Action.RunInit env1 a1 verbose timestamp f1 w1).w
      (Action.RunInit env2 a2 verbose timestamp f2 w2).w :=
    Flow.Log_right_flow h _ _ _ _ (Flow.Log_left_flow h _ _ _ _
      (Action.Log_right_action h _ _ _ _ (Action.Log_left_action h _ _ _ _ hw)))
  have hlen : (Action.RunInit env1 a1 verbose timestamp f1 w1).a.Jobs.length =
      (Action.RunInit env2 a2 verbose timestamp f2 w2).a.Jobs.length := by
    show a1.Jobs.length = a2.Jobs.length
    rw [hj]
  obtain ⟨r1, r2, r3⟩ := Action.RunLoop_rel h verbose timestamp
    (Action.RunInit env1 a1 verbose timestamp f1 w1).a.Jobs.length 0 _ _ h0a h0w rfl
  unfold Action.Run
  simp only
  rw [← hlen]
  exact ⟨((Action.erase_eq_action_iff _ _).mp r1).2.2.1, trivial, r1, r2, r3⟩

/-- One iteration of the stage loop in two executions with the same dispatch
behaviour. -/
theorem Stage.SequencingBody_rel {W1 W2 : Type} {env1 : Env W1} {env2 : Env W2}
    {R : W1 → W2 → Prop} (h : SameDispatch env1 env2 R) (verbose timestamp : Bool) (i : Nat)
    (a1 a2 : Action) (st1 : StageState W1) (st2 : StageState W2)
    (ha : a1.erase = a2.erase) (hs : st1.s.erase = st2.s.erase) (hw : R st1.w st2.w)
    (htr : st1.trace = st2.trace) :
    (Stage.SequencingBody env1 verbose timestamp i a1 st1).s.erase =
      (Stage.SequencingBody env2 verbose timestamp i a2 st2).s.erase ∧
    R (Stage.SequencingBody env1 verbose timestamp i a1 st1).w
      (Stage.SequencingBody env2 verbose timestamp i a2 st2).w ∧
    (Stage.SequencingBody env1 verbose timestamp i a1 st1).trace =
      (Stage.SequencingBody env2 verbose timestamp i a2 st2).trace := by
  obtain ⟨hT, hn, hti, hsq, hst, hacts⟩ := (Stage.erase_eq_stage_iff _ _).mp hs
  have hpre : R
      (st1.f.Log env1 ("The Number [" ++ toString i ++ "] action is running: " ++ st1.s.Title)
        verbose timestamp
        (st1.s.Log env1 ("The Number [" ++ toString i ++ "] action is running: " ++ st1.s.Title)
          false timestamp st1.w).2).2
      (st2.f.Log env2 ("The Number [" ++ toString i ++ "] action is running: " ++ st2.s.Title)
        verbose timestamp
        (st2.s.Log env2 ("The Number [" ++ toString i ++ "] action is running: " ++ st2.s.Title)
          false timestamp st2.w).2).2 :=
    Flow.Log_right_flow h _ _ _ _ (Flow.Log_left_flow h _ _ _ _
      (Stage.Log_right_stage h _ _ _ _ (Stage.Log_left_stage h _ _ _ _ hw)))
  obtain ⟨e1, e2, e3, e4, e5⟩ := Action.Run_rel h verbose timestamp a1 a2
    (st1.f.Log env1 ("The Number [" ++ toString i ++ "] action is running: " ++ st1.s.Title)
        verbose timestamp
        (st1.s.Log env1 ("The Number [" ++ toString i ++ "] action is running: " ++ st1.s.Title)
          false timestamp st1.w).2).1
    (st2.f.Log env2 ("The Number [" ++ toString i ++ "] action is running: " ++ st2.s.Title)
        verbose timestamp
        (st2.s.Log env2 ("The Number [" ++ toString i ++ "] action is running: " ++ st2.s.Title)
          false timestamp st2.w).2).1
    _ _ ha hpre
  have herr1 : (a1.Run env1 verbose timestamp
      (st1.f.Log env1 ("The Number [" ++ toString i ++ "] action is running: " ++ st1.s.Title)
        verbose timestamp
        (st1.s.Log env1 ("The Number [" ++ toString i ++ "] action is running: " ++ st1.s.Title)
          false timestamp st1.w).2).1
      (st1.f.Log env1 ("The Number [" ++ toString i ++ "] action is running: " ++ st1.s.Title)
        verbose timestamp
        (st1.s.Log env1 ("The Number [" ++ toString i ++ "] action is running: " ++ st1.s.Title)
          false timestamp st1.w).2).2).err = none := rfl
  unfold Stage.SequencingBody
  simp only
  generalize Action.Run env1 a1 _ _ _ _ = r1 at e1 e2 e3 e4 e5 herr1 ⊢
  generalize Action.Run env2 a2 _ _ _ _ = r2 at e1 e2 e3 e4 e5 ⊢
  obtain ⟨rs1, re1, ra1, rf1, rw1, rt1⟩ := r1
  obtain ⟨rs2, re2, ra2, rf2, rw2, rt2⟩ := r2
  simp only at e1 e2 e3 e4 e5 herr1
  subst e1 e2 e5 herr1
  simp only
  refine ⟨?_, e4, by rw [htr]⟩
  rw [Stage.erase_eq_stage_iff]
  refine ⟨hT, hn, hti, hsq, rfl, ?_⟩
  show (st1.s.Actions.set i ra1).map Action.erase = (st2.s.Actions.set i ra2).map Action.erase
  rw [List.map_set, List.map_set, hacts, e3]

/-- The stage loop in two executions with the same dispatch behaviour. -/
theorem Stage.SequencingLoop_rel {W1 W2 : Type} {env1 : Env W1} {env2 : Env W2}
    {R : W1 → W2 → Prop} (h : SameDispatch env1 env2 R) (verbose timestamp : Bool) :
    ∀ (n i : Nat) (st1 : StageState W1) (st2 : StageState W2),
    st1.s.erase = st2.s.erase → R st1.w st2.w → st1.trace = st2.trace →
    (Stage.SequencingLoop env1 verbose timestamp n i st1).s.erase =
      (Stage.SequencingLoop env2 verbose timestamp n i st2).s.erase ∧
    R (Stage.SequencingLoop env1 verbose timestamp n i st1).w
      (Stage.SequencingLoop env2 verbose timestamp n i st2).w ∧
    (Stage.SequencingLoop env1 verbose timestamp n i st1).trace =
      (Stage.SequencingLoop env2 verbose timestamp n i st2).trace := by
  intro n
  induction n with
  | zero => intro i st1 st2 hs hw htr; exact ⟨hs, hw, htr⟩
  | succ n ih =>
    intro i st1 st2 hs hw htr
    have hacts : st1.s.Actions.map Action.erase = st2.s.Actions.map Action.erase :=
      ((Stage.erase_eq_stage_iff _ _).mp hs).2.2.2.2.2
    have hi : (st1.s.Actions[i]?).map Action.erase = (st2.s.Actions[i]?).map Action.erase := by
      rw [← List.getElem?_map, ← List.getElem?_map, hacts]
    unfold Stage.SequencingLoop
    cases h1 : st1.s.Actions[i]? with
    | none =>
      cases h2 : st2.s.Actions[i]? with
      | none => exact ⟨hs, hw, htr⟩
      | some a2 => rw [h1, h2] at hi; cases hi
    | some a1 =>
      cases h2 : st2.s.Actions[i]? with
      | none => rw [h1, h2] at hi; cases hi
      | some a2 =>
        rw [h1, h2] at hi
        have ha : a1.erase = a2.erase := by simpa using hi
        simp only
        obtain ⟨b1, b2, b3⟩ :=
          Stage.SequencingBody_rel h verbose timestamp i a1 a2 st1 st2 ha hs hw htr
        have hst : (Stage.SequencingBody env1 verbose timestamp i a1 st1).s.Status =
            (Stage.SequencingBody env2 verbose timestamp i a2 st2).s.Status :=
          ((Stage.erase_eq_stage_iff _ _).mp b1).2.2.2.2.1
        rw [hst]
        split
        · exact ⟨b1, b2, b3⟩
        · exact ih (i + 1) _ _ b1 b2 b3

/-- Two calls of `Stage.SequencingRun` with the same dispatch behaviour on the
same stage return the same status, record the same calls and leave stages that
are equal up to logs. -/
theorem Stage.SequencingRun_rel {W1 W2 : Type} {env1 : Env W1} {env2 : Env W2}
    {R : W1 → W2 → Prop} (h : SameDispatch env1 env2 R) (verbose timestamp : Bool)
    (s : Stage) (f1 f2 : Flow) (w1 : W1) (w2 : W2) (hw : R w1 w2) :
    (s.SequencingRun env1 verbose timestamp f1 w1).status =
      (s.SequencingRun env2 verbose timestamp f2 w2).status ∧
    (s.SequencingRun env1 verbose timestamp f1 w1).err =
      (s.SequencingRun env2 verbose timestamp f2 w2).err ∧
    (s.SequencingRun env1 verbose timestamp f1 w1).stage.erase =
      (s.SequencingRun env2 verbose timestamp f2 w2).stage.erase ∧
    R (s.SequencingRun env1 verbose timestamp f1 w1).world
      (s.SequencingRun env2 verbose timestamp f2 w2).world ∧
    (s.SequencingRun env1 verbose timestamp f1 w1).trace =
      (s.SequencingRun env2 verbose timestamp f2 w2).trace := by
  have h0s : (Stage.SequencingInit env1 s verbose timestamp f1 w1).s.erase =
      (Stage.SequencingInit env2 s verbose timestamp f2 w2).s.erase := by
    rw [Stage.erase_eq_stage_iff]
    exact ⟨rfl, rfl, rfl, rfl, rfl, rfl⟩
  have h0w : R (Stage.SequencingInit env1 s verbose timestamp f1 w1).w
      (Stage.SequencingInit env2 s verbose timestamp f2 w2).w :=
    Flow.Log_right_flow h _ _ _ _ (Flow.Log_left_flow h _ _ _ _
      (Stage.Log_right_stage h _ _ _ _ (Stage.Log_left_stage h _ _ _ _ hw)))
  obtain ⟨r1, r2, r3⟩ := Stage.SequencingLoop_rel h verbose timestamp
    s.Actions.length 0 _ _ h0s h0w rfl
  exact ⟨((Stage.erase_eq_stage_iff _ _).mp r1).2.2.2.2.1, rfl, r1, r2, r3⟩

/-- The normal arm of the stage loop in two executions with the same dispatch
behaviour, on the same stage. -/
theorem Flow.NormalArm_rel {W1 W2 : Type} {env1 : Env W1} {env2 : Env W2}
    {R : W1 → W2 → Prop} (h : SameDispatch env1 env2 R) (verbose timestamp : Bool) (i : Nat)
    (stage : Stage) (f1 f2 : Flow) (w1 : W1) (w2 : W2)
    (hst : f1.Stages.map Stage.erase = f2.Stages.map Stage.erase) (hw : R w1 w2) :
    (Flow.NormalArm env1 verbose timestamp i stage f1 w1).1.Status =
      (Flow.NormalArm env2 verbose timestamp i stage f2 w2).1.Status ∧
    (Flow.NormalArm env1 verbose timestamp i stage f1 w1).1.Stages.map Stage.erase =
      (Flow.NormalArm env2 verbose timestamp i stage f2 w2).1.Stages.map Stage.erase ∧
    R (Flow.NormalArm env1 verbose timestamp i stage f1 w1).2.1
      (Flow.NormalArm env2 verbose timestamp i stage f2 w2).2.1 ∧
    (Flow.NormalArm env1 verbose timestamp i stage f1 w1).2.2 =
      (Flow.NormalArm env2 verbose timestamp i stage f2 w2).2.2 := by
  unfold Flow.NormalArm
  by_cases hp : stage.Sequencing = Parallel
  · rw [if_pos hp, if_pos hp]
    obtain ⟨e1, e2, e3, e4⟩ := h.par verbose timestamp stage i w1 w2 hw
    generalize env1.parallelRun verbose timestamp stage i w1 = r1 at e1 e2 e3 e4 ⊢
    generalize env2.parallelRun verbose timestamp stage i w2 = r2 at e1 e2 e3 e4 ⊢
    obtain ⟨rs1, re1, rst1, rl1, rw1⟩ := r1
    obtain ⟨rs2, re2, rst2, rl2, rw2⟩ := r2
    simp only at e1 e2 e3 e4
    subst e1 e2
    cases re1 with
    | some x =>
      refine ⟨rfl, ?_, Flow.Log_right_flow h _ _ _ _ (Flow.Log_left_flow h _ _ _ _ e4), rfl⟩
      show (f1.Stages.set i rst1).map Stage.erase = (f2.Stages.set i rst2).map Stage.erase
      rw [List.map_set, List.map_set, hst, e3]
    | none =>
      refine ⟨rfl, ?_, e4, rfl⟩
      show (f1.Stages.set i rst1).map Stage.erase = (f2.Stages.set i rst2).map Stage.erase
      rw [List.map_set, List.map_set, hst, e3]
  · rw [if_neg hp, if_neg hp]
    by_cases hs : stage.Sequencing = Sequencing
    · rw [if_pos hs, if_pos hs]
      obtain ⟨e1, _, e3, e4, e5⟩ :=
        Stage.SequencingRun_rel h verbose timestamp stage f1 f2 w1 w2 hw
      have hf1 := (Stage.SequencingRun_spec env1 stage verbose timestamp f1 w1).2.2.2.2.2.2.2
      have hf2 := (Stage.SequencingRun_spec env2 stage verbose timestamp f2 w2).2.2.2.2.2.2.2
      have herr1 : (stage.SequencingRun env1 verbose timestamp f1 w1).err = none := rfl
      have herr2 : (stage.SequencingRun env2 verbose timestamp f2 w2).err = none := rfl
      generalize Stage.SequencingRun env1 stage verbose timestamp f1 w1 = r1 at *
      generalize Stage.SequencingRun env2 stage verbose timestamp f2 w2 = r2 at *
      obtain ⟨rs1, re1, rst1, rf1, rw1, rt1⟩ := r1
      obtain ⟨rs2, re2, rst2, rf2, rw2, rt2⟩ := r2
      simp only at e1 e3 e4 e5 hf1 hf2 herr1 herr2
      subst e1 e5 herr1 herr2
      refine ⟨rfl, ?_, e4, rfl⟩
      show (rf1.Stages.set i rst1).map Stage.erase = (rf2.Stages.set i rst2).map Stage.erase
      rw [List.map_set, List.map_set, hf1.stages, hf2.stages, hst, e3]
    · rw [if_neg hs, if_neg hs]
      exact ⟨rfl, hst, Flow.Log_right_flow h _ _ _ _ (Flow.Log_left_flow h _ _ _ _ hw), rfl⟩

/-- One iteration of the stage loop of `LocalRun` in two executions with the
same dispatch behaviour, on the same stage. -/
theorem Flow.LocalRunBody_rel {W1 W2 : Type} {env1 : Env W1} {env2 : Env W2}
    {R : W1 → W2 → Prop} (h : SameDispatch env1 env2 R) (verbose timestamp : Bool) (i : Nat)
    (stage : Stage) (st1 : FlowState W1) (st2 : FlowState W2)
    (hs : st1.f.Status = st2.f.Status)
    (hst : st1.f.Stages.map Stage.erase = st2.f.Stages.map Stage.erase)
    (hw : R st1.w st2.w) (htr : st1.trace = st2.trace) :
    (Flow.LocalRunBody env1 verbose timestamp i stage st1).f.Status =
      (Flow.LocalRunBody env2 verbose timestamp i stage st2).f.Status ∧
    (Flow.LocalRunBody env1 verbose timestamp i stage st1).f.Stages.map Stage.erase =
      (Flow.LocalRunBody env2 verbose timestamp i stage st2).f.Stages.map Stage.erase ∧
    R (Flow.LocalRunBody env1 verbose timestamp i stage st1).w
      (Flow.LocalRunBody env2 verbose timestamp i stage st2).w ∧
    (Flow.LocalRunBody env1 verbose timestamp i stage st1).trace =
      (Flow.LocalRunBody env2 verbose timestamp i stage st2).trace := by
  have hw1 : R
      (st1.f.Log env1 ("The Number [" ++ toString i ++ "] stage is running: " ++ stage.Title)
        verbose timestamp st1.w).2
      (st2.f.Log env2 ("The Number [" ++ toString i ++ "] stage is running: " ++ stage.Title)
        verbose timestamp st2.w).2 :=
    Flow.Log_right_flow h _ _ _ _ (Flow.Log_left_flow h _ _ _ _ hw)
  have hs1 : (st1.f.Log env1
      ("The Number [" ++ toString i ++ "] stage is running: " ++ stage.Title)
      verbose timestamp st1.w).1.Status = (st2.f.Log env2
      ("The Number [" ++ toString i ++ "] stage is running: " ++ stage.Title)
      verbose timestamp st2.w).1.Status := hs
  have hst1 : (st1.f.Log env1
      ("The Number [" ++ toString i ++ "] stage is running: " ++ stage.Title)
      verbose timestamp st1.w).1.Stages.map Stage.erase = (st2.f.Log env2
      ("The Number [" ++ toString i ++ "] stage is running: " ++ stage.Title)
      verbose timestamp st2.w).1.Stages.map Stage.erase := hst
  unfold Flow.LocalRunBody
  simp only
  by_cases h1 : stage.T = StartStage
  · rw [if_pos h1, if_pos h1]
    refine ⟨hs, hst, Flow.Log_right_flow h _ _ _ _ (Flow.Log_left_flow h _ _ _ _ hw1), ?_⟩
    show st1.trace ++ [_] = st2.trace ++ [_]
    rw [htr]
    exact congrArg (fun x => st2.trace ++ [StageEvent.mk i x []]) hs
  · rw [if_neg h1, if_neg h1]
    by_cases h2 : stage.T = NormalStage
    · rw [if_pos h2, if_pos h2]
      obtain ⟨a1, a2, a3, a4⟩ := Flow.NormalArm_rel h verbose timestamp i stage _ _ _ _ hst1 hw1
      refine ⟨a1, a2, a3, ?_⟩
      show st1.trace ++ [_] = st2.trace ++ [_]
      rw [htr]
      simp only [a1, a4]
    · rw [if_neg h2, if_neg h2]
      by_cases h3 : stage.T = PauseStage
      · rw [if_pos h3, if_pos h3]
        refine ⟨hs, hst, hw1, ?_⟩
        show st1.trace ++ [_] = st2.trace ++ [_]
        rw [htr]
        exact congrArg (fun x => st2.trace ++ [StageEvent.mk i x []]) hs
      · rw [if_neg h3, if_neg h3]
        by_cases h4 : stage.T = EndStage
        · rw [if_pos h4, if_pos h4]
          refine ⟨hs, hst, Flow.Log_right_flow h _ _ _ _ (Flow.Log_left_flow h _ _ _ _ hw1), ?_⟩
          show st1.trace ++ [_] = st2.trace ++ [_]
          rw [htr]
          exact congrArg (fun x => st2.trace ++ [StageEvent.mk i x []]) hs
        · rw [if_neg h4, if_neg h4]
          refine ⟨hs, hst, hw1, ?_⟩
          show st1.trace ++ [_] = st2.trace ++ [_]
          rw [htr]
          exact congrArg (fun x => st2.trace ++ [StageEvent.mk i x []]) hs

/-- The stage loop of `LocalRun` in two executions with the same dispatch
behaviour, started on flows whose stages not yet reached are the same. -/
theorem Flow.LocalRunLoop_rel {W1 W2 : Type} {env1 : Env W1} {env2 : Env W2}
    {R : W1 → W2 → Prop} (h : SameDispatch env1 env2 R) (verbose timestamp : Bool) :
    ∀ (n i : Nat) (st1 : FlowState W1) (st2 : FlowState W2),
    st1.f.Status = st2.f.Status →
    st1.f.Stages.map Stage.erase = st2.f.Stages.map Stage.erase →
    (∀ q : Nat, i ≤ q → st1.f.Stages[q]? = st2.f.Stages[q]?) →
    R st1.w st2.w → st1.trace = st2.trace →
    (Flow.LocalRunLoop env1 verbose timestamp n i st1).f.Status =
      (Flow.LocalRunLoop env2 verbose timestamp n i st2).f.Status ∧
    (Flow.LocalRunLoop env1 verbose timestamp n i st1).f.Stages.map Stage.erase =
      (Flow.LocalRunLoop env2 verbose timestamp n i st2).f.Stages.map Stage.erase ∧
    (Flow.LocalRunLoop env1 verbose timestamp n i st1).trace =
      (Flow.LocalRunLoop env2 verbose timestamp n i st2).trace := by
  intro n
  induction n with
  | zero => intro i st1 st2 hs hst _ _ htr; exact ⟨hs, hst, htr⟩
  | succ n ih =>
    intro i st1 st2 hs hst hfr hw htr
    have hi := hfr i (Nat.le_refl i)
    unfold Flow.LocalRunLoop
    rw [hi]
    cases h2 : st2.f.Stages[i]? with
    | none => exact ⟨hs, hst, htr⟩
    | some stage =>
      simp only
      obtain ⟨b1, b2, b3, b4⟩ :=
        Flow.LocalRunBody_rel h verbose timestamp i stage st1 st2 hs hst hw htr
      obtain ⟨_, _, _, _, _, hq1, _⟩ :=
        Flow.LocalRunBody_spec env1 verbose timestamp i stage st1 (by rw [hi, h2])
      obtain ⟨_, _, _, _, _, hq2, _⟩ :=
        Flow.LocalRunBody_spec env2 verbose timestamp i stage st2 h2
      rw [b1]
      split
      · exact ⟨b1, b2, b4⟩
      · refine ih (i + 1) _ _ b1 b2 ?_ b3 b4
        intro q hq
        rw [hq1 q (by omega), hq2 q (by omega)]
        exact hfr q (by omega)

theorem Flow.LocalRunInit_left {W1 W2 : Type} {env1 : Env W1} {env2 : Env W2}
    {R : W1 → W2 → Prop} (h : SameDispatch env1 env2 R) (f : Flow) (verbose timestamp : Bool)
    {w1 : W1} {w2 : W2} (hw : R w1 w2) :
    R (Flow.LocalRunInit env1 f verbose timestamp w1).2.2.2 w2 := by
  unfold Flow.LocalRunInit
  simp only
  apply h.nowL
  have h1 : R (({ f with Status := Running } : Flow).Log env1
      ("Flow [" ++ f.URI ++ "] status change to " ++ Running) verbose timestamp w1).2 w2 :=
    Flow.Log_left_flow h _ _ _ _ hw
  generalize ({ f with Status := Running } : Flow).Log env1
    ("Flow [" ++ f.URI ++ "] status change to " ++ Running) verbose timestamp w1 = l1 at h1 ⊢
  have h2 : R (match l1.1.URIs.2 with
      | some e => l1.1.Log env1 ("Parse Flow [" ++ l1.1.URI ++ "] error: " ++ e)
          verbose timestamp l1.2
      | none => l1).2 w2 := by
    split
    · exact Flow.Log_left_flow h _ _ _ _ h1
    · exact h1
  generalize (match l1.1.URIs.2 with
      | some e => l1.1.Log env1 ("Parse Flow [" ++ l1.1.URI ++ "] error: " ++ e)
          verbose timestamp l1.2
      | none => l1) = l2 at h2 ⊢
  have h3 := h.putL l1.1.URIs.1.1 l1.1.URIs.1.2.1 l1.1.URIs.1.2.2 l2.1.Tag l2.1.Title
    (env1.marshal l2.1) l2.1.Version l2.1.Timeout _ _ h2
  generalize env1.flowPut _ _ _ _ _ _ _ _ _ = pr at h3 ⊢
  split
  · exact Flow.Log_left_flow h _ _ _ _ h3
  · exact h3

theorem Flow.LocalRunInit_right {W1 W2 : Type} {env1 : Env W1} {env2 : Env W2}
    {R : W1 → W2 → Prop} (h : SameDispatch env1 env2 R) (f : Flow) (verbose timestamp : Bool)
    {w1 : W1} {w2 : W2} (hw : R w1 w2) :
    R w1 (Flow.LocalRunInit env2 f verbose timestamp w2).2.2.2 := by
  unfold Flow.LocalRunInit
  simp only
  apply h.nowR
  have h1 : R w1 (({ f with Status := Running } : Flow).Log env2
      ("Flow [" ++ f.URI ++ "] status change to " ++ Running) verbose timestamp w2).2 :=
    Flow.Log_right_flow h _ _ _ _ hw
  generalize ({ f with Status := Running } : Flow).Log env2
    ("Flow [" ++ f.URI ++ "] status change to " ++ Running) verbose timestamp w2 = l1 at h1 ⊢
  have h2 : R w1 (match l1.1.URIs.2 with
      | some e => l1.1.Log env2 ("Parse Flow [" ++ l1.1.URI ++ "] error: " ++ e)
          verbose timestamp l1.2
      | none => l1).2 := by
    split
    · exact Flow.Log_right_flow h _ _ _ _ h1
    · exact h1
  generalize (match l1.1.URIs.2 with
      | some e => l1.1.Log env2 ("Parse Flow [" ++ l1.1.URI ++ "] error: " ++ e)
          verbose timestamp l1.2
      | none => l1) = l2 at h2 ⊢
  have h3 := h.putR l1.1.URIs.1.1 l1.1.URIs.1.2.1 l1.1.URIs.1.2.2 l2.1.Tag l2.1.Title
    (env2.marshal l2.1) l2.1.Version l2.1.Timeout _ _ h2
  generalize env2.flowPut _ _ _ _ _ _ _ _ _ = pr at h3 ⊢
  split
  · exact Flow.Log_right_flow h _ _ _ _ h3
  · exact h3

/-- After the stage loop, `LocalRun` only adds log lines to the flow. -/
theorem Flow.LocalRun_after_loop {W : Type} (env : Env W) (f : Flow) (verbose timestamp : Bool)
    (w : W) :
    Flow.LogsExtend
      (Flow.LocalRunLoop env verbose timestamp
        (Flow.LocalRunInit env f verbose timestamp w).1.Stages.length 0
        { f := (Flow.LocalRunInit env f verbose timestamp w).1,
          w := (Flow.LocalRunInit env f verbose timestamp w).2.2.2, trace := [] }).f
      (f.LocalRun env verbose timestamp w).flow := by
  unfold Flow.LocalRun
  simp only
  split
  · exact (Flow.LocalRunRecord_spec env _ _ _ verbose timestamp _).trans_logs
      (Flow.NotifyLoop_spec env verbose timestamp _ _ _ _)
  · exact Flow.LocalRunRecord_spec env _ _ _ verbose timestamp _

/-- C11: `Action.Run` and `Stage.SequencingRun` return no error, and
`Flow.LocalRun` returns no error when the lookup of each receiver of the flow
finds a notifier; on a flow with a receiver whose type has no notifier the
call of `LocalRun` is aborted in the notification loop and returns
nothing. -/
theorem C11_errors_absorbed :
    (∀ (W : Type) (env : Env W) (a : Action) (verbose timestamp : Bool) (f : Flow) (w : W),
      (a.Run env verbose timestamp f w).err = none) ∧
    (∀ (W : Type) (env : Env W) (s : Stage) (verbose timestamp : Bool) (f : Flow) (w : W),
      (s.SequencingRun env verbose timestamp f w).err = none) ∧
    (∀ (W : Type) (env : Env W) (f : Flow) (verbose timestamp : Bool) (w : W),
      (∀ rc ∈ f.Receivers, ∀ g addrs w0, (env.notify rc.Typ g addrs w0).isSome = true) →
      (f.LocalRun env verbose timestamp w).panicked = false ∧
      (f.LocalRun env verbose timestamp w).err = none) ∧
    ((mkFlow Pending [mkStage NormalStage Sequencing "" [mkAction "A1" "" [mkJob Success]]]
        [{ Typ := "mail", Address := "dev" }, { Typ := "slack", Address := "ops" },
         { Typ := "mail", Address := "qa" }]).LocalRun testEnv false false ()).panicked = true ∧
    ((mkFlow Pending [mkStage NormalStage Sequencing "" [mkAction "A1" "" [mkJob Success]]]
        [{ Typ := "mail", Address := "dev" }, { Typ := "slack", Address := "ops" },
         { Typ := "mail", Address := "qa" }]).LocalRun testEnv false false ()).notified =
      [{ Typ := "mail", Address := "dev" }] := by
  refine ⟨fun _ _ _ _ _ _ _ => rfl, fun _ _ _ _ _ _ _ => rfl, ?_, by decide, by decide⟩
  intro W env f verbose timestamp w hn
  exact ⟨(Flow.LocalRun_notified env f verbose timestamp w hn).2, rfl⟩

theorem List.map_status_of_erase {l1 l2 : List Stage}
    (h : l1.map Stage.erase = l2.map Stage.erase) :
    l1.map Stage.Status = l2.map Stage.Status ∧
    l1.map (fun s => s.Actions.map Action.Status) =
      l2.map (fun s => s.Actions.map Action.Status) := by
  have e1 : ∀ l : List Stage, l.map Stage.Status = (l.map Stage.erase).map Stage.Status := by
    intro l
    rw [List.map_map]
    rfl
  have e2 : ∀ l : List Stage, l.map (fun s => s.Actions.map Action.Status) =
      (l.map Stage.erase).map (fun s => s.Actions.map Action.Status) := by
    intro l
    rw [List.map_map]
    apply List.map_congr_left
    intro s _
    show s.Actions.map Action.Status = (s.Actions.map Action.erase).map Action.Status
    rw [List.map_map]
    rfl
  exact ⟨by rw [e1 l1, e1 l2, h], by rw [e2 l1, e2 l2, h]⟩

/-! ## Notifier calls -/

theorem mirror_silent {W α : Type} {env : Env W} {obs : W → α} (h : env.Silent obs)
    (log : String) (verbose timestamp : Bool) (w : W) :
    obs (mirror env log verbose timestamp w) = obs w := by
  unfold mirror
  split
  · split
    · simp only
      rw [h.println, h.now]
    · rw [h.println]
  · rfl

theorem Action.Log_silent_action {W α : Type} {env : Env W} {obs : W → α} (h : env.Silent obs)
    (a : Action) (log : String) (verbose timestamp : Bool) (w : W) :
    obs (a.Log env log verbose timestamp w).2 = obs w := by
  unfold Action.Log
  simp only
  rw [mirror_silent h, h.now]

theorem Stage.Log_silent_stage {W α : Type} {env : Env W} {obs : W → α} (h : env.Silent obs)
    (s : Stage) (log : String) (verbose timestamp : Bool) (w : W) :
    obs (s.Log env log verbose timestamp w).2 = obs w := by
  unfold Stage.Log
  simp only
  rw [mirror_silent h, h.now]

theorem Flow.Log_silent_flow {W α : Type} {env : Env W} {obs : W → α} (h : env.Silent obs)
    (f : Flow) (log : String) (verbose timestamp : Bool) (w : W) :
    obs (f.Log env log verbose timestamp w).2 = obs w := by
  unfold Flow.Log
  simp only
  rw [mirror_silent h, h.logCreate, h.now]

theorem Action.RunBody_silent {W α : Type} {env : Env W} {obs : W → α} (h : env.Silent obs)
    (verbose timestamp : Bool) (i : Nat) (job : Job) (st : ActionState W) :
    obs (Action.RunBody env verbose timestamp i job st).w = obs st.w := by
  unfold Action.RunBody
  simp only
  split
  · simp only
    rw [Flow.Log_silent_flow h, Action.Log_silent_action h, h.jobRun, Flow.Log_silent_flow h,
      Action.Log_silent_action h]
  · simp only
    rw [h.jobRun, Flow.Log_silent_flow h, Action.Log_silent_action h]

theorem Action.RunLoop_silent {W α : Type} {env : Env W} {obs : W → α} (h : env.Silent obs)
    (verbose timestamp : Bool) :
    ∀ (n i : Nat) (st : ActionState W),
    obs (Action.RunLoop env verbose timestamp n i st).w = obs st.w := by
  intro n
  induction n with
  | zero => intro i st; rfl
  | succ n ih =>
    intro i st
    unfold Action.RunLoop
    split
    · rfl
    · simp only
      split
      · exact Action.RunBody_silent h _ _ _ _ _
      · rw [ih]
        exact Action.RunBody_silent h _ _ _ _ _

theorem Action.Run_silent {W α : Type} {env : Env W} {obs : W → α} (h : env.Silent obs)
    (a : Action) (verbose timestamp : Bool) (f : Flow) (w : W) :
    obs (a.Run env verbose timestamp f w).world = obs w := by
  unfold Action.Run
  simp only
  rw [Action.RunLoop_silent h]
  unfold Action.RunInit
  simp only
  rw [Flow.Log_silent_flow h, Action.Log_silent_action h]

theorem Stage.SequencingBody_silent {W α : Type} {env : Env W} {obs : W → α}
    (h : env.Silent obs) (verbose timestamp : Bool) (i : Nat) (action : Action)
    (st : StageState W) :
    obs (Stage.SequencingBody env verbose timestamp i action st).w = obs st.w := by
  unfold Stage.SequencingBody
  simp only
  split
  · simp only
    rw [Flow.Log_silent_flow h, Stage.Log_silent_stage h, Action.Run_silent h,
      Flow.Log_silent_flow h, Stage.Log_silent_stage h]
  · simp only
    rw [Action.Run_silent h, Flow.Log_silent_flow h, Stage.Log_silent_stage h]

theorem Stage.SequencingLoop_silent {W α : Type} {env : Env W} {obs : W → α}
    (h : env.Silent obs) (verbose timestamp : Bool) :
    ∀ (n i : Nat) (st : StageState W),
    obs (Stage.SequencingLoop env verbose timestamp n i st).w = obs st.w := by
  intro n
  induction n with
  | zero => intro i st; rfl
  | succ n ih =>
    intro i st
    unfold Stage.SequencingLoop
    split
    · rfl
    · simp only
      split
      · exact Stage.SequencingBody_silent h _ _ _ _ _
      · rw [ih]
        exact Stage.SequencingBody_silent h _ _ _ _ _

theorem Stage.SequencingRun_silent {W α : Type} {env : Env W} {obs : W → α}
    (h : env.Silent obs) (s : Stage) (verbose timestamp : Bool) (f : Flow) (w : W) :
    obs (s.SequencingRun env verbose timestamp f w).world = obs w := by
  unfold Stage.SequencingRun
  simp only
  rw [Stage.SequencingLoop_silent h]
  unfold Stage.SequencingInit
  simp only
  rw [Flow.Log_silent_flow h, Stage.Log_silent_stage h]

theorem Flow.NormalArm_silent {W α : Type} {env : Env W} {obs : W → α} (h : env.Silent obs)
    (verbose timestamp : Bool) (i : Nat) (stage : Stage) (f : Flow) (w : W) :
    obs (Flow.NormalArm env verbose timestamp i stage f w).2.1 = obs w := by
  unfold Flow.NormalArm
  split
  · simp only
    split
    · simp only
      rw [Flow.Log_silent_flow h, h.parallelRun]
    · simp only
      rw [h.parallelRun]
  · split
    · simp only
      split
      · simp only
        rw [Flow.Log_silent_flow h, Stage.SequencingRun_silent h]
      · simp only
        rw [Stage.SequencingRun_silent h]
    · simp only
      rw [Flow.Log_silent_flow h]

theorem Flow.LocalRunBody_silent {W α : Type} {env : Env W} {obs : W → α} (h : env.Silent obs)
    (verbose timestamp : Bool) (i : Nat) (stage : Stage) (st : FlowState W) :
    obs (Flow.LocalRunBody env verbose timestamp i stage st).w = obs st.w := by
  unfold Flow.LocalRunBody
  simp only
  split
  · simp only
    rw [Flow.Log_silent_flow h, Flow.Log_silent_flow h]
  · split
    · simp only
      rw [Flow.NormalArm_silent h, Flow.Log_silent_flow h]
    · split
      · simp only
        rw [Flow.Log_silent_flow h]
      · split
        · simp only
          rw [Flow.Log_silent_flow h, Flow.Log_silent_flow h]
        · simp only
          rw [Flow.Log_silent_flow h]

theorem Flow.LocalRunLoop_silent {W α : Type} {env : Env W} {obs : W → α} (h : env.Silent obs)
    (verbose timestamp : Bool) :
    ∀ (n i : Nat) (st : FlowState W),
    obs (Flow.LocalRunLoop env verbose timestamp n i st).w = obs st.w := by
  intro n
  induction n with
  | zero => intro i st; rfl
  | succ n ih =>
    intro i st
    unfold Flow.LocalRunLoop
    split
    · rfl
    · simp only
      split
      · exact Flow.LocalRunBody_silent h _ _ _ _ _
      · rw [ih]
        exact Flow.LocalRunBody_silent h _ _ _ _ _

theorem Flow.LocalRunInit_silent {W α : Type} {env : Env W} {obs : W → α} (h : env.Silent obs)
    (f : Flow) (verbose timestamp : Bool) (w : W) :
    obs (Flow.LocalRunInit env f verbose timestamp w).2.2.2 = obs w := by
  unfold Flow.LocalRunInit
  simp only
  rw [h.now]
  have h2 : ∀ (l1 : Flow × W), obs l1.2 = obs w →
      obs (match l1.1.URIs.2 with
        | some e => l1.1.Log env ("Parse Flow [" ++ l1.1.URI ++ "] error: " ++ e)
            verbose timestamp l1.2
        | none => l1).2 = obs w := by
    intro l1 hl1
    split
    · rw [Flow.Log_silent_flow h]; exact hl1
    · exact hl1
  have h1 := h2 _ (Flow.Log_silent_flow h { f with Status := Running }
    ("Flow [" ++ f.URI ++ "] status change to " ++ Running) verbose timestamp w)
  split
  · rw [Flow.Log_silent_flow h, h.flowPut]
    exact h1
  · simp only
    rw [h.flowPut]
    exact h1

theorem Flow.LocalRunRecord_silent {W α : Type} {env : Env W} {obs : W → α}
    (h : env.Silent obs) (f : Flow) (flowID : Int) (startTime : String)
    (verbose timestamp : Bool) (w : W) :
    obs (Flow.LocalRunRecord env f flowID startTime verbose timestamp w).2 = obs w := by
  unfold Flow.LocalRunRecord
  simp only
  have h1 : obs (match (env.getNumbers flowID w).1.2 with
      | some e => f.Log env ("Get Flow Data [" ++ f.URI ++ "] Numbers error: " ++ e)
          verbose timestamp (env.getNumbers flowID w).2
      | none => (f, (env.getNumbers flowID w).2)).2 = obs w := by
    split
    · rw [Flow.Log_silent_flow h, h.getNumbers]
    · simp only
      rw [h.getNumbers]
  split
  · rw [Flow.Log_silent_flow h, h.dataPut, h.now]
    exact h1
  · simp only
    rw [h.dataPut, h.now]
    exact h1

/-- The notification loop calls `Notify` once for each receiver, in declared
order and with the address of the receiver, whatever the calls return, when
the lookup of each receiver finds a notifier. -/
theorem Flow.NotifyLoop_calls {W : Type} {env : Env W} {calls : W → List (String × List String)}
    (h : NotifyObserved env calls) (verbose timestamp : Bool) :
    ∀ (rs : List Receiver) (f : Flow) (w : W) (done : List Receiver),
    (∀ rc ∈ rs, ∀ g addrs w0, (env.notify rc.Typ g addrs w0).isSome = true) →
    calls (Flow.NotifyLoop env verbose timestamp rs f w done).2.1 =
      calls w ++ rs.map (fun rc => (rc.Typ, [rc.Address])) := by
  intro rs
  induction rs with
  | nil => intro f w done _; simp [Flow.NotifyLoop]
  | cons r rest ih =>
    intro f w done hn
    have hrest : ∀ rc ∈ rest, ∀ g addrs w0, (env.notify rc.Typ g addrs w0).isSome = true :=
      fun rc hrc => hn rc (List.mem_cons_of_mem _ hrc)
    unfold Flow.NotifyLoop
    split
    · rename_i hx
      have := hn r (List.mem_cons_self _ _) f [r.Address] w
      rw [hx] at this
      cases this
    · rename_i hx
      simp only
      rw [ih _ _ _ hrest, Flow.Log_silent_flow h.silent, h.notify _ _ _ _ _ _ hx]
      simp
    · rename_i hx
      simp only
      rw [ih _ _ _ hrest, Flow.Log_silent_flow h.silent, h.notify _ _ _ _ _ _ hx]
      simp

/-- When the lookup of each receiver of the flow finds a notifier, the calls of
`Notify` made by `LocalRun` are one for each receiver, in declared order and
with the address of the receiver, whatever the calls return. -/
theorem Flow.LocalRun_calls {W : Type} {env : Env W} {calls : W → List (String × List String)}
    (h : NotifyObserved env calls) (f : Flow) (verbose timestamp : Bool) (w : W)
    (hn : ∀ rc ∈ f.Receivers, ∀ g addrs w0, (env.notify rc.Typ g addrs w0).isSome = true) :
    calls (f.LocalRun env verbose timestamp w).world =
      calls w ++ f.Receivers.map (fun rc => (rc.Typ, [rc.Address])) := by
  obtain ⟨_, _, h0r, _⟩ := Flow.LocalRunInit_spec env f verbose timestamp w
  obtain ⟨_, _, _, _, _, _, hkept⟩ :=
    Flow.LocalRunLoop_spec env verbose timestamp
      (Flow.LocalRunInit env f verbose timestamp w).1.Stages.length 0
      { f := (Flow.LocalRunInit env f verbose timestamp w).1,
        w := (Flow.LocalRunInit env f verbose timestamp w).2.2.2, trace := [] } (by simp)
  have hloop : (Flow.LocalRunLoop env verbose timestamp
      (Flow.LocalRunInit env f verbose timestamp w).1.Stages.length 0
      { f := (Flow.LocalRunInit env f verbose timestamp w).1,
        w := (Flow.LocalRunInit env f verbose timestamp w).2.2.2,
        trace := [] }).f.Receivers = f.Receivers := by
    rw [hkept.1]
    exact h0r
  have key : ∀ (fl : Flow) (w0 : W), fl.Receivers = f.Receivers →
      calls (if fl.Receivers.length > 0 then
          Flow.NotifyLoop env verbose timestamp fl.Receivers fl w0 []
        else (fl, w0, [], false)).2.1 =
        calls w0 ++ f.Receivers.map (fun rc => (rc.Typ, [rc.Address])) := by
    intro fl w0 hfl
    split
    · rw [Flow.NotifyLoop_calls h verbose timestamp fl.Receivers fl w0 []
        (by rw [hfl]; exact hn), hfl]
    · rename_i hlen
      rw [← hfl, List.eq_nil_of_length_eq_zero (by omega : fl.Receivers.length = 0)]
      simp
  have hrec := (Flow.LocalRunRecord_spec env
    (Flow.LocalRunLoop env verbose timestamp
      (Flow.LocalRunInit env f verbose timestamp w).1.Stages.length 0
      { f := (Flow.LocalRunInit env f verbose timestamp w).1,
        w := (Flow.LocalRunInit env f verbose timestamp w).2.2.2, trace := [] }).f
    (Flow.LocalRunInit env f verbose timestamp w).2.1
    (Flow.LocalRunInit env f verbose timestamp w).2.2.1 verbose timestamp
    (Flow.LocalRunLoop env verbose timestamp
      (Flow.LocalRunInit env f verbose timestamp w).1.Stages.length 0
      { f := (Flow.LocalRunInit env f verbose timestamp w).1,
        w := (Flow.LocalRunInit env f verbose timestamp w).2.2.2, trace := [] }).w).1
  have hR := (congrArg Flow.Receivers hrec).trans hloop
  unfold Flow.LocalRun
  simp only
  rw [key _ _ hR, Flow.LocalRunRecord_silent h.silent, Flow.LocalRunLoop_silent h.silent,
    Flow.LocalRunInit_silent h.silent]

/-- C12: two executions of `LocalRun` on the same flow with the same dispatch
behaviour, whatever the flow store, the run store and the notifiers return in
each, end with the same flow status, the same status of every stage and of
every action, and the same record of stages, actions and dispatches; and when
the lookup of each receiver finds a notifier, the notifier of every receiver
is invoked, in declared order, whatever the notifiers before it returned: the
calls of `Notify` that can be read off the world after the run are those made
before it followed by one call for each receiver, in declared order, with the
type and the address of the receiver. -/
theorem C12_bookkeeping_independence {W1 W2 : Type} (env1 : Env W1) (env2 : Env W2)
    (R : W1 → W2 → Prop) (h : SameDispatch env1 env2 R) (f : Flow)
    (verbose timestamp : Bool) (w1 : W1) (w2 : W2) (hw : R w1 w2) :
    (f.LocalRun env1 verbose timestamp w1).flow.Status =
      (f.LocalRun env2 verbose timestamp w2).flow.Status ∧
    (f.LocalRun env1 verbose timestamp w1).flow.Stages.map Stage.Status =
      (f.LocalRun env2 verbose timestamp w2).flow.Stages.map Stage.Status ∧
    (f.LocalRun env1 verbose timestamp w1).flow.Stages.map
        (fun s => s.Actions.map Action.Status) =
      (f.LocalRun env2 verbose timestamp w2).flow.Stages.map
        (fun s => s.Actions.map Action.Status) ∧
    (f.LocalRun env1 verbose timestamp w1).flow.Stages.map Stage.erase =
      (f.LocalRun env2 verbose timestamp w2).flow.Stages.map Stage.erase ∧
    (f.LocalRun env1 verbose timestamp w1).trace =
      (f.LocalRun env2 verbose timestamp w2).trace ∧
    ((∀ rc ∈ f.Receivers, ∀ g addrs w0, (env1.notify rc.Typ g addrs w0).isSome = true) →
      (f.LocalRun env1 verbose timestamp w1).notified = f.Receivers ∧
      (f.LocalRun env1 verbose timestamp w1).panicked = false ∧
      ∀ calls : W1 → List (String × List String), NotifyObserved env1 calls →
        calls (f.LocalRun env1 verbose timestamp w1).world =
          calls w1 ++ f.Receivers.map (fun rc => (rc.Typ, [rc.Address]))) := by
  obtain ⟨a1, a2, _, _⟩ := Flow.LocalRunInit_spec env1 f verbose timestamp w1
  obtain ⟨b1, b2, _, _⟩ := Flow.LocalRunInit_spec env2 f verbose timestamp w2
  have hw0 : R (Flow.LocalRunInit env1 f verbose timestamp w1).2.2.2
      (Flow.LocalRunInit env2 f verbose timestamp w2).2.2.2 :=
    Flow.LocalRunInit_right h f verbose timestamp (Flow.LocalRunInit_left h f verbose timestamp hw)
  have hlen : (Flow.LocalRunInit env1 f verbose timestamp w1).1.Stages.length =
      (Flow.LocalRunInit env2 f verbose timestamp w2).1.Stages.length := by rw [a2, b2]
  obtain ⟨l1, l2, l3⟩ := Flow.LocalRunLoop_rel h verbose timestamp
    (Flow.LocalRunInit env1 f verbose timestamp w1).1.Stages.length 0
    { f := (Flow.LocalRunInit env1 f verbose timestamp w1).1,
      w := (Flow.LocalRunInit env1 f verbose timestamp w1).2.2.2, trace := [] }
    { f := (Flow.LocalRunInit env2 f verbose timestamp w2).1,
      w := (Flow.LocalRunInit env2 f verbose timestamp w2).2.2.2, trace := [] }
    (by rw [a1, b1]) (by simp only; rw [a2, b2]) (by intro q _; simp only; rw [a2, b2])
    hw0 rfl
  have x1 := Flow.LocalRun_after_loop env1 f verbose timestamp w1
  have x2 := Flow.LocalRun_after_loop env2 f verbose timestamp w2
  rw [← hlen] at x2
  have hst : (f.LocalRun env1 verbose timestamp w1).flow.Stages.map Stage.erase =
      (f.LocalRun env2 verbose timestamp w2).flow.Stages.map Stage.erase := by
    rw [x1.stages, x2.stages]
    exact l2
  have htr : (f.LocalRun env1 verbose timestamp w1).trace =
      (f.LocalRun env2 verbose timestamp w2).trace := by
    have t2 : (f.LocalRun env2 verbose timestamp w2).trace =
        (Flow.LocalRunLoop env2 verbose timestamp
          (Flow.LocalRunInit env2 f verbose timestamp w2).1.Stages.length 0
          { f := (Flow.LocalRunInit env2 f verbose timestamp w2).1,
            w := (Flow.LocalRunInit env2 f verbose timestamp w2).2.2.2, trace := [] }).trace :=
      rfl
    rw [t2, ← hlen]
    exact l3
  refine ⟨?_, (List.map_status_of_erase hst).1, (List.map_status_of_erase hst).2, hst, htr, ?_⟩
  · rw [x1.status_eq, x2.status_eq]
    exact l1
  · intro hn
    exact ⟨(Flow.LocalRun_notified env1 f verbose timestamp w1 hn).1,
      (Flow.LocalRun_notified env1 f verbose timestamp w1 hn).2,
      fun calls hc => Flow.LocalRun_calls hc f verbose timestamp w1 hn⟩

theorem recordingEnv_sameDispatch : SameDispatch recordingEnv testEnv (fun _ _ => True) where
  nowL := fun _ _ _ => trivial
  nowR := fun _ _ _ => trivial
  printL := fun _ _ _ _ => trivial
  printR := fun _ _ _ _ => trivial
  storeL := fun _ _ _ _ _ => trivial
  storeR := fun _ _ _ _ _ => trivial
  putL := fun _ _ _ _ _ _ _ _ _ _ _ => trivial
  putR := fun _ _ _ _ _ _ _ _ _ _ _ => trivial
  job := fun _ _ _ _ _ _ _ => ⟨rfl, rfl, rfl, trivial⟩
  par := fun _ _ _ _ _ _ _ => ⟨rfl, rfl, rfl, trivial⟩

theorem recordingEnv_notifyObserved : NotifyObserved recordingEnv (fun w => w) where
  silent :=
    { now := fun _ => rfl
      println := fun _ _ => rfl
      logCreate := fun _ _ _ => rfl
      jobRun := fun _ _ _ _ _ => rfl
      parallelRun := fun _ _ _ _ _ => rfl
      flowPut := fun _ _ _ _ _ _ _ _ _ => rfl
      getNumbers := fun _ _ => rfl
      dataPut := fun _ _ _ _ _ _ => rfl }
  notify := by
    intro ty f addrs w o w1 hx
    unfold recordingEnv at hx
    simp only at hx
    split at hx
    · cases hx
      rfl
    · cases hx

theorem notifiedFlow_lookup :
    ∀ rc ∈ notifiedFlow.Receivers, ∀ (g : Flow) (addrs : List String)
      (w0 : List (String × List String)),
      (recordingEnv.notify rc.Typ g addrs w0).isSome = true := by
  intro rc hrc g addrs w0
  have h : rc = { Typ := "mail", Address := "dev" } ∨ rc = { Typ := "mail", Address := "ops" } := by
    simpa [notifiedFlow, mkFlow] using hrc
  rcases h with h | h <;> rw [h] <;> rfl

/-- Witness of C12: the scenario flow with two receivers, run under the test
environment and under the environment whose stores and notifier fail and whose
world lists the calls of `Notify`, ends in `Failure` both times; the call of
`Notify` for the first receiver returns an error, and the calls listed after
the run are those for the first and for the second receiver. -/
theorem C12_bookkeeping_independence_witness :
    SameDispatch recordingEnv testEnv (fun _ _ => True) ∧
    NotifyObserved recordingEnv (fun w => w) ∧
    (∀ rc ∈ notifiedFlow.Receivers, ∀ (g : Flow) (addrs : List String)
      (w0 : List (String × List String)),
      (recordingEnv.notify rc.Typ g addrs w0).isSome = true) ∧
    (notifiedFlow.LocalRun recordingEnv false false []).flow.Status =
      (notifiedFlow.LocalRun testEnv false false ()).flow.Status ∧
    (notifiedFlow.LocalRun recordingEnv false false []).flow.Status = Failure ∧
    recordingEnv.notify "mail" notifiedFlow ["dev"] [] =
      some (some "mail down", [("mail", ["dev"])]) ∧
    (notifiedFlow.LocalRun recordingEnv false false []).world =
      [("mail", ["dev"]), ("mail", ["ops"])] :=
  ⟨recordingEnv_sameDispatch, recordingEnv_notifyObserved, notifiedFlow_lookup,
    (C12_bookkeeping_independence recordingEnv testEnv (fun _ _ => True)
      recordingEnv_sameDispatch notifiedFlow false false [] () trivial).1,
    by decide, rfl,
    (C12_bookkeeping_independence recordingEnv testEnv (fun _ _ => True)
      recordingEnv_sameDispatch notifiedFlow false false [] () trivial).2.2.2.2.2
      notifiedFlow_lookup |>.2.2 (fun w => w) recordingEnv_notifyObserved⟩

end Pilotage
